import Mathlib

/-!
# gomemcached: the binary frame codec

A shallow embedding of `mc_req.go` and `mc_res.go`.

The Go code overlays a 24-byte struct on the head of a byte buffer and reads
and writes the struct fields in host byte order.  The embedding keeps that:
a frame is the struct (fields as the host sees them) together with the bytes
that follow it in the same allocation, and the memory image of the struct is
recovered through the host byte order, which is a parameter.

Every slice the code takes of a frame goes through a cast of the frame pointer
to `*[1 << 30]byte`; `arrayView` keeps the bounds check of that slice
expression (a panic) and tells apart a view that leaves the frame's buffer.
The package variable `MaxBodyLen` is mutable, so the decoders take its current
value as an argument.  A reader is a byte stream followed by end of file; a
writer is a state with a `Write` function.

Platform assumptions: `int` and `uintptr` are 64 bits wide (so `int(blen)` is
never negative and the length sums do not wrap); allocation never fails.
-/

namespace Gomemcached

/-! ## Machine integers -/

/-- A byte (`uint8`). -/
abbrev Byte := Fin 256

/-- A `uint16`. -/
abbrev U16 := Fin 65536

/-- A `uint32`. -/
abbrev U32 := Fin 4294967296

/-- A `uint64`. -/
abbrev U64 := Fin 18446744073709551616

/-- The conversion `uint8(n)`. -/
def byte (n : Nat) : Byte := ⟨n % 256, Nat.mod_lt _ (by decide)⟩

/-- The conversion `uint16(n)`. -/
def u16 (n : Nat) : U16 := ⟨n % 65536, Nat.mod_lt _ (by decide)⟩

/-- The conversion `uint32(n)`. -/
def u32 (n : Nat) : U32 := ⟨n % 4294967296, Nat.mod_lt _ (by decide)⟩

/-- The conversion `uint64(n)`. -/
def u64 (n : Nat) : U64 := ⟨n % 18446744073709551616, Nat.mod_lt _ (by decide)⟩

/-! ## `encoding/binary` and host byte order -/

/-- Big-endian encoding of `v` on `w` bytes: `binary.BigEndian.PutUint16/32/64`
for `w = 2, 4, 8`. -/
def beBytes : Nat → Nat → List Byte
  | 0, _ => []
  | w + 1, v => byte (v / 256 ^ w) :: beBytes w v

/-- Big-endian decoding: `binary.BigEndian.Uint16/32/64`. -/
def beVal (bs : List Byte) : Nat := bs.foldl (fun acc b => acc * 256 + b.val) 0

/-- Byte order of the host. -/
inductive Endian
  | little
  | big
deriving DecidableEq, Repr

/-- The bytes a `w`-byte integer field holding `v` occupies in memory. -/
def hostBytes : Endian → Nat → Nat → List Byte
  | .big, w, v => beBytes w v
  | .little, w, v => (beBytes w v).reverse

/-- The value the host reads from the bytes of an integer field. -/
def hostVal : Endian → List Byte → Nat
  | .big, bs => beVal bs
  | .little, bs => beVal bs.reverse

/-- What a `w`-byte field reads after `binary.BigEndian.PutUintN` has
overwritten its own bytes with the big-endian encoding of `v`. -/
def putBE (h : Endian) (w v : Nat) : Nat := hostVal h (beBytes w v)

/-! ## Constants (`mc_constants.go`) -/

/-- Modelled from the spec: the constant `HDR_LEN` of `mc_constants.go`, the
fixed header length, 24 bytes. -/
def HDR_LEN : Nat := 24

/-- Modelled from the spec: the constant `REQ_MAGIC` of `mc_constants.go`,
the magic byte of a request, 0x80. -/
def REQ_MAGIC : Byte := 0x80

/-- Modelled from the spec: the constant `RES_MAGIC` of `mc_constants.go`,
the magic byte of a response, 0x81. -/
def RES_MAGIC : Byte := 0x81

/-- An operation code, `type CommandCode uint8`. -/
abbrev CommandCode := Byte

/-- A response status, `type Status uint16`. -/
abbrev Status := U16

/-- Modelled from the spec: the opcode `SET` of `mc_constants.go`, 0x01. -/
def SET : CommandCode := 0x01

/-- Modelled from the spec: the opcode `TAP_MUTATION` of `mc_constants.go`,
the first of the TAP range, 0x41 in the memcached binary protocol. -/
def TAP_MUTATION : CommandCode := 0x41

/-- Modelled from the spec: the opcode `TAP_CHECKPOINT_END` of
`mc_constants.go`, the last of the TAP range, 0x47 in the memcached binary
protocol. -/
def TAP_CHECKPOINT_END : CommandCode := 0x47

/-- Modelled from the spec: the status `SUCCESS` of `mc_constants.go`, 0x00
in the memcached binary protocol. -/
def SUCCESS : Status := 0x00

/-- Modelled from the spec: the status `KEY_ENOENT` (not found) of
`mc_constants.go`, 0x01 in the memcached binary protocol. -/
def KEY_ENOENT : Status := 0x01

/-- Modelled from the spec: the status `KEY_EEXISTS` of `mc_constants.go`,
0x02 in the memcached binary protocol. -/
def KEY_EEXISTS : Status := 0x02

/-- Modelled from the spec: the status `NOT_STORED` of `mc_constants.go`,
0x05 in the memcached binary protocol. -/
def NOT_STORED : Status := 0x05

/-- Modelled from the spec: the status `TMPFAIL` of `mc_constants.go`, 0x86
in the memcached binary protocol. -/
def TMPFAIL : Status := 0x86

/-- The initial value of the package variable `MaxBodyLen`, `int(1e6)`.  The
variable is mutable, so the decoders take its current value as an argument. -/
def MaxBodyLen : Int := 1000000

/-! ## Memory views -/

/-- Why a view of a frame's memory is not available. -/
inductive Fault
  /-- A run-time panic: slice bounds out of range. -/
  | sliceBounds
  /-- The view reaches past the end of the buffer the frame lives in. -/
  | outsideBuffer
deriving DecidableEq, Repr

/-- Length of the array type `[1 << 30]byte` that the code casts a frame
pointer to before slicing. -/
def ARRAY_LEN : Nat := 1073741824

/-- The slice expression `(*[1 << 30]byte)(unsafe.Pointer(p))[lo:hi]`, where
`mem` is the buffer that starts at `p`.  Go panics unless
`lo <= hi <= 1 << 30`; a view that passes this check but ends after the
buffer is outside what the program owns. -/
def arrayView (mem : List Byte) (lo hi : Nat) : Except Fault (List Byte) :=
  if lo ≤ hi ∧ hi ≤ ARRAY_LEN then
    if hi ≤ mem.length then .ok ((mem.drop lo).take (hi - lo))
    else .error .outsideBuffer
  else .error .sliceBounds

/-- The builtin `copy(dst[off:], src)`, for `off <= len(dst)`: the buffer
`dst` afterwards. -/
def copyAt (dst : List Byte) (off : Nat) (src : List Byte) : List Byte :=
  let n := min src.length (dst.length - off)
  dst.take off ++ src.take n ++ dst.drop (off + n)

/-! ## Readers and writers -/

/-- The errors of the decoders. -/
inductive Error
  /-- The error `io.EOF`. -/
  | EOF
  /-- The error `io.ErrUnexpectedEOF`. -/
  | ErrUnexpectedEOF
  /-- The error `fmt.Errorf("Bad magic: 0x%02x", b)`. -/
  | badMagic (b : Byte)
  /-- The error `fmt.Errorf("%d is too big (max %d)", blen, MaxBodyLen)`. -/
  | tooBig (blen : Nat) (max : Int)
deriving DecidableEq, Repr

/-- A lower-case hexadecimal digit. -/
def hexDigit (n : Nat) : Char :=
  if n < 10 then Char.ofNat (48 + n) else Char.ofNat (87 + n)

/-- The text of an error. -/
def Error.msg : Error → String
  | .EOF => "EOF"
  | .ErrUnexpectedEOF => "unexpected EOF"
  | .badMagic b => "Bad magic: 0x" ++ String.mk [hexDigit (b.val / 16), hexDigit (b.val % 16)]
  | .tooBig blen max => toString blen ++ " is too big (max " ++ toString max ++ ")"

/-- The outcome of `io.ReadFull`. -/
structure ReadResult where
  /-- The destination buffer afterwards. -/
  buf : List Byte
  /-- The number of bytes read. -/
  n : Nat
  /-- The error, if any. -/
  err : Option Error
  /-- What is left in the reader. -/
  rest : List Byte
deriving DecidableEq, Repr

/-- The call `io.ReadFull(r, buf)` on a reader that delivers the byte stream
`r` and then reports end of file. -/
def ReadFull (r : List Byte) (buf : List Byte) : ReadResult :=
  let n := min buf.length r.length
  { buf := r.take n ++ buf.drop n
    n := n
    err := if buf.length ≤ r.length then none
           else if n = 0 then some .EOF else some .ErrUnexpectedEOF
    rest := r.drop n }

/-- An `io.Writer`: a state and its `Write` method, which returns the byte
count, the error and the next state. -/
structure Writer (σ ε : Type) where
  /-- The method `Write(p []byte) (n int, err error)`. -/
  Write : σ → List Byte → Int × Option ε × σ

/-- The outcome of `Transmit`: the two results, then the writer and the frame
as the call left them. -/
structure TransmitResult (σ ε φ : Type) where
  /-- The returned byte count. -/
  n : Int
  /-- The returned error. -/
  err : Option ε
  /-- The writer afterwards. -/
  w : σ
  /-- The frame afterwards. -/
  frame : φ

/-- The outcome of a decoder. -/
structure RecvResult (φ : Type) where
  /-- The returned frame pointer (`none` for `nil`). -/
  frame : Option φ
  /-- The returned byte count. -/
  n : Nat
  /-- The returned error (`none` for `nil`). -/
  err : Option Error
  /-- What is left in the reader. -/
  rest : List Byte
deriving DecidableEq, Repr

/-! ## Requests (`mc_req.go`) -/

/-- The struct `MCRequest`. -/
structure MCRequest where
  /-- Offset 0. -/
  magic : Byte := 0
  /-- Offset 1. -/
  Opcode : CommandCode := 0
  /-- Offset 2. -/
  klen : U16 := 0
  /-- Offset 4. -/
  elen : Byte := 0
  /-- Offset 5. -/
  dt : Byte := 0
  /-- Offset 6. -/
  VBucket : U16 := 0
  /-- Offset 8. -/
  blen : U32 := 0
  /-- Offset 12. -/
  Opaque : U32 := 0
  /-- Offset 16. -/
  Cas : U64 := 0
deriving DecidableEq, Repr

namespace MCRequest

/-- A `*MCRequest`: the struct it points to and the bytes that follow the
struct in its buffer. -/
structure Frame where
  /-- The struct at the head of the buffer. -/
  hdr : MCRequest
  /-- The rest of the buffer. -/
  tail : List Byte
deriving DecidableEq, Repr

/-- The 24 bytes the struct occupies in memory. -/
def image (h : Endian) (s : MCRequest) : List Byte :=
  [s.magic, s.Opcode] ++ hostBytes h 2 s.klen ++ [s.elen, s.dt] ++ hostBytes h 2 s.VBucket
    ++ hostBytes h 4 s.blen ++ hostBytes h 4 s.Opaque ++ hostBytes h 8 s.Cas

/-- The buffer a frame pointer points into. -/
def Frame.mem (h : Endian) (req : Frame) : List Byte := image h req.hdr ++ req.tail

/-- The method `data`. -/
def data (h : Endian) (req : Frame) (start end_ : Nat) : Except Fault (List Byte) :=
  arrayView (req.mem h) (start + HDR_LEN) (end_ + HDR_LEN)

/-- The method `real_elen`. -/
def real_elen (h : Endian) (req : Frame) : Except Fault Nat :=
  if req.hdr.Opcode ≥ TAP_MUTATION ∧ req.hdr.Opcode ≤ TAP_CHECKPOINT_END ∧ req.hdr.blen ≠ 0 then do
    let b ← data h req 0 2
    pure (req.hdr.elen.val + beVal b)
  else
    pure req.hdr.elen.val

/-- The method `Extras`. -/
def Extras (h : Endian) (req : Frame) : Except Fault (List Byte) := do
  let e ← real_elen h req
  data h req 0 e

/-- The method `Key`. -/
def Key (h : Endian) (req : Frame) : Except Fault (List Byte) := do
  let elen ← real_elen h req
  data h req elen (elen + req.hdr.klen.val)

/-- The method `Body`. -/
def Body (h : Endian) (req : Frame) : Except Fault (List Byte) := do
  let e ← real_elen h req
  data h req (e + req.hdr.klen.val) req.hdr.blen.val

/-- The method `Size`. -/
def Size (req : MCRequest) : Int := (HDR_LEN : Int) + (req.blen.val : Int)

/-- The method `SetData`. -/
def SetData (hdr : MCRequest) (extras key body : List Byte) : Frame :=
  let all := List.replicate (HDR_LEN + extras.length + key.length + body.length) (0 : Byte)
  let req : MCRequest :=
    { hdr with
      elen := byte extras.length
      klen := u16 key.length
      blen := u32 (body.length + extras.length + key.length)
      magic := REQ_MAGIC
      dt := 0 }
  let all := copyAt all HDR_LEN extras
  let all := copyAt all (HDR_LEN + extras.length) key
  let all := copyAt all (HDR_LEN + extras.length + key.length) body
  { hdr := req, tail := all.drop HDR_LEN }

/-- The method `fixByteOrder`: each of the five fields is overwritten, in
place, with the big-endian encoding of its own value. -/
def fixByteOrder (h : Endian) (req : Frame) : Frame :=
  { req with
    hdr :=
      { req.hdr with
        klen := u16 (putBE h 2 req.hdr.klen)
        VBucket := u16 (putBE h 2 req.hdr.VBucket)
        blen := u32 (putBE h 4 req.hdr.blen)
        Opaque := u32 (putBE h 4 req.hdr.Opaque)
        Cas := u64 (putBE h 8 req.hdr.Cas) } }

/-- The method `HeaderBytes`: the returned slice and the frame afterwards. -/
def HeaderBytes (h : Endian) (req : Frame) : Except Fault (List Byte × Frame) := do
  let e ← real_elen h req
  let l := HDR_LEN + e + req.hdr.klen.val
  let req := fixByteOrder h req
  let bts ← arrayView (req.mem h) 0 l
  pure (bts, req)

/-- The method `Bytes`: the returned slice and the frame afterwards. -/
def Bytes (h : Endian) (req : Frame) : Except Fault (List Byte × Frame) := do
  let l := HDR_LEN + req.hdr.blen.val
  let req := fixByteOrder h req
  let bts ← arrayView (req.mem h) 0 l
  pure (bts, req)

/-- The method `Transmit`. -/
def Transmit {σ ε : Type} (h : Endian) (req : Frame) (w : Writer σ ε) (s : σ) :
    Except Fault (TransmitResult σ ε Frame) :=
  if req.hdr.blen.val < 128 then do
    let (bts, req) ← Bytes h req
    let (n, err, s) := w.Write s bts
    pure { n := n, err := err, w := s, frame := req }
  else do
    let bts ← Body h req
    let (hb, req) ← HeaderBytes h req
    let (n, err, s) := w.Write s hb
    match err with
    | none =>
      let (m, err, s) := w.Write s bts
      pure { n := n + m, err := err, w := s, frame := req }
    | some e => pure { n := n, err := some e, w := s, frame := req }

end MCRequest

/-- The bytes of an ASCII text (a Go string is its bytes). -/
def ascii (s : String) : List Byte := s.toList.map (fun c => byte c.toNat)

/-- The method `String` of `*MCRequest`, as the bytes of the returned string.
`name` is the method `CommandCode.String` of `mc_constants.go`.  The
arguments of `Sprintf` are evaluated in order: the opcode, the body length
`int(blen) - int(klen) - int(real_elen())`, then `Key()`. -/
def MCRequest.String (h : Endian) (name : CommandCode → List Byte) (req : MCRequest.Frame) :
    Except Fault (List Byte) := do
  let e ← MCRequest.real_elen h req
  let bodylen : Int := (req.hdr.blen.val : Int) - (req.hdr.klen.val : Int) - (e : Int)
  let k ← MCRequest.Key h req
  pure (ascii "\x7bMCRequest opcode=" ++ name req.hdr.Opcode ++ ascii ", bodylen="
    ++ ascii (toString bodylen) ++ ascii ", key=\x27" ++ k ++ ascii "\x27\x7d")

/-- The function `ReceiveRequest`.  `maxBodyLen` is the current value of the
variable `MaxBodyLen`, `r` the byte stream the reader delivers, and `hdrBytes`
the caller's scratch slice, given by the bytes of its backing array from the
start of the slice to its capacity (so `cap(hdrBytes)` is the length of the
list, and a nil slice is the empty list). -/
def ReceiveRequest (maxBodyLen : Int) (r : List Byte) (hdrBytes : List Byte) :
    RecvResult MCRequest.Frame :=
  let hdrBytes :=
    if hdrBytes.length < HDR_LEN then List.replicate HDR_LEN (0 : Byte)
    else hdrBytes.take HDR_LEN
  let rd := ReadFull r hdrBytes
  let hdrBytes := rd.buf
  let n := rd.n
  match rd.err with
  | some e => { frame := none, n := n, err := some e, rest := rd.rest }
  | none =>
    if hdrBytes.getD 0 0 ≠ REQ_MAGIC then
      { frame := none, n := n, err := some (.badMagic (hdrBytes.getD 0 0)), rest := rd.rest }
    else
      let blen := u32 (beVal ((hdrBytes.drop 8).take 4))
      if (blen.val : Int) > maxBodyLen then
        { frame := none, n := n, err := some (.tooBig blen.val maxBodyLen), rest := rd.rest }
      else
        let bts := List.replicate (HDR_LEN + blen.val) (0 : Byte)
        let rd2 := ReadFull rd.rest (bts.drop HDR_LEN)
        let req : MCRequest :=
          { magic := hdrBytes.getD 0 0
            Opcode := hdrBytes.getD 1 0
            klen := u16 (beVal ((hdrBytes.drop 2).take 2))
            elen := hdrBytes.getD 4 0
            dt := hdrBytes.getD 5 0
            VBucket := u16 (beVal ((hdrBytes.drop 6).take 2))
            blen := blen
            Opaque := u32 (beVal ((hdrBytes.drop 12).take 4))
            Cas := u64 (beVal ((hdrBytes.drop 16).take 8)) }
        { frame := some { hdr := req, tail := rd2.buf }
          n := n + rd2.n
          err := rd2.err
          rest := rd2.rest }

/-! ## Responses (`mc_res.go`) -/

/-- The struct `MCResponse`. -/
structure MCResponse where
  /-- Offset 0. -/
  magic : Byte := 0
  /-- Offset 1. -/
  Opcode : CommandCode := 0
  /-- Offset 2. -/
  klen : U16 := 0
  /-- Offset 4. -/
  elen : Byte := 0
  /-- Offset 5. -/
  dt : Byte := 0
  /-- Offset 6. -/
  Status : Status := 0
  /-- Offset 8. -/
  blen : U32 := 0
  /-- Offset 12. -/
  Opaque : U32 := 0
  /-- Offset 16. -/
  Cas : U64 := 0
deriving DecidableEq, Repr

namespace MCResponse

/-- A `*MCResponse`: the struct it points to and the bytes that follow the
struct in its buffer. -/
structure Frame where
  /-- The struct at the head of the buffer. -/
  hdr : MCResponse
  /-- The rest of the buffer. -/
  tail : List Byte
deriving DecidableEq, Repr

/-- The 24 bytes the struct occupies in memory. -/
def image (h : Endian) (s : MCResponse) : List Byte :=
  [s.magic, s.Opcode] ++ hostBytes h 2 s.klen ++ [s.elen, s.dt] ++ hostBytes h 2 s.Status
    ++ hostBytes h 4 s.blen ++ hostBytes h 4 s.Opaque ++ hostBytes h 8 s.Cas

/-- The buffer a frame pointer points into. -/
def Frame.mem (h : Endian) (res : Frame) : List Byte := image h res.hdr ++ res.tail

/-- The method `data`. -/
def data (h : Endian) (res : Frame) (start end_ : Nat) : Except Fault (List Byte) :=
  arrayView (res.mem h) (start + HDR_LEN) (end_ + HDR_LEN)

/-- The method `Extras`. -/
def Extras (h : Endian) (res : Frame) : Except Fault (List Byte) :=
  data h res 0 res.hdr.elen.val

/-- The method `Key`. -/
def Key (h : Endian) (res : Frame) : Except Fault (List Byte) :=
  data h res res.hdr.elen.val (res.hdr.elen.val + res.hdr.klen.val)

/-- The method `Body`. -/
def Body (h : Endian) (res : Frame) : Except Fault (List Byte) :=
  data h res (res.hdr.elen.val + res.hdr.klen.val) res.hdr.blen.val

/-- The method `Size`. -/
def Size (res : Frame) : Int := (HDR_LEN : Int) + (res.hdr.blen.val : Int)

/-- The method `SetData`. -/
def SetData (hdr : MCResponse) (extras key body : List Byte) : Frame :=
  let all := List.replicate (HDR_LEN + extras.length + key.length + body.length) (0 : Byte)
  let res : MCResponse :=
    { hdr with
      elen := byte extras.length
      klen := u16 key.length
      blen := u32 (body.length + extras.length + key.length)
      magic := RES_MAGIC
      dt := 0 }
  let all := copyAt all HDR_LEN extras
  let all := copyAt all (HDR_LEN + extras.length) key
  let all := copyAt all (HDR_LEN + extras.length + key.length) body
  { hdr := res, tail := all.drop HDR_LEN }

/-- The method `fixByteOrder`: each of the five fields is overwritten, in
place, with the big-endian encoding of its own value. -/
def fixByteOrder (h : Endian) (res : Frame) : Frame :=
  { res with
    hdr :=
      { res.hdr with
        klen := u16 (putBE h 2 res.hdr.klen)
        Status := u16 (putBE h 2 res.hdr.Status)
        blen := u32 (putBE h 4 res.hdr.blen)
        Opaque := u32 (putBE h 4 res.hdr.Opaque)
        Cas := u64 (putBE h 8 res.hdr.Cas) } }

/-- The method `HeaderBytes`: the returned slice and the frame afterwards. -/
def HeaderBytes (h : Endian) (res : Frame) : Except Fault (List Byte × Frame) := do
  let l := HDR_LEN + res.hdr.elen.val + res.hdr.klen.val
  let res := fixByteOrder h res
  let bts ← arrayView (res.mem h) 0 l
  pure (bts, res)

/-- The method `Bytes`: the returned slice and the frame afterwards. -/
def Bytes (h : Endian) (res : Frame) : Except Fault (List Byte × Frame) := do
  let l := HDR_LEN + res.hdr.blen.val
  let res := fixByteOrder h res
  let bts ← arrayView (res.mem h) 0 l
  pure (bts, res)

/-- The method `Transmit`.  In the two-write branch the count of the second
write is added into the local `m` (`m += n`), and `n` is returned as the
first write left it. -/
def Transmit {σ ε : Type} (h : Endian) (res : Frame) (w : Writer σ ε) (s : σ) :
    Except Fault (TransmitResult σ ε Frame) :=
  if res.hdr.blen.val < 128 then do
    let (bts, res) ← Bytes h res
    let (n, err, s) := w.Write s bts
    pure { n := n, err := err, w := s, frame := res }
  else do
    let bts ← Body h res
    let (hb, res) ← HeaderBytes h res
    let (n, err, s) := w.Write s hb
    match err with
    | none =>
      let (_m, err, s) := w.Write s bts
      pure { n := n, err := err, w := s, frame := res }
    | some e => pure { n := n, err := some e, w := s, frame := res }

end MCResponse

/-- The function `ReceiveResponse`, with the arguments of `ReceiveRequest`. -/
def ReceiveResponse (maxBodyLen : Int) (r : List Byte) (hdrBytes : List Byte) :
    RecvResult MCResponse.Frame :=
  let hdrBytes :=
    if hdrBytes.length < HDR_LEN then List.replicate HDR_LEN (0 : Byte)
    else hdrBytes.take HDR_LEN
  let rd := ReadFull r hdrBytes
  let hdrBytes := rd.buf
  let n := rd.n
  match rd.err with
  | some e => { frame := none, n := n, err := some e, rest := rd.rest }
  | none =>
    if hdrBytes.getD 0 0 ≠ RES_MAGIC then
      { frame := none, n := n, err := some (.badMagic (hdrBytes.getD 0 0)), rest := rd.rest }
    else
      let blen := u32 (beVal ((hdrBytes.drop 8).take 4))
      if (blen.val : Int) > maxBodyLen then
        { frame := none, n := n, err := some (.tooBig blen.val maxBodyLen), rest := rd.rest }
      else
        let bts := List.replicate (HDR_LEN + blen.val) (0 : Byte)
        let rd2 := ReadFull rd.rest (bts.drop HDR_LEN)
        let res : MCResponse :=
          { magic := hdrBytes.getD 0 0
            Opcode := hdrBytes.getD 1 0
            klen := u16 (beVal ((hdrBytes.drop 2).take 2))
            elen := hdrBytes.getD 4 0
            dt := hdrBytes.getD 5 0
            Status := u16 (beVal ((hdrBytes.drop 6).take 2))
            blen := blen
            Opaque := u32 (beVal ((hdrBytes.drop 12).take 4))
            Cas := u64 (beVal ((hdrBytes.drop 16).take 8)) }
        { frame := some { hdr := res, tail := rd2.buf }
          n := n + rd2.n
          err := rd2.err
          rest := rd2.rest }

/-! ## Errors and their classification (`mc_res.go`) -/

/-- A value of the interface type `error` as the classifiers see it: nil, a
`*MCResponse` (which implements `error`; the pointer is a valid one, to a
response frame), or an error of any other type. -/
inductive ErrorValue (ε : Type)
  /-- The nil error. -/
  | nil
  /-- A response frame used as an error. -/
  | response (res : MCResponse.Frame)
  /-- An error that is not a `*MCResponse`. -/
  | other (e : ε)

/-- The function `errStatus`. -/
def errStatus {ε : Type} (e : ErrorValue ε) : Status :=
  let status : Status := 0xffff
  match e with
  | .response res => res.hdr.Status
  | _ => status

/-- The function `IsNotFound`. -/
def IsNotFound {ε : Type} (e : ErrorValue ε) : Bool :=
  errStatus e = KEY_ENOENT

/-- The function `IsFatal`. -/
def IsFatal {ε : Type} (e : ErrorValue ε) : Bool :=
  match e with
  | .nil => false
  | _ =>
    if errStatus e = KEY_ENOENT ∨ errStatus e = KEY_EEXISTS ∨ errStatus e = NOT_STORED
        ∨ errStatus e = TMPFAIL then false
    else true

/-! ## Observers used to state the properties -/

/-- A writer that accepts every slice in full and keeps the slices it was
given, in order (a `bytes.Buffer` that remembers the call boundaries). -/
def recorder : Writer (List (List Byte)) Empty where
  Write := fun s p => ((p.length : Int), none, s ++ [p])

/-- One call of `Write` as seen from outside: its argument and its results. -/
structure WriteCall (ε : Type) where
  /-- The slice passed. -/
  p : List Byte
  /-- The count returned. -/
  n : Int
  /-- The error returned. -/
  err : Option ε

/-- The writer `w`, with every call of `Write` appended to a log. -/
def logged {σ ε : Type} (w : Writer σ ε) : Writer (σ × List (WriteCall ε)) ε where
  Write := fun s p =>
    let r := w.Write s.1 p
    (r.1, r.2.1, (r.2.2, s.2 ++ [{ p := p, n := r.1, err := r.2.1 }]))

/-- The frame `fr` is the frame `req` with each of the five multi-byte header
fields byte-swapped (its big-endian bytes are those of the old value,
reversed) and everything else unchanged. -/
def MCRequest.Swapped (req fr : MCRequest.Frame) : Prop :=
  fr.tail = req.tail ∧ fr.hdr.magic = req.hdr.magic ∧ fr.hdr.Opcode = req.hdr.Opcode ∧
  fr.hdr.elen = req.hdr.elen ∧ fr.hdr.dt = req.hdr.dt ∧
  beBytes 2 fr.hdr.klen = (beBytes 2 req.hdr.klen).reverse ∧
  beBytes 2 fr.hdr.VBucket = (beBytes 2 req.hdr.VBucket).reverse ∧
  beBytes 4 fr.hdr.blen = (beBytes 4 req.hdr.blen).reverse ∧
  beBytes 4 fr.hdr.Opaque = (beBytes 4 req.hdr.Opaque).reverse ∧
  beBytes 8 fr.hdr.Cas = (beBytes 8 req.hdr.Cas).reverse

/-- The wire image of a request header: the fields in the order of the
struct, each multi-byte field big-endian. -/
def MCRequest.wire (s : MCRequest) : List Byte :=
  [s.magic, s.Opcode] ++ beBytes 2 s.klen ++ [s.elen, s.dt] ++ beBytes 2 s.VBucket
    ++ beBytes 4 s.blen ++ beBytes 4 s.Opaque ++ beBytes 8 s.Cas

/-- The wire image of a response header: the fields in the order of the
struct, each multi-byte field big-endian. -/
def MCResponse.wire (s : MCResponse) : List Byte :=
  [s.magic, s.Opcode] ++ beBytes 2 s.klen ++ [s.elen, s.dt] ++ beBytes 2 s.Status
    ++ beBytes 4 s.blen ++ beBytes 4 s.Opaque ++ beBytes 8 s.Cas

/-! ## Test vectors (`mc_req_test.go`) -/

/-- The bytes of `"somekey"`. -/
def somekey : List Byte := [115, 111, 109, 101, 107, 101, 121]

/-- The bytes of `"somevalue"`. -/
def somevalue : List Byte := [115, 111, 109, 101, 118, 97, 108, 117, 101]

/-- The header template of the encoding tests. -/
def testHdr : MCRequest := { Opcode := SET, Cas := 938424885, Opaque := 7242, VBucket := 824 }

/-- The header template of the receive tests. -/
def testHdr0 : MCRequest := { Opcode := SET, Cas := 0, Opaque := 7242, VBucket := 824 }

/-- The input of `TestReceivingTapRequest`. -/
def tapContent : List Byte :=
  [0x80, 0x41, 0x0, 0x7, 0x2, 0x0, 0x3, 0x38, 0x0, 0x0, 0x0, 0x16, 0x0, 0x0, 0x1c, 0x4a,
    0x0, 0x0, 0x0, 0x0, 0x37, 0xef, 0x3a, 0x35, 0, 4, 1, 2, 3, 4] ++ somekey ++ somevalue

/-- The input of `TestReceiveRequestBadMagic`: the wire image of the test
request with its first byte overwritten by `0x83`. -/
def badMagicData : List Byte :=
  [0x83, 0x01, 0x0, 0x7, 0x1, 0x0, 0x3, 0x38, 0x0, 0x0, 0x0, 0x11, 0x0, 0x0, 0x1c, 0x4a,
    0x0, 0x0, 0x0, 0x0, 0x0, 0x0, 0x0, 0x0, 1] ++ somekey ++ somevalue

/-- The input of `TestReceiveRequestShortBody`: the wire image of the test
request without its last three bytes. -/
def shortBodyData : List Byte :=
  [0x80, 0x01, 0x0, 0x7, 0x1, 0x0, 0x3, 0x38, 0x0, 0x0, 0x0, 0x11, 0x0, 0x0, 0x1c, 0x4a,
    0x0, 0x0, 0x0, 0x0, 0x0, 0x0, 0x0, 0x0, 1] ++ somekey ++ [115, 111, 109, 101, 118, 97]

/-- The first 26 bytes of the input of `TestReceiveRequestLongBody`: the
header declares `1 + 7 + (MaxBodyLen + 5) = 1000013 = 0xF424D` tail bytes. -/
def longBodyHeader : List Byte :=
  [0x80, 0x01, 0x0, 0x7, 0x1, 0x0, 0x3, 0x38, 0x0, 0xf, 0x42, 0x4d, 0x0, 0x0, 0x1c, 0x4a,
    0x0, 0x0, 0x0, 0x0, 0x0, 0x0, 0x0, 0x0, 1, 115]

/-- A header that declares exactly `MaxBodyLen = 0xF4240` tail bytes, with two
tail bytes after it. -/
def maxBodyHeader : List Byte :=
  [0x80, 0x01, 0x0, 0x7, 0x1, 0x0, 0x3, 0x38, 0x0, 0xf, 0x42, 0x40, 0x0, 0x0, 0x1c, 0x4a,
    0x0, 0x0, 0x0, 0x0, 0x0, 0x0, 0x0, 0x0, 1, 115]

/-- A TAP_MUTATION request with no extras, no key and a tail of the single
byte `0x00`. -/
def tapOneByte : List Byte :=
  [0x80, 0x41, 0x0, 0x0, 0x0, 0x0, 0x0, 0x0, 0x0, 0x0, 0x0, 0x1, 0x0, 0x0, 0x0, 0x0,
    0x0, 0x0, 0x0, 0x0, 0x0, 0x0, 0x0, 0x0, 0x0]

/-- The header of a TAP_MUTATION request with no extras and no key that
declares `1 << 30 = 0x40000000` tail bytes. -/
def tapBigHdr : MCRequest := { magic := 0x80, Opcode := 0x41, blen := 1073741824 }

/-- A response header template for the transmit examples. -/
def testRes : MCResponse := { Opcode := SET, Opaque := 7242, Cas := 938424885 }

/-- The bytes of `"thekey"` (`TestRequestTransmit`). -/
def thekey : List Byte := [116, 104, 101, 107, 101, 121]

/-- A stand-in for `CommandCode.String` in the examples: `SET` and
`TAP_MUTATION` print their names, as the tests expect. -/
def testName (c : CommandCode) : List Byte :=
  if c = SET then ascii "SET" else if c = TAP_MUTATION then ascii "TAP_MUTATION" else ascii "?"

/-- A 24-byte request that declares a key of 7 bytes and an empty tail. -/
def keyNoTail : List Byte :=
  [0x80, 0x01, 0x0, 0x7, 0x0, 0x0, 0x0, 0x0, 0x0, 0x0, 0x0, 0x0, 0x0, 0x0, 0x0, 0x0,
    0x0, 0x0, 0x0, 0x0, 0x0, 0x0, 0x0, 0x0]

/-- The frame `ReceiveRequest` returns for `tapContent`. -/
def tapFrame : MCRequest.Frame :=
  { hdr := { magic := 0x80, Opcode := 0x41, klen := 7, elen := 2, VBucket := 824, blen := 22,
             Opaque := 7242, Cas := 938424885 }
    tail := [0, 4, 1, 2, 3, 4] ++ somekey ++ somevalue }

/-- The frame `ReceiveRequest` returns for `keyNoTail`. -/
def keyNoTailFrame : MCRequest.Frame :=
  { hdr := { magic := 0x80, Opcode := SET, klen := 7 }, tail := [] }

/-- The header of a SET request with no extras and no key that declares
`1 << 30 = 0x40000000` tail bytes. -/
def bigHdr : MCRequest := { magic := 0x80, Opcode := SET, blen := 1073741824 }

/-! ## Lemmas: integers and byte order -/

theorem beBytes_length (w v : Nat) : (beBytes w v).length = w := by
  induction w with
  | zero => rfl
  | succ w ih => simp [beBytes, ih]

theorem beVal_foldl (bs : List Byte) (a : Nat) :
    bs.foldl (fun acc (b : Byte) => acc * 256 + b.val) a = a * 256 ^ bs.length + beVal bs := by
  induction bs generalizing a with
  | nil => simp [beVal]
  | cons b bs ih =>
    simp only [List.foldl_cons, List.length_cons, beVal]
    rw [ih, ih (0 * 256 + b.val)]
    ring

theorem beVal_cons (b : Byte) (bs : List Byte) :
    beVal (b :: bs) = b.val * 256 ^ bs.length + beVal bs := by
  simp only [beVal, List.foldl_cons]
  rw [beVal_foldl]
  simp [beVal]

theorem beVal_lt (bs : List Byte) : beVal bs < 256 ^ bs.length := by
  induction bs with
  | nil => simp [beVal]
  | cons b bs ih =>
    rw [beVal_cons, List.length_cons, pow_succ]
    have hb := b.isLt
    nlinarith

theorem beVal_beBytes (w v : Nat) : beVal (beBytes w v) = v % 256 ^ w := by
  induction w with
  | zero => simp [beBytes, beVal, Nat.mod_one]
  | succ w ih =>
    rw [beBytes, beVal_cons, ih, beBytes_length]
    simp only [byte]
    rw [pow_succ, Nat.mod_mul, Nat.mul_comm]
    omega

theorem byte_val (b : Byte) : byte b.val = b := by
  apply Fin.ext
  simp [byte, Nat.mod_eq_of_lt b.isLt]

theorem beBytes_mod_pow (w k v : Nat) (hk : w ≤ k) : beBytes w (v % 256 ^ k) = beBytes w v := by
  induction w with
  | zero => rfl
  | succ w ih =>
    rw [beBytes, beBytes, ih (by omega)]
    congr 1
    apply Fin.ext
    simp only [byte]
    obtain ⟨d, rfl⟩ : ∃ d, k = w + (d + 1) := ⟨k - w - 1, by omega⟩
    rw [pow_add, Nat.mod_mul_right_div_self, pow_succ, Nat.mod_mul_left_mod]

theorem beBytes_beVal (bs : List Byte) : beBytes bs.length (beVal bs) = bs := by
  induction bs with
  | nil => rfl
  | cons b bs ih =>
    rw [List.length_cons, beBytes, beVal_cons]
    have hlt := beVal_lt bs
    have hpos : 0 < 256 ^ bs.length := Nat.pow_pos (by decide)
    congr 1
    · rw [Nat.mul_comm, Nat.mul_add_div hpos, Nat.div_eq_of_lt hlt, Nat.add_zero, byte_val]
    · rw [← beBytes_mod_pow bs.length bs.length _ (Nat.le_refl _), Nat.mul_comm,
        Nat.mul_add_mod, Nat.mod_eq_of_lt hlt, ih]

theorem hostBytes_length (h : Endian) (w v : Nat) : (hostBytes h w v).length = w := by
  cases h <;> simp [hostBytes, beBytes_length]

theorem putBE_lt (h : Endian) (w v : Nat) : putBE h w v < 256 ^ w := by
  cases h
  · have := beVal_lt (beBytes w v).reverse
    simpa [putBE, hostVal, beBytes_length] using this
  · have := beVal_lt (beBytes w v)
    simpa [putBE, hostVal, beBytes_length] using this

theorem hostBytes_putBE (h : Endian) (w v : Nat) : hostBytes h w (putBE h w v) = beBytes w v := by
  cases h
  · simp only [hostBytes, putBE, hostVal]
    have := beBytes_beVal (beBytes w v).reverse
    rw [List.length_reverse, beBytes_length] at this
    rw [this, List.reverse_reverse]
  · simp only [hostBytes, putBE, hostVal]
    have := beBytes_beVal (beBytes w v)
    rwa [beBytes_length] at this

/-! ## Lemmas: request frames -/

theorem u16_putBE (h : Endian) (v : Nat) : (u16 (putBE h 2 v)).val = putBE h 2 v := by
  have := putBE_lt h 2 v
  simp only [u16]
  omega

theorem u32_putBE (h : Endian) (v : Nat) : (u32 (putBE h 4 v)).val = putBE h 4 v := by
  have := putBE_lt h 4 v
  simp only [u32]
  omega

theorem u64_putBE (h : Endian) (v : Nat) : (u64 (putBE h 8 v)).val = putBE h 8 v := by
  have := putBE_lt h 8 v
  simp only [u64]
  omega

theorem copyAt_mid (pre mid post src : List Byte) (h : src.length = mid.length) :
    copyAt (pre ++ mid ++ post) pre.length src = pre ++ src ++ post := by
  have h1 : min src.length ((pre ++ mid ++ post).length - pre.length) = src.length := by
    simp only [List.length_append]
    omega
  simp only [copyAt, h1, List.take_length]
  rw [List.append_assoc pre mid post, List.take_left, ← List.append_assoc, h,
    ← List.length_append, List.drop_left]

theorem arrayView_prefix (mem : List Byte) (l : Nat) (h1 : l ≤ ARRAY_LEN) (h2 : l ≤ mem.length) :
    arrayView mem 0 l = .ok (mem.take l) := by
  simp [arrayView, h1, h2]

theorem arrayView_panic (mem : List Byte) (lo hi : Nat) (h : ARRAY_LEN < hi) :
    arrayView mem lo hi = .error .sliceBounds := by
  have : ¬ (lo ≤ hi ∧ hi ≤ ARRAY_LEN) := by omega
  simp [arrayView, this]

namespace MCRequest

theorem req_image_length (h : Endian) (s : MCRequest) : (image h s).length = 24 := by
  simp [image, hostBytes_length]

theorem req_wire_length (s : MCRequest) : (wire s).length = 24 := by
  simp [wire, beBytes_length]

theorem req_image_fixByteOrder (h : Endian) (req : Frame) :
    image h (fixByteOrder h req).hdr = wire req.hdr := by
  simp only [image, fixByteOrder, wire, u16_putBE, u32_putBE, u64_putBE, hostBytes_putBE]

theorem req_fixByteOrder_tail (h : Endian) (req : Frame) : (fixByteOrder h req).tail = req.tail := rfl

theorem req_mem_length (h : Endian) (req : Frame) : (req.mem h).length = 24 + req.tail.length := by
  simp [Frame.mem, req_image_length]

theorem req_data_eq (h : Endian) (req : Frame) (s e : Nat) (h1 : s ≤ e) (h2 : e + 24 ≤ ARRAY_LEN)
    (h3 : e ≤ req.tail.length) : data h req s e = .ok ((req.tail.drop s).take (e - s)) := by
  have hl := req_mem_length h req
  have hi := req_image_length h req.hdr
  have h4 : s + HDR_LEN ≤ e + HDR_LEN ∧ e + HDR_LEN ≤ ARRAY_LEN := by simp only [HDR_LEN]; omega
  have h5 : e + HDR_LEN ≤ (req.mem h).length := by simp only [HDR_LEN]; omega
  simp only [data, arrayView, h4, h5, and_self, if_true]
  congr 1
  have h6 : s + HDR_LEN = (image h req.hdr).length + s := by simp only [HDR_LEN]; omega
  rw [Frame.mem, h6, List.drop_append]
  congr 1
  omega

theorem req_SetData_tail (hdr : MCRequest) (extras key body : List Byte) :
    (SetData hdr extras key body).tail = extras ++ key ++ body := by
  have hrep : List.replicate (HDR_LEN + extras.length + key.length + body.length) (0 : Byte)
      = List.replicate HDR_LEN 0 ++ List.replicate extras.length 0
          ++ (List.replicate key.length 0 ++ List.replicate body.length 0) := by
    simp only [List.append_assoc, List.append_replicate_replicate]
    congr 1
    omega
  have s1 := copyAt_mid (List.replicate HDR_LEN 0) (List.replicate extras.length 0)
    (List.replicate key.length 0 ++ List.replicate body.length 0) extras (by simp)
  have s2 := copyAt_mid (List.replicate HDR_LEN 0 ++ extras) (List.replicate key.length 0)
    (List.replicate body.length 0) key (by simp)
  have s3 := copyAt_mid (List.replicate HDR_LEN 0 ++ extras ++ key)
    (List.replicate body.length 0) [] body (by simp)
  simp only [List.length_append, List.length_replicate, List.append_nil] at s1 s2 s3
  simp only [List.append_assoc] at s1 s2 s3 hrep
  simp only [SetData, hrep, s1, s2, s3]
  have hlen : (List.replicate HDR_LEN (0 : Byte)).length = HDR_LEN := List.length_replicate _ _
  have := List.drop_left (List.replicate HDR_LEN (0 : Byte)) (extras ++ (key ++ body))
  rw [hlen] at this
  simp

theorem req_SetData_hdr (hdr : MCRequest) (extras key body : List Byte) :
    (SetData hdr extras key body).hdr =
      { hdr with
        elen := byte extras.length
        klen := u16 key.length
        blen := u32 (body.length + extras.length + key.length)
        magic := REQ_MAGIC
        dt := 0 } := rfl

end MCRequest

theorem u16_beVal_beBytes (x : U16) : u16 (beVal (beBytes 2 x.val)) = x := by
  apply Fin.ext
  have := x.isLt
  simp only [u16, beVal_beBytes]
  omega

theorem u32_beVal_beBytes (x : U32) : u32 (beVal (beBytes 4 x.val)) = x := by
  apply Fin.ext
  have := x.isLt
  simp only [u32, beVal_beBytes]
  omega

theorem u64_beVal_beBytes (x : U64) : u64 (beVal (beBytes 8 x.val)) = x := by
  apply Fin.ext
  have := x.isLt
  simp only [u64, beVal_beBytes]
  omega

/-- Reading the header from a stream that holds at least 24 bytes. -/
theorem ReadFull_header (r hb : List Byte) (h : 24 ≤ r.length) :
    ReadFull r (if hb.length < HDR_LEN then List.replicate HDR_LEN (0 : Byte) else hb.take HDR_LEN)
      = { buf := r.take 24, n := 24, err := none, rest := r.drop 24 } := by
  have hl : (if hb.length < HDR_LEN then List.replicate HDR_LEN (0 : Byte)
      else hb.take HDR_LEN).length = 24 := by
    split
    · simp [HDR_LEN]
    · simp only [List.length_take, HDR_LEN] at *
      omega
  have hm : min 24 r.length = 24 := by omega
  simp only [ReadFull, hl, hm, h, if_true]
  congr 1
  rw [List.drop_eq_nil_of_le (by omega), List.append_nil]

/-- Reading the header from a stream that ends before 24 bytes. -/
theorem ReadFull_short_header (r hb : List Byte) (h : r.length < 24) :
    (ReadFull r (if hb.length < HDR_LEN then List.replicate HDR_LEN (0 : Byte)
        else hb.take HDR_LEN)).n = r.length ∧
    (ReadFull r (if hb.length < HDR_LEN then List.replicate HDR_LEN (0 : Byte)
        else hb.take HDR_LEN)).err ≠ none := by
  have hl : (if hb.length < HDR_LEN then List.replicate HDR_LEN (0 : Byte)
      else hb.take HDR_LEN).length = 24 := by
    split
    · simp [HDR_LEN]
    · simp only [List.length_take, HDR_LEN] at *
      omega
  have hm : min 24 r.length = r.length := by omega
  have h2 : ¬ (24 ≤ r.length) := by omega
  simp only [ReadFull, hl, hm, h2, if_false]
  refine ⟨trivial, ?_⟩
  split <;> simp

/-- Reading the tail into the fresh buffer. -/
theorem ReadFull_tail (r : List Byte) (n : Nat) :
    ReadFull r ((List.replicate (HDR_LEN + n) (0 : Byte)).drop HDR_LEN)
      = { buf := r.take n ++ List.replicate (n - r.length) 0
          n := min n r.length
          err := if n ≤ r.length then none
                 else if min n r.length = 0 then some .EOF else some .ErrUnexpectedEOF
          rest := r.drop n } := by
  have hd : (List.replicate (HDR_LEN + n) (0 : Byte)).drop HDR_LEN = List.replicate n 0 := by
    simp
  simp only [hd, ReadFull, List.length_replicate]
  congr 1
  · congr 1
    · rw [List.take_eq_take]; simp
    · simp only [List.drop_replicate]
      congr 1
      omega
  · rcases Nat.le_total n r.length with h | h
    · rw [Nat.min_eq_left h]
    · rw [Nat.min_eq_right h, List.drop_eq_nil_of_le h, List.drop_eq_nil_of_le (Nat.le_refl _)]

namespace MCRequest

theorem req_wire_fields (s : MCRequest) :
    (wire s).getD 0 0 = s.magic ∧ (wire s).getD 1 0 = s.Opcode ∧
    ((wire s).drop 2).take 2 = beBytes 2 s.klen ∧ (wire s).getD 4 0 = s.elen ∧
    (wire s).getD 5 0 = s.dt ∧ ((wire s).drop 6).take 2 = beBytes 2 s.VBucket ∧
    ((wire s).drop 8).take 4 = beBytes 4 s.blen ∧ ((wire s).drop 12).take 4 = beBytes 4 s.Opaque ∧
    ((wire s).drop 16).take 8 = beBytes 8 s.Cas :=
  ⟨rfl, rfl, rfl, rfl, rfl, rfl, rfl, rfl, rfl⟩

/-- Decoding a stream that starts with the wire image of a header and holds
the whole tail. -/
theorem req_ReceiveRequest_wire (M : Int) (s : MCRequest) (tail more hb : List Byte)
    (hm : s.magic = REQ_MAGIC) (hM : (s.blen.val : Int) ≤ M) (hl : tail.length = s.blen.val) :
    ReceiveRequest M (wire s ++ tail ++ more) hb
      = { frame := some { hdr := s, tail := tail }, n := 24 + tail.length, err := none,
          rest := more } := by
  have h24 : 24 ≤ (wire s ++ tail ++ more).length := by
    simp only [List.length_append, req_wire_length]; omega
  have ht : (wire s ++ tail ++ more).take 24 = wire s := by
    rw [List.append_assoc, ← req_wire_length s, List.take_left]
  have hd : (wire s ++ tail ++ more).drop 24 = tail ++ more := by
    rw [List.append_assoc, ← req_wire_length s, List.drop_left]
  obtain ⟨f0, f1, f2, f3, f4, f5, f6, f7, f8⟩ := req_wire_fields s
  have hnM : ¬ ((s.blen.val : Int) > M) := by omega
  simp only [ReceiveRequest, ReadFull_header _ _ h24, ht, hd, f0, f1, f2, f3, f4, f5, f6, f7, f8,
    u16_beVal_beBytes, u32_beVal_beBytes, u64_beVal_beBytes, hm, ne_eq, not_true_eq_false,
    if_false, hnM, ReadFull_tail]
  have e1 : (tail ++ more).take s.blen.val = tail := by rw [← hl, List.take_left]
  have e2 : (tail ++ more).drop s.blen.val = more := by rw [← hl, List.drop_left]
  have e3 : s.blen.val - (tail ++ more).length = 0 := by
    simp only [List.length_append]; omega
  have e4 : min s.blen.val (tail ++ more).length = tail.length := by
    simp only [List.length_append]; omega
  have e5 : s.blen.val ≤ (tail ++ more).length := by
    simp only [List.length_append]; omega
  simp only [e1, e2, e3, e4, e5, if_true, List.replicate_zero, List.append_nil]
  cases s
  simp_all

theorem req_Bytes_ok (h : Endian) (req : Frame) (h1 : 24 + req.hdr.blen.val ≤ ARRAY_LEN)
    (h2 : req.hdr.blen.val ≤ req.tail.length) :
    Bytes h req = .ok (wire req.hdr ++ req.tail.take req.hdr.blen.val, fixByteOrder h req) := by
  have hl : HDR_LEN + req.hdr.blen.val ≤ ((fixByteOrder h req).mem h).length := by
    rw [req_mem_length, req_fixByteOrder_tail]; simp only [HDR_LEN]; omega
  have e : ((fixByteOrder h req).mem h).take (HDR_LEN + req.hdr.blen.val)
      = wire req.hdr ++ req.tail.take req.hdr.blen.val := by
    rw [Frame.mem, req_image_fixByteOrder, req_fixByteOrder_tail, List.take_append_eq_append_take,
      req_wire_length, List.take_of_length_le (by rw [req_wire_length]; simp [HDR_LEN])]
    congr 2
    simp [HDR_LEN]
  simp only [Bytes, bind, Except.bind, arrayView_prefix _ _ (by simpa [HDR_LEN] using h1) hl, e]
  rfl

theorem req_Bytes_panic (h : Endian) (req : Frame) (h1 : ARRAY_LEN < 24 + req.hdr.blen.val) :
    Bytes h req = .error .sliceBounds := by
  have hp : ARRAY_LEN < HDR_LEN + req.hdr.blen.val := by simpa [HDR_LEN] using h1
  simp only [Bytes, bind, Except.bind, arrayView_panic _ 0 _ hp]

end MCRequest

namespace MCRequest

theorem req_SetData_blen (hdr : MCRequest) (extras key body : List Byte)
    (h : extras.length + key.length + body.length < 4294967296) :
    (SetData hdr extras key body).hdr.blen.val = extras.length + key.length + body.length := by
  simp only [req_SetData_hdr, u32]
  omega

theorem req_Bytes_SetData (h : Endian) (hdr : MCRequest) (extras key body : List Byte)
    (hl : 24 + (extras.length + key.length + body.length) ≤ 1073741824) :
    Bytes h (SetData hdr extras key body)
      = .ok (wire (SetData hdr extras key body).hdr ++ (extras ++ key ++ body),
          fixByteOrder h (SetData hdr extras key body)) := by
  have hb := req_SetData_blen hdr extras key body (by omega)
  have ht := req_SetData_tail hdr extras key body
  rw [req_Bytes_ok h _ (by rw [hb]; simp only [ARRAY_LEN]; omega) (by rw [hb, ht]; simp; omega)]
  rw [hb, ht, List.take_of_length_le (by simp; omega)]

theorem req_Bytes_SetData_panic (h : Endian) (hdr : MCRequest) (extras key body : List Byte)
    (h1 : extras.length + key.length + body.length < 4294967296)
    (h2 : 1073741824 < 24 + (extras.length + key.length + body.length)) :
    Bytes h (SetData hdr extras key body) = .error .sliceBounds := by
  have hb := req_SetData_blen hdr extras key body h1
  exact req_Bytes_panic h _ (by rw [hb]; simp only [ARRAY_LEN]; omega)

end MCRequest

/-! ## Lemmas: response frames -/

namespace MCResponse

theorem res_image_length (h : Endian) (s : MCResponse) : (image h s).length = 24 := by
  simp [image, hostBytes_length]

theorem res_wire_length (s : MCResponse) : (wire s).length = 24 := by
  simp [wire, beBytes_length]

theorem res_image_fixByteOrder (h : Endian) (res : Frame) :
    image h (fixByteOrder h res).hdr = wire res.hdr := by
  simp only [image, fixByteOrder, wire, u16_putBE, u32_putBE, u64_putBE, hostBytes_putBE]

theorem res_fixByteOrder_tail (h : Endian) (res : Frame) : (fixByteOrder h res).tail = res.tail := rfl

theorem res_mem_length (h : Endian) (res : Frame) : (res.mem h).length = 24 + res.tail.length := by
  simp [Frame.mem, res_image_length]

theorem res_data_eq (h : Endian) (res : Frame) (s e : Nat) (h1 : s ≤ e) (h2 : e + 24 ≤ ARRAY_LEN)
    (h3 : e ≤ res.tail.length) : data h res s e = .ok ((res.tail.drop s).take (e - s)) := by
  have hl := res_mem_length h res
  have hi := res_image_length h res.hdr
  have h4 : s + HDR_LEN ≤ e + HDR_LEN ∧ e + HDR_LEN ≤ ARRAY_LEN := by simp only [HDR_LEN]; omega
  have h5 : e + HDR_LEN ≤ (res.mem h).length := by simp only [HDR_LEN]; omega
  simp only [data, arrayView, h4, h5, and_self, if_true]
  congr 1
  have h6 : s + HDR_LEN = (image h res.hdr).length + s := by simp only [HDR_LEN]; omega
  rw [Frame.mem, h6, List.drop_append]
  congr 1
  omega

theorem res_SetData_tail (hdr : MCResponse) (extras key body : List Byte) :
    (SetData hdr extras key body).tail = extras ++ key ++ body := by
  have hrep : List.replicate (HDR_LEN + extras.length + key.length + body.length) (0 : Byte)
      = List.replicate HDR_LEN 0 ++ List.replicate extras.length 0
          ++ (List.replicate key.length 0 ++ List.replicate body.length 0) := by
    simp only [List.append_assoc, List.append_replicate_replicate]
    congr 1
    omega
  have s1 := copyAt_mid (List.replicate HDR_LEN 0) (List.replicate extras.length 0)
    (List.replicate key.length 0 ++ List.replicate body.length 0) extras (by simp)
  have s2 := copyAt_mid (List.replicate HDR_LEN 0 ++ extras) (List.replicate key.length 0)
    (List.replicate body.length 0) key (by simp)
  have s3 := copyAt_mid (List.replicate HDR_LEN 0 ++ extras ++ key)
    (List.replicate body.length 0) [] body (by simp)
  simp only [List.length_append, List.length_replicate, List.append_nil] at s1 s2 s3
  simp only [List.append_assoc] at s1 s2 s3 hrep
  simp only [SetData, hrep, s1, s2, s3]
  have hlen : (List.replicate HDR_LEN (0 : Byte)).length = HDR_LEN := List.length_replicate _ _
  have := List.drop_left (List.replicate HDR_LEN (0 : Byte)) (extras ++ (key ++ body))
  rw [hlen] at this
  simp

theorem res_SetData_hdr (hdr : MCResponse) (extras key body : List Byte) :
    (SetData hdr extras key body).hdr =
      { hdr with
        elen := byte extras.length
        klen := u16 key.length
        blen := u32 (body.length + extras.length + key.length)
        magic := RES_MAGIC
        dt := 0 } := rfl



theorem res_wire_fields (s : MCResponse) :
    (wire s).getD 0 0 = s.magic ∧ (wire s).getD 1 0 = s.Opcode ∧
    ((wire s).drop 2).take 2 = beBytes 2 s.klen ∧ (wire s).getD 4 0 = s.elen ∧
    (wire s).getD 5 0 = s.dt ∧ ((wire s).drop 6).take 2 = beBytes 2 s.Status ∧
    ((wire s).drop 8).take 4 = beBytes 4 s.blen ∧ ((wire s).drop 12).take 4 = beBytes 4 s.Opaque ∧
    ((wire s).drop 16).take 8 = beBytes 8 s.Cas :=
  ⟨rfl, rfl, rfl, rfl, rfl, rfl, rfl, rfl, rfl⟩

/-- Decoding a stream that starts with the wire image of a header and holds
the whole tail. -/
theorem res_ReceiveResponse_wire (M : Int) (s : MCResponse) (tail more hb : List Byte)
    (hm : s.magic = RES_MAGIC) (hM : (s.blen.val : Int) ≤ M) (hl : tail.length = s.blen.val) :
    ReceiveResponse M (wire s ++ tail ++ more) hb
      = { frame := some { hdr := s, tail := tail }, n := 24 + tail.length, err := none,
          rest := more } := by
  have h24 : 24 ≤ (wire s ++ tail ++ more).length := by
    simp only [List.length_append, res_wire_length]; omega
  have ht : (wire s ++ tail ++ more).take 24 = wire s := by
    rw [List.append_assoc, ← res_wire_length s, List.take_left]
  have hd : (wire s ++ tail ++ more).drop 24 = tail ++ more := by
    rw [List.append_assoc, ← res_wire_length s, List.drop_left]
  obtain ⟨f0, f1, f2, f3, f4, f5, f6, f7, f8⟩ := res_wire_fields s
  have hnM : ¬ ((s.blen.val : Int) > M) := by omega
  simp only [ReceiveResponse, ReadFull_header _ _ h24, ht, hd, f0, f1, f2, f3, f4, f5, f6, f7, f8,
    u16_beVal_beBytes, u32_beVal_beBytes, u64_beVal_beBytes, hm, ne_eq, not_true_eq_false,
    if_false, hnM, ReadFull_tail]
  have e1 : (tail ++ more).take s.blen.val = tail := by rw [← hl, List.take_left]
  have e2 : (tail ++ more).drop s.blen.val = more := by rw [← hl, List.drop_left]
  have e3 : s.blen.val - (tail ++ more).length = 0 := by
    simp only [List.length_append]; omega
  have e4 : min s.blen.val (tail ++ more).length = tail.length := by
    simp only [List.length_append]; omega
  have e5 : s.blen.val ≤ (tail ++ more).length := by
    simp only [List.length_append]; omega
  simp only [e1, e2, e3, e4, e5, if_true, List.replicate_zero, List.append_nil]
  cases s
  simp_all

theorem res_Bytes_ok (h : Endian) (res : Frame) (h1 : 24 + res.hdr.blen.val ≤ ARRAY_LEN)
    (h2 : res.hdr.blen.val ≤ res.tail.length) :
    Bytes h res = .ok (wire res.hdr ++ res.tail.take res.hdr.blen.val, fixByteOrder h res) := by
  have hl : HDR_LEN + res.hdr.blen.val ≤ ((fixByteOrder h res).mem h).length := by
    rw [res_mem_length, res_fixByteOrder_tail]; simp only [HDR_LEN]; omega
  have e : ((fixByteOrder h res).mem h).take (HDR_LEN + res.hdr.blen.val)
      = wire res.hdr ++ res.tail.take res.hdr.blen.val := by
    rw [Frame.mem, res_image_fixByteOrder, res_fixByteOrder_tail, List.take_append_eq_append_take,
      res_wire_length, List.take_of_length_le (by rw [res_wire_length]; simp [HDR_LEN])]
    congr 2
    simp [HDR_LEN]
  simp only [Bytes, bind, Except.bind, arrayView_prefix _ _ (by simpa [HDR_LEN] using h1) hl, e]
  rfl

theorem res_Bytes_panic (h : Endian) (res : Frame) (h1 : ARRAY_LEN < 24 + res.hdr.blen.val) :
    Bytes h res = .error .sliceBounds := by
  have hp : ARRAY_LEN < HDR_LEN + res.hdr.blen.val := by simpa [HDR_LEN] using h1
  simp only [Bytes, bind, Except.bind, arrayView_panic _ 0 _ hp]



theorem res_SetData_blen (hdr : MCResponse) (extras key body : List Byte)
    (h : extras.length + key.length + body.length < 4294967296) :
    (SetData hdr extras key body).hdr.blen.val = extras.length + key.length + body.length := by
  simp only [res_SetData_hdr, u32]
  omega

theorem res_Bytes_SetData (h : Endian) (hdr : MCResponse) (extras key body : List Byte)
    (hl : 24 + (extras.length + key.length + body.length) ≤ 1073741824) :
    Bytes h (SetData hdr extras key body)
      = .ok (wire (SetData hdr extras key body).hdr ++ (extras ++ key ++ body),
          fixByteOrder h (SetData hdr extras key body)) := by
  have hb := res_SetData_blen hdr extras key body (by omega)
  have ht := res_SetData_tail hdr extras key body
  rw [res_Bytes_ok h _ (by rw [hb]; simp only [ARRAY_LEN]; omega) (by rw [hb, ht]; simp; omega)]
  rw [hb, ht, List.take_of_length_le (by simp; omega)]

theorem res_Bytes_SetData_panic (h : Endian) (hdr : MCResponse) (extras key body : List Byte)
    (h1 : extras.length + key.length + body.length < 4294967296)
    (h2 : 1073741824 < 24 + (extras.length + key.length + body.length)) :
    Bytes h (SetData hdr extras key body) = .error .sliceBounds := by
  have hb := res_SetData_blen hdr extras key body h1
  exact res_Bytes_panic h _ (by rw [hb]; simp only [ARRAY_LEN]; omega)

end MCResponse

/-! ## Lemmas: decoding -/

theorem take_getD (r : List Byte) (i n : Nat) (h : i < n) : (r.take n).getD i 0 = r.getD i 0 := by
  simp only [List.getD_eq_getElem?_getD, List.getElem?_take, h, if_true]

theorem take_slice (r : List Byte) (a b n : Nat) (h : a + b ≤ n) :
    ((r.take n).drop a).take b = (r.drop a).take b := by
  rw [List.drop_take, List.take_take]
  congr 1
  omega

theorem beVal_take4_lt (l : List Byte) : beVal (l.take 4) < 4294967296 := by
  have h1 := beVal_lt (l.take 4)
  have h2 : (l.take 4).length ≤ 4 := by simp only [List.length_take]; omega
  have h3 : 256 ^ (l.take 4).length ≤ 256 ^ 4 := Nat.pow_le_pow_right (by decide) h2
  omega

theorem u32_beVal_take4 (l : List Byte) : (u32 (beVal (l.take 4))).val = beVal (l.take 4) := by
  have := beVal_take4_lt l
  simp only [u32]
  omega

theorem ReadFull_short (r buf : List Byte) (h : r.length < buf.length) :
    ReadFull r buf
      = { buf := r ++ buf.drop r.length, n := r.length,
          err := some (if r.length = 0 then .EOF else .ErrUnexpectedEOF), rest := [] } := by
  have hm : min buf.length r.length = r.length := by omega
  have h2 : ¬ (buf.length ≤ r.length) := by omega
  have hd : r.drop r.length = [] := List.drop_eq_nil_of_le (Nat.le_refl _)
  simp only [ReadFull, hm, h2, if_false, hd, List.take_length]
  congr 1
  split <;> rfl

theorem scratch_length (hb : List Byte) :
    (if hb.length < HDR_LEN then List.replicate HDR_LEN (0 : Byte)
      else hb.take HDR_LEN).length = 24 := by
  split
  · simp [HDR_LEN]
  · simp only [List.length_take, HDR_LEN] at *
    omega

theorem ReceiveRequest_bad_magic (M : Int) (r hb : List Byte) (h24 : 24 ≤ r.length)
    (hm : r.getD 0 0 ≠ REQ_MAGIC) :
    ReceiveRequest M r hb
      = { frame := none, n := 24, err := some (.badMagic (r.getD 0 0)), rest := r.drop 24 } := by
  simp only [ReceiveRequest, ReadFull_header _ _ h24, take_getD r 0 24 (by decide), ne_eq, hm,
    not_false_eq_true, if_true]

theorem ReceiveRequest_too_big (M : Int) (r hb : List Byte) (h24 : 24 ≤ r.length)
    (hm : r.getD 0 0 = REQ_MAGIC) (hN : (beVal ((r.drop 8).take 4) : Int) > M) :
    ReceiveRequest M r hb
      = { frame := none, n := 24, err := some (.tooBig (beVal ((r.drop 8).take 4)) M),
          rest := r.drop 24 } := by
  simp only [ReceiveRequest, ReadFull_header _ _ h24, take_getD r 0 24 (by decide), ne_eq, hm,
    not_true_eq_false, if_false, take_slice r 8 4 24 (by decide), u32_beVal_take4, hN, if_true]

theorem ReceiveRequest_accept (M : Int) (r hb : List Byte) (h24 : 24 ≤ r.length)
    (hm : r.getD 0 0 = REQ_MAGIC) (hN : (beVal ((r.drop 8).take 4) : Int) ≤ M) :
    ReceiveRequest M r hb
      = { frame := some
            { hdr :=
                { magic := r.getD 0 0
                  Opcode := r.getD 1 0
                  klen := u16 (beVal ((r.drop 2).take 2))
                  elen := r.getD 4 0
                  dt := r.getD 5 0
                  VBucket := u16 (beVal ((r.drop 6).take 2))
                  blen := u32 (beVal ((r.drop 8).take 4))
                  Opaque := u32 (beVal ((r.drop 12).take 4))
                  Cas := u64 (beVal ((r.drop 16).take 8)) }
              tail := (r.drop 24).take (beVal ((r.drop 8).take 4))
                ++ List.replicate (beVal ((r.drop 8).take 4) - (r.length - 24)) 0 }
          n := 24 + min (beVal ((r.drop 8).take 4)) (r.length - 24)
          err := if beVal ((r.drop 8).take 4) ≤ r.length - 24 then none
                 else if min (beVal ((r.drop 8).take 4)) (r.length - 24) = 0 then some .EOF
                 else some .ErrUnexpectedEOF
          rest := r.drop (24 + beVal ((r.drop 8).take 4)) } := by
  have hnN : ¬ ((beVal ((r.drop 8).take 4) : Int) > M) := by omega
  simp only [ReceiveRequest, ReadFull_header _ _ h24, take_getD r 0 24 (by decide),
    take_getD r 1 24 (by decide), take_getD r 4 24 (by decide), take_getD r 5 24 (by decide),
    ne_eq, hm, not_true_eq_false, if_false,
    take_slice r 8 4 24 (by decide), take_slice r 2 2 24 (by decide),
    take_slice r 6 2 24 (by decide), take_slice r 12 4 24 (by decide),
    take_slice r 16 8 24 (by decide), u32_beVal_take4, hnN, ReadFull_tail,
    List.length_drop, List.drop_drop]

theorem ReceiveRequest_short_header (M : Int) (r hb : List Byte) (h : r.length < 24) :
    ReceiveRequest M r hb
      = { frame := none, n := r.length,
          err := some (if r.length = 0 then .EOF else .ErrUnexpectedEOF), rest := [] } := by
  have hs := ReadFull_short r (if hb.length < HDR_LEN then List.replicate HDR_LEN (0 : Byte)
    else hb.take HDR_LEN) (by rw [scratch_length]; exact h)
  simp only [ReceiveRequest, hs]

theorem ReceiveResponse_bad_magic (M : Int) (r hb : List Byte) (h24 : 24 ≤ r.length)
    (hm : r.getD 0 0 ≠ RES_MAGIC) :
    ReceiveResponse M r hb
      = { frame := none, n := 24, err := some (.badMagic (r.getD 0 0)), rest := r.drop 24 } := by
  simp only [ReceiveResponse, ReadFull_header _ _ h24, take_getD r 0 24 (by decide), ne_eq, hm,
    not_false_eq_true, if_true]

theorem ReceiveResponse_too_big (M : Int) (r hb : List Byte) (h24 : 24 ≤ r.length)
    (hm : r.getD 0 0 = RES_MAGIC) (hN : (beVal ((r.drop 8).take 4) : Int) > M) :
    ReceiveResponse M r hb
      = { frame := none, n := 24, err := some (.tooBig (beVal ((r.drop 8).take 4)) M),
          rest := r.drop 24 } := by
  simp only [ReceiveResponse, ReadFull_header _ _ h24, take_getD r 0 24 (by decide), ne_eq, hm,
    not_true_eq_false, if_false, take_slice r 8 4 24 (by decide), u32_beVal_take4, hN, if_true]

theorem ReceiveResponse_accept (M : Int) (r hb : List Byte) (h24 : 24 ≤ r.length)
    (hm : r.getD 0 0 = RES_MAGIC) (hN : (beVal ((r.drop 8).take 4) : Int) ≤ M) :
    ReceiveResponse M r hb
      = { frame := some
            { hdr :=
                { magic := r.getD 0 0
                  Opcode := r.getD 1 0
                  klen := u16 (beVal ((r.drop 2).take 2))
                  elen := r.getD 4 0
                  dt := r.getD 5 0
                  Status := u16 (beVal ((r.drop 6).take 2))
                  blen := u32 (beVal ((r.drop 8).take 4))
                  Opaque := u32 (beVal ((r.drop 12).take 4))
                  Cas := u64 (beVal ((r.drop 16).take 8)) }
              tail := (r.drop 24).take (beVal ((r.drop 8).take 4))
                ++ List.replicate (beVal ((r.drop 8).take 4) - (r.length - 24)) 0 }
          n := 24 + min (beVal ((r.drop 8).take 4)) (r.length - 24)
          err := if beVal ((r.drop 8).take 4) ≤ r.length - 24 then none
                 else if min (beVal ((r.drop 8).take 4)) (r.length - 24) = 0 then some .EOF
                 else some .ErrUnexpectedEOF
          rest := r.drop (24 + beVal ((r.drop 8).take 4)) } := by
  have hnN : ¬ ((beVal ((r.drop 8).take 4) : Int) > M) := by omega
  simp only [ReceiveResponse, ReadFull_header _ _ h24, take_getD r 0 24 (by decide),
    take_getD r 1 24 (by decide), take_getD r 4 24 (by decide), take_getD r 5 24 (by decide),
    ne_eq, hm, not_true_eq_false, if_false,
    take_slice r 8 4 24 (by decide), take_slice r 2 2 24 (by decide),
    take_slice r 6 2 24 (by decide), take_slice r 12 4 24 (by decide),
    take_slice r 16 8 24 (by decide), u32_beVal_take4, hnN, ReadFull_tail,
    List.length_drop, List.drop_drop]

theorem ReceiveResponse_short_header (M : Int) (r hb : List Byte) (h : r.length < 24) :
    ReceiveResponse M r hb
      = { frame := none, n := r.length,
          err := some (if r.length = 0 then .EOF else .ErrUnexpectedEOF), rest := [] } := by
  have hs := ReadFull_short r (if hb.length < HDR_LEN then List.replicate HDR_LEN (0 : Byte)
    else hb.take HDR_LEN) (by rw [scratch_length]; exact h)
  simp only [ReceiveResponse, hs]

namespace MCRequest

theorem req_Bytes_inv (h : Endian) (req : Frame) (img : List Byte) (fr : Frame)
    (hb : Bytes h req = .ok (img, fr)) :
    img = wire req.hdr ++ req.tail.take req.hdr.blen.val ∧ req.hdr.blen.val ≤ req.tail.length ∧
      24 + req.hdr.blen.val ≤ ARRAY_LEN ∧ fr = fixByteOrder h req := by
  by_cases h1 : 24 + req.hdr.blen.val ≤ ARRAY_LEN
  · by_cases h2 : req.hdr.blen.val ≤ req.tail.length
    · rw [req_Bytes_ok h req h1 h2] at hb
      injection hb with hb
      injection hb with e1 e2
      exact ⟨e1.symm, h2, h1, e2.symm⟩
    · exfalso
      have hl : ¬ (HDR_LEN + req.hdr.blen.val ≤ ((fixByteOrder h req).mem h).length) := by
        rw [req_mem_length, req_fixByteOrder_tail]; simp only [HDR_LEN]; omega
      have hc : 0 ≤ HDR_LEN + req.hdr.blen.val ∧ HDR_LEN + req.hdr.blen.val ≤ ARRAY_LEN := by
        simp only [HDR_LEN]; omega
      simp only [Bytes, arrayView, hc, hl, and_self, if_true, if_false, bind, Except.bind] at hb
      cases hb
  · exfalso
    rw [req_Bytes_panic h req (by omega)] at hb
    cases hb

theorem req_Bytes_magic (h : Endian) (req : Frame) (img : List Byte) (fr : Frame)
    (hb : Bytes h req = .ok (img, fr)) : 24 ≤ img.length ∧ img.getD 0 0 = req.hdr.magic := by
  obtain ⟨rfl, h2, -, -⟩ := req_Bytes_inv h req img fr hb
  constructor
  · simp only [List.length_append, req_wire_length]; omega
  · rfl

end MCRequest

namespace MCResponse

theorem res_Bytes_inv (h : Endian) (res : Frame) (img : List Byte) (fr : Frame)
    (hb : Bytes h res = .ok (img, fr)) :
    img = wire res.hdr ++ res.tail.take res.hdr.blen.val ∧ res.hdr.blen.val ≤ res.tail.length ∧
      24 + res.hdr.blen.val ≤ ARRAY_LEN ∧ fr = fixByteOrder h res := by
  by_cases h1 : 24 + res.hdr.blen.val ≤ ARRAY_LEN
  · by_cases h2 : res.hdr.blen.val ≤ res.tail.length
    · rw [res_Bytes_ok h res h1 h2] at hb
      injection hb with hb
      injection hb with e1 e2
      exact ⟨e1.symm, h2, h1, e2.symm⟩
    · exfalso
      have hl : ¬ (HDR_LEN + res.hdr.blen.val ≤ ((fixByteOrder h res).mem h).length) := by
        rw [res_mem_length, res_fixByteOrder_tail]; simp only [HDR_LEN]; omega
      have hc : 0 ≤ HDR_LEN + res.hdr.blen.val ∧ HDR_LEN + res.hdr.blen.val ≤ ARRAY_LEN := by
        simp only [HDR_LEN]; omega
      simp only [Bytes, arrayView, hc, hl, and_self, if_true, if_false, bind, Except.bind] at hb
      cases hb
  · exfalso
    rw [res_Bytes_panic h res (by omega)] at hb
    cases hb

theorem res_Bytes_magic (h : Endian) (res : Frame) (img : List Byte) (fr : Frame)
    (hb : Bytes h res = .ok (img, fr)) : 24 ≤ img.length ∧ img.getD 0 0 = res.hdr.magic := by
  obtain ⟨rfl, h2, -, -⟩ := res_Bytes_inv h res img fr hb
  constructor
  · simp only [List.length_append, res_wire_length]; omega
  · rfl

end MCResponse

theorem MCRequest.Bytes_SetData_big (h : Endian) (hdr : MCRequest) (body : List Byte)
    (hb : body.length = 1073741824) :
    MCRequest.Bytes h (MCRequest.SetData hdr [] [] body) = .error .sliceBounds := by
  apply MCRequest.req_Bytes_SetData_panic
  · simp only [List.length_nil, hb]; omega
  · simp only [List.length_nil, hb]; omega

namespace MCRequest

theorem req_real_elen_plain (h : Endian) (req : Frame)
    (hc : ¬ (req.hdr.Opcode ≥ TAP_MUTATION ∧ req.hdr.Opcode ≤ TAP_CHECKPOINT_END ∧
      req.hdr.blen ≠ 0)) : real_elen h req = .ok req.hdr.elen.val := by
  rw [real_elen, if_neg hc]
  rfl

theorem req_real_elen_tap (h : Endian) (req : Frame)
    (hc : req.hdr.Opcode ≥ TAP_MUTATION ∧ req.hdr.Opcode ≤ TAP_CHECKPOINT_END ∧ req.hdr.blen ≠ 0)
    (h2 : 2 ≤ req.tail.length) :
    real_elen h req = .ok (req.hdr.elen.val + beVal (req.tail.take 2)) := by
  have hd := req_data_eq h req 0 2 (by omega) (by simp only [ARRAY_LEN]; omega) h2
  rw [real_elen, if_pos hc]
  simp only [hd, bind, Except.bind, List.drop_zero, Nat.sub_zero]
  rfl

theorem req_accessors (h : Endian) (req : Frame) (E : Nat) (hE : real_elen h req = .ok E)
    (h1 : E + req.hdr.klen.val ≤ req.hdr.blen.val) (h2 : req.hdr.blen.val ≤ req.tail.length)
    (h3 : 24 + req.hdr.blen.val ≤ ARRAY_LEN) :
    Extras h req = .ok (req.tail.take E) ∧
    Key h req = .ok ((req.tail.drop E).take req.hdr.klen.val) ∧
    Body h req = .ok ((req.tail.drop (E + req.hdr.klen.val)).take
      (req.hdr.blen.val - (E + req.hdr.klen.val))) := by
  refine ⟨?_, ?_, ?_⟩
  · simp only [Extras, hE, bind, Except.bind]
    rw [req_data_eq h req 0 E (by omega) (by omega) (by omega)]
    simp
  · simp only [Key, hE, bind, Except.bind]
    rw [req_data_eq h req E (E + req.hdr.klen.val) (by omega) (by omega) (by omega)]
    simp
  · simp only [Body, hE, bind, Except.bind]
    rw [req_data_eq h req (E + req.hdr.klen.val) req.hdr.blen.val (by omega) (by omega) (by omega)]

theorem req_Body_panic (h : Endian) (req : Frame) (E : Nat) (hE : real_elen h req = .ok E)
    (h3 : ARRAY_LEN < 24 + req.hdr.blen.val) : Body h req = .error .sliceBounds := by
  simp only [Body, hE, bind, Except.bind, data]
  exact arrayView_panic _ _ _ (by simp only [HDR_LEN]; omega)

end MCRequest

theorem ReceiveRequest_frame_inv (M : Int) (r hb : List Byte) (req : MCRequest.Frame)
    (hf : (ReceiveRequest M r hb).frame = some req) :
    req.tail.length = req.hdr.blen.val ∧ (req.hdr.blen.val : Int) ≤ M ∧
      req.hdr.magic = REQ_MAGIC := by
  by_cases h24 : 24 ≤ r.length
  · by_cases hm : r.getD 0 0 = REQ_MAGIC
    · by_cases hN : (beVal ((r.drop 8).take 4) : Int) ≤ M
      · rw [ReceiveRequest_accept M r hb h24 hm hN] at hf
        simp only [Option.some.injEq] at hf
        subst hf
        simp only [List.length_append, List.length_take, List.length_drop, List.length_replicate,
          u32_beVal_take4]
        exact ⟨by omega, hN, hm⟩
      · rw [ReceiveRequest_too_big M r hb h24 hm (by omega)] at hf
        cases hf
    · rw [ReceiveRequest_bad_magic M r hb h24 hm] at hf
      cases hf
  · rw [ReceiveRequest_short_header M r hb (by omega)] at hf
    cases hf

namespace MCRequest

theorem req_fixByteOrder_mem (h : Endian) (req : Frame) :
    (fixByteOrder h req).mem h = wire req.hdr ++ req.tail := by
  rw [Frame.mem, req_image_fixByteOrder, req_fixByteOrder_tail]

theorem req_HeaderBytes_ok (h : Endian) (req : Frame) (E : Nat) (hE : real_elen h req = .ok E)
    (h1 : E + req.hdr.klen.val ≤ req.tail.length) (h2 : 24 + E + req.hdr.klen.val ≤ ARRAY_LEN) :
    HeaderBytes h req
      = .ok (wire req.hdr ++ req.tail.take (E + req.hdr.klen.val), fixByteOrder h req) := by
  have hl : HDR_LEN + E + req.hdr.klen.val ≤ ((fixByteOrder h req).mem h).length := by
    rw [req_fixByteOrder_mem, List.length_append, req_wire_length]; simp only [HDR_LEN]; omega
  have e : ((fixByteOrder h req).mem h).take (HDR_LEN + E + req.hdr.klen.val)
      = wire req.hdr ++ req.tail.take (E + req.hdr.klen.val) := by
    rw [req_fixByteOrder_mem, List.take_append_eq_append_take, req_wire_length,
      List.take_of_length_le (by rw [req_wire_length]; simp only [HDR_LEN]; omega)]
    congr 2
    simp only [HDR_LEN]; omega
  simp only [HeaderBytes, hE, bind, Except.bind,
    arrayView_prefix _ _ (by simp only [HDR_LEN]; omega) hl, e]
  rfl

theorem req_Transmit_small {σ ε : Type} (h : Endian) (req : Frame) (w : Writer σ ε) (s : σ)
    (hs : req.hdr.blen.val < 128) (h2 : req.hdr.blen.val ≤ req.tail.length) :
    Transmit h req w s
      = .ok { n := (w.Write s (wire req.hdr ++ req.tail.take req.hdr.blen.val)).1
              err := (w.Write s (wire req.hdr ++ req.tail.take req.hdr.blen.val)).2.1
              w := (w.Write s (wire req.hdr ++ req.tail.take req.hdr.blen.val)).2.2
              frame := fixByteOrder h req } := by
  rw [Transmit, if_pos hs, req_Bytes_ok h req (by simp only [ARRAY_LEN]; omega) h2]
  rfl

theorem req_Transmit_large {σ ε : Type} (h : Endian) (req : Frame) (w : Writer σ ε) (s : σ)
    (E : Nat) (hE : real_elen h req = .ok E)
    (hs : ¬ req.hdr.blen.val < 128) (h1 : E + req.hdr.klen.val ≤ req.hdr.blen.val)
    (h2 : req.hdr.blen.val ≤ req.tail.length) (h3 : 24 + req.hdr.blen.val ≤ ARRAY_LEN) :
    Transmit h req w s
      = .ok (match w.Write s (wire req.hdr ++ req.tail.take (E + req.hdr.klen.val)) with
          | (n, none, s1) =>
            { n := n + (w.Write s1 ((req.tail.drop (E + req.hdr.klen.val)).take
                  (req.hdr.blen.val - (E + req.hdr.klen.val)))).1
              err := (w.Write s1 ((req.tail.drop (E + req.hdr.klen.val)).take
                  (req.hdr.blen.val - (E + req.hdr.klen.val)))).2.1
              w := (w.Write s1 ((req.tail.drop (E + req.hdr.klen.val)).take
                  (req.hdr.blen.val - (E + req.hdr.klen.val)))).2.2
              frame := fixByteOrder h req }
          | (n, some e, s1) => { n := n, err := some e, w := s1, frame := fixByteOrder h req }) := by
  rw [Transmit, if_neg hs, (req_accessors h req E hE h1 h2 h3).2.2,
    req_HeaderBytes_ok h req E hE (by omega) (by omega)]
  rcases hw : w.Write s (wire req.hdr ++ req.tail.take (E + req.hdr.klen.val)) with ⟨n, e, s1⟩
  cases e <;> simp only [bind, Except.bind, hw] <;> rfl

end MCRequest

namespace MCRequest

/-- The view-relevant facts about a frame built from in-range inputs. -/
theorem req_SetData_fields (hdr : MCRequest) (extras key body : List Byte)
    (he : extras.length ≤ 255) (hk : key.length ≤ 65535)
    (hl : extras.length + key.length + body.length < 4294967296) :
    (SetData hdr extras key body).hdr.elen.val = extras.length ∧
    (SetData hdr extras key body).hdr.klen.val = key.length ∧
    (SetData hdr extras key body).hdr.blen.val = extras.length + key.length + body.length ∧
    (SetData hdr extras key body).hdr.Opcode = hdr.Opcode := by
  simp only [req_SetData_hdr, byte, u16, u32]
  refine ⟨by omega, by omega, by omega, trivial⟩

theorem req_SetData_real_elen (h : Endian) (hdr : MCRequest) (extras key body : List Byte)
    (hop : hdr.Opcode < TAP_MUTATION ∨ hdr.Opcode > TAP_CHECKPOINT_END)
    (he : extras.length ≤ 255) :
    real_elen h (SetData hdr extras key body) = .ok extras.length := by
  have hc : ¬ ((SetData hdr extras key body).hdr.Opcode ≥ TAP_MUTATION ∧
      (SetData hdr extras key body).hdr.Opcode ≤ TAP_CHECKPOINT_END ∧
      (SetData hdr extras key body).hdr.blen ≠ 0) := by
    have : (SetData hdr extras key body).hdr.Opcode = hdr.Opcode := rfl
    rw [this]
    rintro ⟨h1, h2, -⟩
    rcases hop with hop | hop
    · exact absurd h1 (not_le.mpr hop)
    · exact absurd h2 (not_le.mpr hop)
  rw [req_real_elen_plain h _ hc]
  simp only [req_SetData_hdr, byte]
  congr 1
  omega

theorem req_SetData_transmit {σ ε : Type} (h : Endian) (hdr : MCRequest)
    (extras key body : List Byte) (w : Writer σ ε) (s : σ)
    (hop : hdr.Opcode < TAP_MUTATION ∨ hdr.Opcode > TAP_CHECKPOINT_END)
    (he : extras.length ≤ 255) (hk : key.length ≤ 65535)
    (hA : 24 + (extras.length + key.length + body.length) ≤ 1073741824) :
    (extras.length + key.length + body.length < 128 →
      Transmit h (SetData hdr extras key body) w s
        = .ok { n := (w.Write s (wire (SetData hdr extras key body).hdr
                  ++ (extras ++ key ++ body))).1
                err := (w.Write s (wire (SetData hdr extras key body).hdr
                  ++ (extras ++ key ++ body))).2.1
                w := (w.Write s (wire (SetData hdr extras key body).hdr
                  ++ (extras ++ key ++ body))).2.2
                frame := fixByteOrder h (SetData hdr extras key body) }) ∧
    (128 ≤ extras.length + key.length + body.length →
      Transmit h (SetData hdr extras key body) w s
        = .ok (match w.Write s (wire (SetData hdr extras key body).hdr ++ (extras ++ key)) with
            | (n, none, s1) =>
              { n := n + (w.Write s1 body).1
                err := (w.Write s1 body).2.1
                w := (w.Write s1 body).2.2
                frame := fixByteOrder h (SetData hdr extras key body) }
            | (n, some e, s1) =>
              { n := n, err := some e, w := s1,
                frame := fixByteOrder h (SetData hdr extras key body) })) := by
  obtain ⟨f1, f2, f3, -⟩ := req_SetData_fields hdr extras key body he hk (by omega)
  have ht := req_SetData_tail hdr extras key body
  have hE := req_SetData_real_elen h hdr extras key body hop he
  constructor
  · intro hs
    rw [req_Transmit_small h _ w s (by omega) (by rw [f3, ht]; simp only [List.length_append]; omega)]
    have e1 : (SetData hdr extras key body).tail.take (SetData hdr extras key body).hdr.blen.val
        = extras ++ key ++ body := by
      rw [f3, ht, List.take_of_length_le (by simp only [List.length_append]; omega)]
    rw [e1]
  · intro hs
    rw [req_Transmit_large h _ w s extras.length hE (by omega) (by omega)
      (by rw [f3, ht]; simp only [List.length_append]; omega)
      (by rw [f3]; simp only [ARRAY_LEN]; omega)]
    have e1 : (SetData hdr extras key body).tail.take
        (extras.length + (SetData hdr extras key body).hdr.klen.val) = extras ++ key := by
      rw [f2, ht, ← List.length_append, List.take_left]
    have e2 : ((SetData hdr extras key body).tail.drop
        (extras.length + (SetData hdr extras key body).hdr.klen.val)).take
          ((SetData hdr extras key body).hdr.blen.val
            - (extras.length + (SetData hdr extras key body).hdr.klen.val)) = body := by
      rw [f2, f3, ht, ← List.length_append, List.drop_left,
        List.take_of_length_le (by simp only [List.length_append]; omega)]
    rw [e1, e2]

end MCRequest

theorem req_Transmit_log {σ ε : Type} (h : Endian) (req : MCRequest.Frame) (w : Writer σ ε) (s : σ)
    (res : TransmitResult (σ × List (WriteCall ε)) ε MCRequest.Frame)
    (hr : MCRequest.Transmit h req (logged w) (s, []) = .ok res) :
    res.n = (res.w.2.map (·.n)).sum ∧
    res.err = (res.w.2.getLast?).bind (·.err) ∧
    (res.w.2.length = 1 ∨ (res.w.2.length = 2 ∧ (res.w.2.head?).bind (·.err) = none)) := by
  unfold MCRequest.Transmit at hr
  split at hr
  · cases hB : MCRequest.Bytes h req with
    | error e => rw [hB] at hr; cases hr
    | ok v =>
      obtain ⟨bts, fr⟩ := v
      rw [hB] at hr
      simp only [bind, Except.bind, pure, Except.pure, logged, Except.ok.injEq] at hr
      subst hr
      simp
  · cases hB : MCRequest.Body h req with
    | error e => rw [hB] at hr; cases hr
    | ok bts =>
      cases hH : MCRequest.HeaderBytes h req with
      | error e => rw [hB, hH] at hr; cases hr
      | ok v =>
        obtain ⟨hb, fr⟩ := v
        rw [hB, hH] at hr
        simp only [bind, Except.bind, pure, Except.pure, logged] at hr
        cases he : (w.Write s hb).2.1 with
        | none =>
          rw [he] at hr
          simp only [Except.ok.injEq] at hr
          subst hr
          simp [he]
        | some e =>
          rw [he] at hr
          simp only [Except.ok.injEq] at hr
          subst hr
          simp [he]

theorem tapBig_receive (X : List Byte) (hX : X.length = 1073741824) :
    ReceiveRequest 1073741824 (MCRequest.wire tapBigHdr ++ X) []
      = { frame := some { hdr := tapBigHdr, tail := X }, n := 24 + X.length, err := none,
          rest := [] } := by
  have h1 : tapBigHdr.magic = REQ_MAGIC := by decide
  have h2 : ((tapBigHdr.blen.val : Nat) : Int) ≤ 1073741824 := by decide
  have h3 : X.length = tapBigHdr.blen.val := by rw [hX]; decide
  have := MCRequest.req_ReceiveRequest_wire 1073741824 tapBigHdr X [] [] h1 h2 h3
  rwa [List.append_nil] at this

theorem tapBig_body (h : Endian) (X : List Byte) (hX : 2 ≤ X.length) :
    MCRequest.Body h { hdr := tapBigHdr, tail := X } = .error .sliceBounds := by
  have hc : tapBigHdr.Opcode ≥ TAP_MUTATION ∧ tapBigHdr.Opcode ≤ TAP_CHECKPOINT_END ∧
      tapBigHdr.blen ≠ 0 := by decide
  have hE := MCRequest.req_real_elen_tap h { hdr := tapBigHdr, tail := X } hc hX
  have hp : ARRAY_LEN < 24 + tapBigHdr.blen.val := by decide
  exact MCRequest.req_Body_panic h _ _ hE hp

theorem req_Transmit_big (h : Endian) (hdr : MCRequest) (body : List Byte)
    (hop : hdr.Opcode < TAP_MUTATION ∨ hdr.Opcode > TAP_CHECKPOINT_END)
    (hb : body.length = 1073741824) :
    MCRequest.Transmit h (MCRequest.SetData hdr [] [] body) recorder []
      = .error .sliceBounds := by
  have f3 := MCRequest.req_SetData_blen hdr [] [] body (by simp only [List.length_nil, hb]; omega)
  simp only [List.length_nil, hb] at f3
  have hE := MCRequest.req_SetData_real_elen h hdr [] [] body hop (by simp)
  have hp := MCRequest.req_Body_panic h _ _ hE (by rw [f3]; decide)
  rw [MCRequest.Transmit, if_neg (by rw [f3]; decide), hp]
  rfl

namespace MCResponse

theorem res_accessors (h : Endian) (res : Frame)
    (h1 : res.hdr.elen.val + res.hdr.klen.val ≤ res.hdr.blen.val)
    (h2 : res.hdr.blen.val ≤ res.tail.length) (h3 : 24 + res.hdr.blen.val ≤ ARRAY_LEN) :
    Extras h res = .ok (res.tail.take res.hdr.elen.val) ∧
    Key h res = .ok ((res.tail.drop res.hdr.elen.val).take res.hdr.klen.val) ∧
    Body h res = .ok ((res.tail.drop (res.hdr.elen.val + res.hdr.klen.val)).take
      (res.hdr.blen.val - (res.hdr.elen.val + res.hdr.klen.val))) := by
  refine ⟨?_, ?_, ?_⟩
  · rw [Extras, res_data_eq h res 0 _ (by omega) (by omega) (by omega)]
    simp
  · rw [Key, res_data_eq h res _ _ (by omega) (by omega) (by omega)]
    simp
  · rw [Body, res_data_eq h res _ _ (by omega) (by omega) (by omega)]

theorem res_SetData_fields (hdr : MCResponse) (extras key body : List Byte)
    (he : extras.length ≤ 255) (hk : key.length ≤ 65535)
    (hl : extras.length + key.length + body.length < 4294967296) :
    (SetData hdr extras key body).hdr.elen.val = extras.length ∧
    (SetData hdr extras key body).hdr.klen.val = key.length ∧
    (SetData hdr extras key body).hdr.blen.val = extras.length + key.length + body.length := by
  simp only [res_SetData_hdr, byte, u16, u32]
  refine ⟨by omega, by omega, by omega⟩

theorem res_Bytes_SetData_big (h : Endian) (hdr : MCResponse) (body : List Byte)
    (hb : body.length = 1073741824) :
    Bytes h (SetData hdr [] [] body) = .error .sliceBounds := by
  apply res_Bytes_SetData_panic
  · simp only [List.length_nil, hb]; omega
  · simp only [List.length_nil, hb]; omega

end MCResponse

namespace MCRequest

theorem req_SetData_real_elen_gen (h : Endian) (hdr : MCRequest) (extras key body : List Byte)
    (he : extras.length ≤ 255)
    (hl : extras.length + key.length + body.length < 4294967296)
    (hop : hdr.Opcode < TAP_MUTATION ∨ hdr.Opcode > TAP_CHECKPOINT_END ∨
      extras.length + key.length + body.length = 0 ∨
      (2 ≤ extras.length + key.length + body.length ∧
        beVal ((extras ++ key ++ body).take 2) = 0)) :
    real_elen h (SetData hdr extras key body) = .ok extras.length := by
  have f3 := req_SetData_blen hdr extras key body hl
  have ht := req_SetData_tail hdr extras key body
  have f1 : (SetData hdr extras key body).hdr.elen.val = extras.length := by
    simp only [req_SetData_hdr, byte]; omega
  by_cases hc : (SetData hdr extras key body).hdr.Opcode ≥ TAP_MUTATION ∧
      (SetData hdr extras key body).hdr.Opcode ≤ TAP_CHECKPOINT_END ∧
      (SetData hdr extras key body).hdr.blen ≠ 0
  · obtain ⟨c1, c2, c3⟩ := hc
    have c1' : hdr.Opcode ≥ TAP_MUTATION := c1
    have c2' : hdr.Opcode ≤ TAP_CHECKPOINT_END := c2
    have c3' : (SetData hdr extras key body).hdr.blen.val ≠ 0 := fun h0 => c3 (Fin.ext h0)
    rcases hop with hop | hop | hop | ⟨h2, hp⟩
    · exact absurd c1' (not_le.mpr hop)
    · exact absurd c2' (not_le.mpr hop)
    · exact absurd (by rw [f3]; exact hop) c3'
    · rw [req_real_elen_tap h _ ⟨c1, c2, c3⟩ (by rw [ht]; simp only [List.length_append]; omega),
        ht, hp, f1, Nat.add_zero]
  · rw [req_real_elen_plain h _ hc, f1]

end MCRequest

theorem req_String_ok (h : Endian) (name : CommandCode → List Byte) (req : MCRequest.Frame)
    (E : Nat) (k : List Byte) (hE : MCRequest.real_elen h req = .ok E)
    (hK : MCRequest.Key h req = .ok k) :
    MCRequest.String h name req
      = .ok (ascii "\x7bMCRequest opcode=" ++ name req.hdr.Opcode ++ ascii ", bodylen="
          ++ ascii (toString ((req.hdr.blen.val : Int) - (req.hdr.klen.val : Int) - (E : Int)))
          ++ ascii ", key=\x27" ++ k ++ ascii "\x27\x7d") := by
  simp only [MCRequest.String, hE, hK, bind, Except.bind]
  rfl

namespace MCRequest

theorem req_wire_injective (s t : MCRequest) (hw : wire s = wire t) : s = t := by
  obtain ⟨s0, s1, s2, s3, s4, s5, s6, s7, s8⟩ := req_wire_fields s
  obtain ⟨t0, t1, t2, t3, t4, t5, t6, t7, t8⟩ := req_wire_fields t
  rw [hw] at s0 s1 s2 s3 s4 s5 s6 s7 s8
  have e0 : s.magic = t.magic := by rw [← s0, t0]
  have e1 : s.Opcode = t.Opcode := by rw [← s1, t1]
  have e2 : s.klen = t.klen := by
    rw [← u16_beVal_beBytes s.klen, ← u16_beVal_beBytes t.klen, ← s2, t2]
  have e3 : s.elen = t.elen := by rw [← s3, t3]
  have e4 : s.dt = t.dt := by rw [← s4, t4]
  have e5 : s.VBucket = t.VBucket := by
    rw [← u16_beVal_beBytes s.VBucket, ← u16_beVal_beBytes t.VBucket, ← s5, t5]
  have e6 : s.blen = t.blen := by
    rw [← u32_beVal_beBytes s.blen, ← u32_beVal_beBytes t.blen, ← s6, t6]
  have e7 : s.Opaque = t.Opaque := by
    rw [← u32_beVal_beBytes s.Opaque, ← u32_beVal_beBytes t.Opaque, ← s7, t7]
  have e8 : s.Cas = t.Cas := by
    rw [← u64_beVal_beBytes s.Cas, ← u64_beVal_beBytes t.Cas, ← s8, t8]
  cases s
  cases t
  simp only at e0 e1 e2 e3 e4 e5 e6 e7 e8
  subst e0 e1 e2 e3 e4 e5 e6 e7 e8
  rfl

end MCRequest

/-- After `PutUintN` on a little-endian host the field reads as the byte-swap
of its old value: its big-endian bytes are the old ones reversed. -/
theorem beBytes_putBE_little (w v : Nat) :
    beBytes w (putBE .little w v) = (beBytes w v).reverse := by
  have := beBytes_beVal (beBytes w v).reverse
  rw [List.length_reverse, beBytes_length] at this
  exact this

namespace MCRequest

theorem req_fixByteOrder_swapped (req : Frame) :
    (fixByteOrder .little req).tail = req.tail ∧
    (fixByteOrder .little req).hdr.magic = req.hdr.magic ∧
    (fixByteOrder .little req).hdr.Opcode = req.hdr.Opcode ∧
    (fixByteOrder .little req).hdr.elen = req.hdr.elen ∧
    (fixByteOrder .little req).hdr.dt = req.hdr.dt ∧
    beBytes 2 (fixByteOrder .little req).hdr.klen = (beBytes 2 req.hdr.klen).reverse ∧
    beBytes 2 (fixByteOrder .little req).hdr.VBucket = (beBytes 2 req.hdr.VBucket).reverse ∧
    beBytes 4 (fixByteOrder .little req).hdr.blen = (beBytes 4 req.hdr.blen).reverse ∧
    beBytes 4 (fixByteOrder .little req).hdr.Opaque = (beBytes 4 req.hdr.Opaque).reverse ∧
    beBytes 8 (fixByteOrder .little req).hdr.Cas = (beBytes 8 req.hdr.Cas).reverse ∧
    Size (fixByteOrder .little req).hdr
      = 24 + ((beVal (beBytes 4 req.hdr.blen).reverse : Nat) : Int) := by
  refine ⟨rfl, rfl, rfl, rfl, rfl, ?_, ?_, ?_, ?_, ?_, ?_⟩
  · simp only [fixByteOrder, u16_putBE, beBytes_putBE_little]
  · simp only [fixByteOrder, u16_putBE, beBytes_putBE_little]
  · simp only [fixByteOrder, u32_putBE, beBytes_putBE_little]
  · simp only [fixByteOrder, u32_putBE, beBytes_putBE_little]
  · simp only [fixByteOrder, u64_putBE, beBytes_putBE_little]
  · simp only [Size, fixByteOrder, u32_putBE, HDR_LEN]
    rfl

theorem req_HeaderBytes_inv (h : Endian) (req : Frame) (hb : List Byte) (fr : Frame)
    (hh : HeaderBytes h req = .ok (hb, fr)) : fr = fixByteOrder h req := by
  unfold HeaderBytes at hh
  cases hE : real_elen h req with
  | error e => rw [hE] at hh; cases hh
  | ok E =>
    rw [hE] at hh
    simp only [bind, Except.bind] at hh
    cases hv : arrayView ((fixByteOrder h req).mem h) 0 (HDR_LEN + E + req.hdr.klen.val) with
    | error e => rw [hv] at hh; cases hh
    | ok v =>
      rw [hv] at hh
      injection hh with hh
      injection hh with _ h2
      exact h2.symm

end MCRequest

theorem beBytes_u16_beVal (X : List Byte) (hX : X.length = 2) :
    beBytes 2 (u16 (beVal X)).val = X := by
  have h1 := beVal_lt X
  rw [hX] at h1
  have h2 : (u16 (beVal X)).val = beVal X := by simp only [u16]; omega
  rw [h2, ← hX, beBytes_beVal]

theorem beBytes_u32_beVal (X : List Byte) (hX : X.length = 4) :
    beBytes 4 (u32 (beVal X)).val = X := by
  have h1 := beVal_lt X
  rw [hX] at h1
  have h2 : (u32 (beVal X)).val = beVal X := by simp only [u32]; omega
  rw [h2, ← hX, beBytes_beVal]

theorem beBytes_u64_beVal (X : List Byte) (hX : X.length = 8) :
    beBytes 8 (u64 (beVal X)).val = X := by
  have h1 := beVal_lt X
  rw [hX] at h1
  have h2 : (u64 (beVal X)).val = beVal X := by simp only [u64]; omega
  rw [h2, ← hX, beBytes_beVal]

/-- The wire image of the header that `ReceiveRequest` reads from a stream is
the first 24 bytes of the stream. -/
theorem req_wire_parse (s : List Byte) (h24 : 24 ≤ s.length) :
    MCRequest.wire
      { magic := s.getD 0 0
        Opcode := s.getD 1 0
        klen := u16 (beVal ((s.drop 2).take 2))
        elen := s.getD 4 0
        dt := s.getD 5 0
        VBucket := u16 (beVal ((s.drop 6).take 2))
        blen := u32 (beVal ((s.drop 8).take 4))
        Opaque := u32 (beVal ((s.drop 12).take 4))
        Cas := u64 (beVal ((s.drop 16).take 8)) } = s.take 24 := by
  rcases s with _ | ⟨b0, _ | ⟨b1, _ | ⟨b2, _ | ⟨b3, _ | ⟨b4, _ | ⟨b5, _ | ⟨b6, _ | ⟨b7, _ | ⟨b8, _ | ⟨b9, _ | ⟨b10, _ | ⟨b11, _ | ⟨b12, _ | ⟨b13, _ | ⟨b14, _ | ⟨b15, _ | ⟨b16, _ | ⟨b17, _ | ⟨b18, _ | ⟨b19, _ | ⟨b20, _ | ⟨b21, _ | ⟨b22, _ | ⟨b23, rest⟩⟩⟩⟩⟩⟩⟩⟩⟩⟩⟩⟩⟩⟩⟩⟩⟩⟩⟩⟩⟩⟩⟩⟩
  all_goals first
    | (simp only [List.length_nil, List.length_cons] at h24; omega)
    | skip
  simp only [MCRequest.wire, List.drop_succ_cons, List.drop_zero, List.take_succ_cons,
    List.take_zero, List.getD_cons_zero, List.getD_cons_succ]
  rw [beBytes_u16_beVal [b2, b3] rfl, beBytes_u16_beVal [b6, b7] rfl,
    beBytes_u32_beVal [b8, b9, b10, b11] rfl, beBytes_u32_beVal [b12, b13, b14, b15] rfl,
    beBytes_u64_beVal [b16, b17, b18, b19, b20, b21, b22, b23] rfl]
  rfl

theorem bigHdr_receive (X : List Byte) (hX : X.length = 1073741824) :
    ReceiveRequest 1073741824 (MCRequest.wire bigHdr ++ X) []
      = { frame := some { hdr := bigHdr, tail := X }, n := 24 + X.length, err := none,
          rest := [] } := by
  have h1 : bigHdr.magic = REQ_MAGIC := by decide
  have h2 : ((bigHdr.blen.val : Nat) : Int) ≤ 1073741824 := by decide
  have h3 : X.length = bigHdr.blen.val := by rw [hX]; decide
  have := MCRequest.req_ReceiveRequest_wire 1073741824 bigHdr X [] [] h1 h2 h3
  rwa [List.append_nil] at this

theorem bigHdr_bytes (h : Endian) (X : List Byte) :
    MCRequest.Bytes h { hdr := bigHdr, tail := X } = .error .sliceBounds := by
  have hp : ARRAY_LEN < 24 + bigHdr.blen.val := by decide
  exact MCRequest.req_Bytes_panic h _ hp

theorem req_SetData_longkey_body_panic (h : Endian) (hdr : MCRequest) (key body : List Byte)
    (hop : hdr.Opcode < TAP_MUTATION ∨ hdr.Opcode > TAP_CHECKPOINT_END)
    (hk : key.length = 65536) (hb : body.length = 1073741824) :
    MCRequest.Body h (MCRequest.SetData hdr [] key body) = .error .sliceBounds := by
  have f3 := MCRequest.req_SetData_blen hdr [] key body
    (by simp only [List.length_nil, hk, hb]; omega)
  simp only [List.length_nil, hk, hb] at f3
  have hE := MCRequest.req_SetData_real_elen h hdr [] key body hop (by simp)
  exact MCRequest.req_Body_panic h _ _ hE (by rw [f3]; decide)

namespace MCRequest

/-- The effective extras length of a frame whose declared tail is at least
128 bytes long and lies within the buffer. -/
theorem req_real_elen_large (h : Endian) (req : Frame) (hs : 128 ≤ req.hdr.blen.val)
    (h2 : req.hdr.blen.val ≤ req.tail.length) :
    real_elen h req = .ok (req.hdr.elen.val +
      (if TAP_MUTATION ≤ req.hdr.Opcode ∧ req.hdr.Opcode ≤ TAP_CHECKPOINT_END
        then beVal (req.tail.take 2) else 0)) := by
  have hb : req.hdr.blen ≠ 0 := by
    intro h0
    rw [h0] at hs
    exact absurd hs (by decide)
  by_cases hc : TAP_MUTATION ≤ req.hdr.Opcode ∧ req.hdr.Opcode ≤ TAP_CHECKPOINT_END
  · rw [if_pos hc, req_real_elen_tap h req ⟨hc.1, hc.2, hb⟩ (by omega)]
  · rw [if_neg hc, Nat.add_zero]
    exact req_real_elen_plain h req (fun hx => hc ⟨hx.1, hx.2.1⟩)

theorem req_Body_bounds (h : Endian) (req : Frame) (E : Nat) (hE : real_elen h req = .ok E)
    (hbad : ¬ (E + req.hdr.klen.val ≤ req.hdr.blen.val ∧ 24 + req.hdr.blen.val ≤ ARRAY_LEN)) :
    Body h req = .error .sliceBounds := by
  have hn : ¬ (E + req.hdr.klen.val + HDR_LEN ≤ req.hdr.blen.val + HDR_LEN ∧
      req.hdr.blen.val + HDR_LEN ≤ ARRAY_LEN) := by
    simp only [HDR_LEN]
    omega
  simp only [Body, hE, bind, Except.bind, data, arrayView, hn, if_false]

theorem req_Transmit_fail {σ ε : Type} (h : Endian) (req : Frame) (w : Writer σ ε) (s : σ)
    (E : Nat) (hE : real_elen h req = .ok E) (hs : ¬ req.hdr.blen.val < 128)
    (hbad : ¬ (E + req.hdr.klen.val ≤ req.hdr.blen.val ∧ 24 + req.hdr.blen.val ≤ ARRAY_LEN)) :
    Transmit h req w s = .error .sliceBounds := by
  rw [Transmit, if_neg hs, req_Body_bounds h req E hE hbad]
  rfl

/-- When `Transmit` returns, and what it returns to a writer that accepts
every slice in full. -/
theorem req_Transmit_returns {σ ε : Type} (h : Endian) (req : Frame) (w : Writer σ ε) (s : σ)
    (h2 : req.hdr.blen.val ≤ req.tail.length)
    (hc : req.hdr.blen.val < 128 ∨
      (24 + req.hdr.blen.val ≤ 1073741824 ∧
        req.hdr.elen.val
          + (if TAP_MUTATION ≤ req.hdr.Opcode ∧ req.hdr.Opcode ≤ TAP_CHECKPOINT_END
              then beVal (req.tail.take 2) else 0)
          + req.hdr.klen.val ≤ req.hdr.blen.val)) :
    ∃ res, Transmit h req w s = .ok res ∧
      ((∀ t p, (w.Write t p).1 = (p.length : Int) ∧ (w.Write t p).2.1 = none) →
        res.n = Size req.hdr ∧ res.err = none) := by
  have hwl := req_wire_length req.hdr
  by_cases hs : req.hdr.blen.val < 128
  · refine ⟨_, req_Transmit_small h req w s hs h2, fun hw => ⟨?_, (hw _ _).2⟩⟩
    rw [(hw _ _).1]
    simp only [Size, HDR_LEN, List.length_append, hwl, List.length_take]
    rw [Nat.min_eq_left h2]
    push_cast
    rfl
  · rcases hc with hc | ⟨hA, hc⟩
    · exact absurd hc hs
    · have hE := req_real_elen_large h req (by omega) h2
      have t := req_Transmit_large h req w s _ hE hs hc h2 (by simp only [ARRAY_LEN]; omega)
      refine ⟨_, t, fun hw => ?_⟩
      generalize hEe : req.hdr.elen.val
          + (if TAP_MUTATION ≤ req.hdr.Opcode ∧ req.hdr.Opcode ≤ TAP_CHECKPOINT_END
              then beVal (req.tail.take 2) else 0) = E at hc
      rcases hq : w.Write s (wire req.hdr ++ req.tail.take (E + req.hdr.klen.val))
        with ⟨n, e, s1⟩
      have e1 := (hw s (wire req.hdr ++ req.tail.take (E + req.hdr.klen.val))).1
      have e2 := (hw s (wire req.hdr ++ req.tail.take (E + req.hdr.klen.val))).2
      rw [hq] at e1 e2
      simp only at e1 e2
      subst e2
      simp only
      refine ⟨?_, (hw _ _).2⟩
      rw [(hw _ _).1, e1]
      simp only [Size, HDR_LEN, List.length_append, hwl, List.length_take, List.length_drop]
      rw [Nat.min_eq_left (by omega), Nat.min_eq_left (by omega)]
      push_cast
      omega

/-- When `Transmit` panics. -/
theorem req_Transmit_panics {σ ε : Type} (h : Endian) (req : Frame) (w : Writer σ ε) (s : σ)
    (h2 : req.hdr.blen.val ≤ req.tail.length)
    (hc : ¬ (req.hdr.blen.val < 128 ∨
      (24 + req.hdr.blen.val ≤ 1073741824 ∧
        req.hdr.elen.val
          + (if TAP_MUTATION ≤ req.hdr.Opcode ∧ req.hdr.Opcode ≤ TAP_CHECKPOINT_END
              then beVal (req.tail.take 2) else 0)
          + req.hdr.klen.val ≤ req.hdr.blen.val))) :
    Transmit h req w s = .error .sliceBounds := by
  have hs : ¬ req.hdr.blen.val < 128 := fun hx => hc (Or.inl hx)
  have hE := req_real_elen_large h req (by omega) h2
  refine req_Transmit_fail h req w s _ hE hs (fun hx => hc (Or.inr ⟨?_, hx.1⟩))
  have := hx.2
  simp only [ARRAY_LEN] at this
  exact this

/-- The stored lengths of a built frame. -/
theorem req_SetData_stored (hdr : MCRequest) (extras key body : List Byte) :
    (SetData hdr extras key body).hdr.elen.val = extras.length % 256 ∧
    (SetData hdr extras key body).hdr.klen.val = key.length % 65536 ∧
    (SetData hdr extras key body).hdr.blen.val
      = (extras.length + key.length + body.length) % 4294967296 ∧
    (SetData hdr extras key body).hdr.Opcode = hdr.Opcode ∧
    (SetData hdr extras key body).tail = extras ++ key ++ body ∧
    (SetData hdr extras key body).hdr.blen.val ≤ (SetData hdr extras key body).tail.length := by
  have ht := req_SetData_tail hdr extras key body
  have hb : (SetData hdr extras key body).hdr.blen.val
      = (extras.length + key.length + body.length) % 4294967296 := by
    simp only [req_SetData_hdr, u32]
    congr 1
    omega
  refine ⟨rfl, rfl, hb, rfl, ht, ?_⟩
  rw [hb, ht]
  simp only [List.length_append]
  exact Nat.mod_le _ _

end MCRequest

namespace MCRequest

/-- A call of `HeaderBytes()` whose slice lies within the buffer. -/
theorem req_HeaderBytes_returns (h : Endian) (req : Frame)
    (h2 : (req.hdr.Opcode ≥ TAP_MUTATION ∧ req.hdr.Opcode ≤ TAP_CHECKPOINT_END ∧
      req.hdr.blen ≠ 0) → 2 ≤ req.tail.length)
    (h1 : req.hdr.elen.val
        + (if req.hdr.Opcode ≥ TAP_MUTATION ∧ req.hdr.Opcode ≤ TAP_CHECKPOINT_END ∧
            req.hdr.blen ≠ 0 then beVal (req.tail.take 2) else 0)
        + req.hdr.klen.val ≤ req.tail.length) :
    HeaderBytes h req
      = .ok (wire req.hdr ++ req.tail.take (req.hdr.elen.val
          + (if req.hdr.Opcode ≥ TAP_MUTATION ∧ req.hdr.Opcode ≤ TAP_CHECKPOINT_END ∧
              req.hdr.blen ≠ 0 then beVal (req.tail.take 2) else 0)
          + req.hdr.klen.val), fixByteOrder h req) := by
  have hE : real_elen h req = .ok (req.hdr.elen.val
      + (if req.hdr.Opcode ≥ TAP_MUTATION ∧ req.hdr.Opcode ≤ TAP_CHECKPOINT_END ∧
          req.hdr.blen ≠ 0 then beVal (req.tail.take 2) else 0)) := by
    by_cases hc : req.hdr.Opcode ≥ TAP_MUTATION ∧ req.hdr.Opcode ≤ TAP_CHECKPOINT_END ∧
        req.hdr.blen ≠ 0
    · rw [if_pos hc, req_real_elen_tap h req hc (h2 hc)]
    · rw [if_neg hc, Nat.add_zero]
      exact req_real_elen_plain h req hc
  have hp : (if req.hdr.Opcode ≥ TAP_MUTATION ∧ req.hdr.Opcode ≤ TAP_CHECKPOINT_END ∧
      req.hdr.blen ≠ 0 then beVal (req.tail.take 2) else 0) < 65536 := by
    split
    · have := beVal_lt (req.tail.take 2)
      have hl : (req.tail.take 2).length ≤ 2 := by
        rw [List.length_take]
        exact Nat.min_le_left _ _
      calc beVal (req.tail.take 2) < 256 ^ (req.tail.take 2).length := this
        _ ≤ 256 ^ 2 := Nat.pow_le_pow_right (by decide) hl
        _ = 65536 := by norm_num
    · decide
  have hk := req.hdr.klen.isLt
  have he := req.hdr.elen.isLt
  exact req_HeaderBytes_ok h req _ hE h1 (by simp only [ARRAY_LEN]; omega)

end MCRequest

/-! ## The claims -/

/-- C1 (as amended): request round trip.  For every host byte order, every
value of `MaxBodyLen`, every header template, every scratch slice and every
extras (at most 255 bytes), key (at most 65535 bytes) and body whose total
length is at most `MaxBodyLen` and satisfies `24 + total <= 1 << 30`:
`Bytes()` of the frame built by `SetData` returns an image, and
`ReceiveRequest` on a reader over that image returns no error,
`n = 24 + total`, an empty reader, and a frame equal to a freshly built one:
magic `0x80`, the opcode, key length, extras length, data type 0, vbucket,
tail length, opaque and cas of the inputs, and tail `extras ++ key ++ body`. -/
theorem C1_round_trip (h : Endian) (maxBodyLen : Int) (hdr : MCRequest)
    (extras key body hdrBytes : List Byte)
    (he : extras.length ≤ 255) (hk : key.length ≤ 65535)
    (hM : ((extras.length + key.length + body.length : Nat) : Int) ≤ maxBodyLen)
    (hA : 24 + (extras.length + key.length + body.length) ≤ 1073741824) :
    ∃ img fr, MCRequest.Bytes h (MCRequest.SetData hdr extras key body) = .ok (img, fr) ∧
      ReceiveRequest maxBodyLen img hdrBytes =
        { frame := some (MCRequest.SetData hdr extras key body)
          n := 24 + extras.length + key.length + body.length
          err := none
          rest := [] } ∧
      (MCRequest.SetData hdr extras key body).tail = extras ++ key ++ body ∧
      (MCRequest.SetData hdr extras key body).hdr =
        { magic := 0x80, Opcode := hdr.Opcode, klen := ⟨key.length, by omega⟩,
          elen := ⟨extras.length, by omega⟩, dt := 0, VBucket := hdr.VBucket,
          blen := ⟨extras.length + key.length + body.length, by omega⟩,
          Opaque := hdr.Opaque, Cas := hdr.Cas } := by
  refine ⟨_, _, MCRequest.req_Bytes_SetData h hdr extras key body hA, ?_, MCRequest.req_SetData_tail _ _ _ _, ?_⟩
  · have hb := MCRequest.req_SetData_blen hdr extras key body (by omega)
    have ht := MCRequest.req_SetData_tail hdr extras key body
    have := MCRequest.req_ReceiveRequest_wire maxBodyLen (MCRequest.SetData hdr extras key body).hdr
      (extras ++ key ++ body) [] hdrBytes rfl (by rw [hb]; exact hM)
      (by rw [hb]; simp only [List.length_append])
    rw [List.append_nil] at this
    have hf : MCRequest.SetData hdr extras key body
        = ⟨(MCRequest.SetData hdr extras key body).hdr, extras ++ key ++ body⟩ := by rw [← ht]
    have hn : 24 + (extras ++ key ++ body).length
        = 24 + extras.length + key.length + body.length := by
      simp only [List.length_append]; omega
    rw [this, hn, ← hf]
  · rw [MCRequest.req_SetData_hdr]
    congr 1
    · apply Fin.ext; simp only [u16]; omega
    · apply Fin.ext; simp only [byte]; omega
    · apply Fin.ext; simp only [u32]; omega

/-- C1 witness: the request of `TestReceiveRequest` on a little-endian host
with the default `MaxBodyLen`. -/
theorem C1_round_trip_witness :
    ∃ img fr, MCRequest.Bytes .little (MCRequest.SetData testHdr0 [1] somekey somevalue)
        = .ok (img, fr) ∧
      ReceiveRequest MaxBodyLen img [] =
        { frame := some (MCRequest.SetData testHdr0 [1] somekey somevalue)
          n := 24 + 1 + 7 + 9
          err := none
          rest := [] } ∧
      (MCRequest.SetData testHdr0 [1] somekey somevalue).tail = [1] ++ somekey ++ somevalue ∧
      (MCRequest.SetData testHdr0 [1] somekey somevalue).hdr =
        { magic := 0x80, Opcode := SET, klen := 7, elen := 1, dt := 0, VBucket := 824,
          blen := 17, Opaque := 7242, Cas := 0 } :=
  C1_round_trip .little MaxBodyLen testHdr0 [1] somekey somevalue [] (by decide) (by decide)
    (by decide) (by decide)

/-- C1 counterexample: with `MaxBodyLen` set to `1 << 30`, empty extras and
key and a body of `1 << 30` zero bytes, the total is at most `MaxBodyLen`,
and `Bytes()` panics on the built frame: there is no image for
`ReceiveRequest` to read without error. -/
theorem C1_counterexample :
    ((List.replicate 1073741824 (0 : Byte)).length : Int) ≤ (1073741824 : Int) ∧
    ¬ ∃ img fr,
      MCRequest.Bytes .little
        (MCRequest.SetData testHdr0 [] [] (List.replicate 1073741824 (0 : Byte)))
          = .ok (img, fr) ∧
      (ReceiveRequest 1073741824 img []).err = none := by
  refine ⟨by rw [List.length_replicate]; norm_num, ?_⟩
  rw [MCRequest.Bytes_SetData_big _ _ _ (List.length_replicate _ _)]
  rintro ⟨img, fr, h, -⟩
  cases h

/-- C2 (as amended): request wire image.  For every host byte order, header
template, extras of at most 255 bytes, key of at most 65535 bytes and body
with `24 + total <= 1 << 30`, the first call of `Bytes()` on the frame built
by `SetData` returns `0x80`, the opcode, the key length on 2 bytes
big-endian, the extras length, `0x00`, the vbucket on 2 bytes big-endian, the
total tail length on 4 bytes big-endian, the opaque on 4 bytes big-endian,
the cas on 8 bytes big-endian, then extras, key and body; the magic and
data-type bytes of the template do not matter. -/
theorem C2_wire_image (h : Endian) (hdr : MCRequest) (extras key body : List Byte)
    (he : extras.length ≤ 255) (hk : key.length ≤ 65535)
    (hA : 24 + (extras.length + key.length + body.length) ≤ 1073741824) :
    ∃ fr, MCRequest.Bytes h (MCRequest.SetData hdr extras key body) = .ok
      ([0x80, hdr.Opcode] ++ beBytes 2 key.length ++ [⟨extras.length, by omega⟩, 0x00]
        ++ beBytes 2 hdr.VBucket ++ beBytes 4 (extras.length + key.length + body.length)
        ++ beBytes 4 hdr.Opaque ++ beBytes 8 hdr.Cas ++ extras ++ key ++ body, fr) := by
  refine ⟨MCRequest.fixByteOrder h (MCRequest.SetData hdr extras key body), ?_⟩
  rw [MCRequest.req_Bytes_SetData h hdr extras key body hA]
  have h1 : (u16 key.length).val = key.length := by simp only [u16]; omega
  have h2 : byte extras.length = ⟨extras.length, by omega⟩ := by
    apply Fin.ext; simp only [byte]; omega
  have h3 : (u32 (body.length + extras.length + key.length)).val
      = extras.length + key.length + body.length := by simp only [u32]; omega
  simp only [MCRequest.wire, MCRequest.req_SetData_hdr, h1, h2, h3, List.append_assoc]
  rfl

/-- C2 witness: the frame of `TestEncodingRequest`, with its expected bytes. -/
theorem C2_wire_image_witness :
    ∃ fr, MCRequest.Bytes .little (MCRequest.SetData testHdr [] somekey somevalue) = .ok
      ([0x80, 0x01, 0x0, 0x7, 0x0, 0x0, 0x3, 0x38, 0x0, 0x0, 0x0, 0x10, 0x0, 0x0, 0x1c, 0x4a,
        0x0, 0x0, 0x0, 0x0, 0x37, 0xef, 0x3a, 0x35] ++ somekey ++ somevalue, fr) :=
  C2_wire_image .little testHdr [] somekey somevalue (by decide) (by decide) (by decide)

/-- C2 counterexample: a body of `1 << 30` zero bytes keeps the total below
`2^32`, and `Bytes()` panics on the frame built from it. -/
theorem C2_counterexample :
    (List.replicate 1073741824 (0 : Byte)).length < 4294967296 ∧
    MCRequest.Bytes .little
      (MCRequest.SetData testHdr [] [] (List.replicate 1073741824 (0 : Byte)))
        = .error .sliceBounds :=
  ⟨by rw [List.length_replicate]; decide,
    MCRequest.Bytes_SetData_big _ _ _ (List.length_replicate _ _)⟩

/-- C3: magic enforcement.  On every byte stream of at least 24 bytes whose
first byte is not `0x80`, `ReceiveRequest` returns a nil frame, `n = 24` and
the error `Bad magic` for that byte, and leaves in the reader everything
after the 24 header bytes; likewise `ReceiveResponse` when the first byte is
not `0x81`.  In particular, whatever `Bytes()` returns for a frame built by
the response `SetData` is rejected by `ReceiveRequest`, and whatever it
returns for a frame built by the request `SetData` is rejected by
`ReceiveResponse`. -/
theorem C3_magic_enforcement (maxBodyLen : Int) (hdrBytes : List Byte) :
    (∀ r : List Byte, 24 ≤ r.length → r.getD 0 0 ≠ 0x80 →
      ReceiveRequest maxBodyLen r hdrBytes
        = { frame := none, n := 24, err := some (.badMagic (r.getD 0 0)), rest := r.drop 24 }) ∧
    (∀ r : List Byte, 24 ≤ r.length → r.getD 0 0 ≠ 0x81 →
      ReceiveResponse maxBodyLen r hdrBytes
        = { frame := none, n := 24, err := some (.badMagic (r.getD 0 0)), rest := r.drop 24 }) ∧
    (∀ (h : Endian) (hdr : MCResponse) (extras key body img : List Byte) (fr : MCResponse.Frame),
      MCResponse.Bytes h (MCResponse.SetData hdr extras key body) = .ok (img, fr) →
      ReceiveRequest maxBodyLen img hdrBytes
        = { frame := none, n := 24, err := some (.badMagic 0x81), rest := img.drop 24 }) ∧
    (∀ (h : Endian) (hdr : MCRequest) (extras key body img : List Byte) (fr : MCRequest.Frame),
      MCRequest.Bytes h (MCRequest.SetData hdr extras key body) = .ok (img, fr) →
      ReceiveResponse maxBodyLen img hdrBytes
        = { frame := none, n := 24, err := some (.badMagic 0x80), rest := img.drop 24 }) := by
  refine ⟨fun r h24 hm => ReceiveRequest_bad_magic maxBodyLen r hdrBytes h24 hm,
    fun r h24 hm => ReceiveResponse_bad_magic maxBodyLen r hdrBytes h24 hm, ?_, ?_⟩
  · intro h hdr extras key body img fr hb
    obtain ⟨h24, hm⟩ := MCResponse.res_Bytes_magic h _ img fr hb
    have hm2 : img.getD 0 0 = 0x81 := hm
    have := ReceiveRequest_bad_magic maxBodyLen img hdrBytes h24 (by rw [hm2]; decide)
    rw [hm2] at this
    exact this
  · intro h hdr extras key body img fr hb
    obtain ⟨h24, hm⟩ := MCRequest.req_Bytes_magic h _ img fr hb
    have hm2 : img.getD 0 0 = 0x80 := hm
    have := ReceiveResponse_bad_magic maxBodyLen img hdrBytes h24 (by rw [hm2]; decide)
    rw [hm2] at this
    exact this

/-- C3 witness: the stream of `TestReceiveRequestBadMagic` (first byte
`0x83`), and the wire image of a request given to the response decoder. -/
theorem C3_magic_enforcement_witness :
    ReceiveRequest MaxBodyLen (badMagicData) []
      = { frame := none, n := 24, err := some (.badMagic 0x83),
          rest := [1] ++ somekey ++ somevalue } ∧
    (Error.badMagic 0x83).msg = "Bad magic: 0x83" ∧
    ReceiveResponse MaxBodyLen
        ([0x80, 0x01, 0x0, 0x7, 0x0, 0x0, 0x3, 0x38, 0x0, 0x0, 0x0, 0x10, 0x0, 0x0, 0x1c, 0x4a,
          0x0, 0x0, 0x0, 0x0, 0x37, 0xef, 0x3a, 0x35] ++ somekey ++ somevalue) []
      = { frame := none, n := 24, err := some (.badMagic 0x80), rest := somekey ++ somevalue } :=
  ⟨(C3_magic_enforcement MaxBodyLen []).1 badMagicData (by decide) (by decide), by decide,
    (C3_magic_enforcement MaxBodyLen []).2.2.2 .little testHdr [] somekey somevalue _
      (MCRequest.fixByteOrder .little (MCRequest.SetData testHdr [] somekey somevalue)) rfl⟩

/-- C4: body-cap enforcement.  On every byte stream of at least 24 bytes with
first byte `0x80`, with `N` the big-endian 32-bit value at offsets 8..12,
`ReceiveRequest` fails with a `too big` error if and only if `N` is greater
than the current `MaxBodyLen`; it then returns a nil frame, `n = 24` and the
error for `N` and `MaxBodyLen`, and leaves in the reader everything after the
header; with `N` equal to `MaxBodyLen` there is no such error and a frame is
returned. -/
theorem C4_body_cap (maxBodyLen : Int) (r hdrBytes : List Byte) (h24 : 24 ≤ r.length)
    (hm : r.getD 0 0 = 0x80) :
    ((∃ n m, (ReceiveRequest maxBodyLen r hdrBytes).err = some (.tooBig n m))
      ↔ (beVal ((r.drop 8).take 4) : Int) > maxBodyLen) ∧
    ((beVal ((r.drop 8).take 4) : Int) > maxBodyLen →
      ReceiveRequest maxBodyLen r hdrBytes
        = { frame := none, n := 24,
            err := some (.tooBig (beVal ((r.drop 8).take 4)) maxBodyLen), rest := r.drop 24 }) ∧
    ((beVal ((r.drop 8).take 4) : Int) = maxBodyLen →
      (ReceiveRequest maxBodyLen r hdrBytes).frame ≠ none ∧
      ∀ n m, (ReceiveRequest maxBodyLen r hdrBytes).err ≠ some (.tooBig n m)) := by
  have hacc : (beVal ((r.drop 8).take 4) : Int) ≤ maxBodyLen →
      (ReceiveRequest maxBodyLen r hdrBytes).frame ≠ none ∧
      ∀ n m, (ReceiveRequest maxBodyLen r hdrBytes).err ≠ some (.tooBig n m) := by
    intro hle
    rw [ReceiveRequest_accept maxBodyLen r hdrBytes h24 hm hle]
    refine ⟨by simp, ?_⟩
    intro n m
    dsimp only
    split
    · simp
    · split <;> simp
  refine ⟨⟨?_, ?_⟩, ?_, ?_⟩
  · rintro ⟨n, m, he⟩
    by_contra hle
    exact (hacc (by omega)).2 n m he
  · intro hgt
    rw [ReceiveRequest_too_big maxBodyLen r hdrBytes h24 hm hgt]
    exact ⟨_, _, rfl⟩
  · intro hgt
    exact ReceiveRequest_too_big maxBodyLen r hdrBytes h24 hm hgt
  · intro heq
    exact hacc (by omega)

/-- C4 witness: a header that declares `MaxBodyLen + 13` tail bytes (the
request of `TestReceiveRequestLongBody`) is rejected after 24 bytes; one that
declares exactly `MaxBodyLen` is not. -/
theorem C4_body_cap_witness :
    ReceiveRequest MaxBodyLen longBodyHeader []
      = { frame := none, n := 24, err := some (.tooBig 1000013 1000000), rest := [1, 115] } ∧
    (Error.tooBig 1000013 1000000).msg = "1000013 is too big (max 1000000)" ∧
    (ReceiveRequest MaxBodyLen maxBodyHeader []).frame ≠ none :=
  ⟨(C4_body_cap MaxBodyLen longBodyHeader [] (by decide) (by decide)).2.1 (by decide), by decide,
    ((C4_body_cap MaxBodyLen maxBodyHeader [] (by decide) (by decide)).2.2 (by decide)).1⟩

/-- C5: short read.  On every byte stream that ends before the frame it
starts is complete (fewer than 24 bytes, or first byte `0x80`, a declared
tail length `t` not above the current `MaxBodyLen`, and fewer than `24 + t`
bytes), `ReceiveRequest` returns a non-nil error and `n` equal to the length
of the stream, and the reader is left empty. -/
theorem C5_short_read (maxBodyLen : Int) (r hdrBytes : List Byte) :
    (r.length < 24 →
      (ReceiveRequest maxBodyLen r hdrBytes).err ≠ none ∧
      (ReceiveRequest maxBodyLen r hdrBytes).n = r.length ∧
      (ReceiveRequest maxBodyLen r hdrBytes).rest = []) ∧
    (24 ≤ r.length → r.getD 0 0 = 0x80 → (beVal ((r.drop 8).take 4) : Int) ≤ maxBodyLen →
      r.length < 24 + beVal ((r.drop 8).take 4) →
      (ReceiveRequest maxBodyLen r hdrBytes).err ≠ none ∧
      (ReceiveRequest maxBodyLen r hdrBytes).n = r.length ∧
      (ReceiveRequest maxBodyLen r hdrBytes).rest = []) := by
  constructor
  · intro h
    rw [ReceiveRequest_short_header maxBodyLen r hdrBytes h]
    exact ⟨by simp, rfl, rfl⟩
  · intro h24 hm hle hlt
    rw [ReceiveRequest_accept maxBodyLen r hdrBytes h24 hm hle]
    dsimp only
    have h1 : ¬ (beVal ((r.drop 8).take 4) ≤ r.length - 24) := by omega
    refine ⟨?_, by omega, List.drop_eq_nil_of_le (by omega)⟩
    rw [if_neg h1]
    split <;> simp

/-- C5 witness: the three-byte stream of `TestReceiveRequestShortHdr`, and the
stream of `TestReceiveRequestShortBody` (the test request without its last
three bytes). -/
theorem C5_short_read_witness :
    ((ReceiveRequest MaxBodyLen [1, 2, 3] []).err ≠ none ∧
      (ReceiveRequest MaxBodyLen [1, 2, 3] []).n = 3 ∧
      (ReceiveRequest MaxBodyLen [1, 2, 3] []).rest = []) ∧
    ((ReceiveRequest MaxBodyLen shortBodyData []).err ≠ none ∧
      (ReceiveRequest MaxBodyLen shortBodyData []).n = 38 ∧
      (ReceiveRequest MaxBodyLen shortBodyData []).rest = []) :=
  ⟨(C5_short_read MaxBodyLen [1, 2, 3] []).1 (by decide),
    (C5_short_read MaxBodyLen shortBodyData []).2 (by decide) (by decide) (by decide)
      (by decide)⟩

/-- C6 (as amended): TAP effective extras on decode.  For every request
returned by `ReceiveRequest` whose tail length satisfies `24 + tail <= 1 << 30`,
with declared extras length `e` and key length `k`: if the opcode lies in
`[TAP_MUTATION, TAP_CHECKPOINT_END]`, the tail has at least two bytes, `p` is
the big-endian 16-bit value of the first two tail bytes and `e + p + k` is at
most the tail length, then `Extras()` is the first `e + p` tail bytes, `Key()`
the next `k` bytes and `Body()` the remaining tail bytes; for every other
opcode, or a zero tail, `real_elen` is the declared `e`, and when `e + k` is
at most the tail length the three accessors split the tail at `e` and
`e + k`. -/
theorem C6_tap_extras (h : Endian) (maxBodyLen : Int) (r hdrBytes : List Byte)
    (req : MCRequest.Frame) (hf : (ReceiveRequest maxBodyLen r hdrBytes).frame = some req)
    (hA : 24 + req.hdr.blen.val ≤ 1073741824) :
    (req.hdr.Opcode ≥ TAP_MUTATION → req.hdr.Opcode ≤ TAP_CHECKPOINT_END →
      2 ≤ req.hdr.blen.val →
      req.hdr.elen.val + beVal (req.tail.take 2) + req.hdr.klen.val ≤ req.hdr.blen.val →
        MCRequest.Extras h req = .ok (req.tail.take (req.hdr.elen.val + beVal (req.tail.take 2))) ∧
        MCRequest.Key h req = .ok ((req.tail.drop
          (req.hdr.elen.val + beVal (req.tail.take 2))).take req.hdr.klen.val) ∧
        MCRequest.Body h req = .ok (req.tail.drop
          (req.hdr.elen.val + beVal (req.tail.take 2) + req.hdr.klen.val))) ∧
    (req.hdr.Opcode < TAP_MUTATION ∨ req.hdr.Opcode > TAP_CHECKPOINT_END ∨ req.hdr.blen = 0 →
      MCRequest.real_elen h req = .ok req.hdr.elen.val ∧
      (req.hdr.elen.val + req.hdr.klen.val ≤ req.hdr.blen.val →
        MCRequest.Extras h req = .ok (req.tail.take req.hdr.elen.val) ∧
        MCRequest.Key h req = .ok ((req.tail.drop req.hdr.elen.val).take req.hdr.klen.val) ∧
        MCRequest.Body h req = .ok (req.tail.drop (req.hdr.elen.val + req.hdr.klen.val)))) := by
  obtain ⟨hl, -, -⟩ := ReceiveRequest_frame_inv maxBodyLen r hdrBytes req hf
  have hbody : ∀ E, E ≤ req.hdr.blen.val →
      (req.tail.drop E).take (req.hdr.blen.val - E) = req.tail.drop E := by
    intro E _
    apply List.take_of_length_le
    simp only [List.length_drop]
    omega
  constructor
  · intro h1 h2 h3 h4
    have hc : req.hdr.Opcode ≥ TAP_MUTATION ∧ req.hdr.Opcode ≤ TAP_CHECKPOINT_END ∧
        req.hdr.blen ≠ 0 := by
      refine ⟨h1, h2, ?_⟩
      intro h0
      rw [h0] at h3
      exact absurd h3 (by decide)
    have hE := MCRequest.req_real_elen_tap h req hc (by omega)
    obtain ⟨a1, a2, a3⟩ := MCRequest.req_accessors h req _ hE h4 (by omega)
      (by simp only [ARRAY_LEN]; omega)
    rw [hbody _ h4] at a3
    exact ⟨a1, a2, a3⟩
  · intro hop
    have hc : ¬ (req.hdr.Opcode ≥ TAP_MUTATION ∧ req.hdr.Opcode ≤ TAP_CHECKPOINT_END ∧
        req.hdr.blen ≠ 0) := by
      rintro ⟨h1, h2, h3⟩
      rcases hop with hop | hop | hop
      · exact absurd h1 (not_le.mpr hop)
      · exact absurd h2 (not_le.mpr hop)
      · exact h3 hop
    have hE := MCRequest.req_real_elen_plain h req hc
    refine ⟨hE, fun h4 => ?_⟩
    obtain ⟨a1, a2, a3⟩ := MCRequest.req_accessors h req _ hE h4 (by omega)
      (by simp only [ARRAY_LEN]; omega)
    rw [hbody _ h4] at a3
    exact ⟨a1, a2, a3⟩

/-- C6 witness: the input of `TestReceivingTapRequest`. -/
theorem C6_tap_extras_witness :
    ∃ req, (ReceiveRequest MaxBodyLen tapContent []).frame = some req ∧
      MCRequest.Extras .little req = .ok [0, 4, 1, 2, 3, 4] ∧
      MCRequest.Key .little req = .ok somekey ∧
      MCRequest.Body .little req = .ok somevalue :=
  ⟨_, rfl, (C6_tap_extras .little MaxBodyLen tapContent [] _ rfl (by decide)).1
    (by decide) (by decide) (by decide) (by decide)⟩

/-- C6 counterexample.  (a) With the default `MaxBodyLen`, a TAP_MUTATION
request with a one-byte tail is received without error, and `Extras()` reads a
16-bit length from it, past the end of the buffer.  (b) With `MaxBodyLen` set
to `1 << 30`, a TAP_MUTATION request with `1 << 30` zero tail bytes (no
extras, no key, engine-private length 0) is received without error, and
`Body()` panics on it. -/
theorem C6_counterexample :
    (ReceiveRequest MaxBodyLen tapOneByte []
        = { frame := some { hdr := { magic := 0x80, Opcode := 0x41, blen := 1 }, tail := [0] },
            n := 25, err := none, rest := [] } ∧
      MCRequest.Extras .little { hdr := { magic := 0x80, Opcode := 0x41, blen := 1 }, tail := [0] }
        = .error .outsideBuffer) ∧
    (ReceiveRequest 1073741824
        (MCRequest.wire tapBigHdr ++ List.replicate 1073741824 (0 : Byte)) []
        = { frame := some { hdr := tapBigHdr, tail := List.replicate 1073741824 0 },
            n := 24 + (List.replicate 1073741824 (0 : Byte)).length, err := none, rest := [] } ∧
      MCRequest.Body .little { hdr := tapBigHdr, tail := List.replicate 1073741824 0 }
        = .error .sliceBounds) :=
  ⟨⟨by decide, by rfl⟩, tapBig_receive _ (List.length_replicate _ _),
    tapBig_body _ _ (by rw [List.length_replicate]; decide)⟩

/-- C7 (as amended): transmit write policy.  For every request freshly
built with a non-TAP opcode, extras of at most 255 bytes, key of at most 65535
bytes and `24 + total <= 1 << 30`, sent to any writer that never returns an
error: `Transmit` returns; if the total tail length is below 128 it issues
exactly one write, whose argument is the image that `Bytes()` returns on a
fresh build; otherwise it issues exactly two writes, first the 24-byte header
followed by extras and key, then the body; in both cases the written slices,
concatenated, are that image. -/
theorem C7_transmit_policy {σ ε : Type} (h : Endian) (hdr : MCRequest)
    (extras key body : List Byte) (w : Writer σ ε) (s : σ)
    (hop : hdr.Opcode < TAP_MUTATION ∨ hdr.Opcode > TAP_CHECKPOINT_END)
    (he : extras.length ≤ 255) (hk : key.length ≤ 65535)
    (hA : 24 + (extras.length + key.length + body.length) ≤ 1073741824)
    (hw : ∀ s p, (w.Write s p).2.1 = none) :
    ∃ img fr res,
      MCRequest.Bytes h (MCRequest.SetData hdr extras key body) = .ok (img, fr) ∧
      MCRequest.Transmit h (MCRequest.SetData hdr extras key body) (logged w) (s, []) = .ok res ∧
      (extras.length + key.length + body.length < 128 → res.w.2.map (·.p) = [img]) ∧
      (128 ≤ extras.length + key.length + body.length →
        res.w.2.map (·.p) = [img.take 24 ++ extras ++ key, body]) ∧
      (res.w.2.map (·.p)).flatten = img := by
  obtain ⟨t1, t2⟩ := MCRequest.req_SetData_transmit h hdr extras key body (logged w) (s, [])
    hop he hk hA
  have hB := MCRequest.req_Bytes_SetData h hdr extras key body hA
  have hwl := MCRequest.req_wire_length (MCRequest.SetData hdr extras key body).hdr
  by_cases hs : extras.length + key.length + body.length < 128
  · refine ⟨_, _, _, hB, t1 hs, fun _ => ?_, fun h2 => absurd hs (by omega), ?_⟩
    · simp [logged]
    · simp [logged]
  · have hs2 : 128 ≤ extras.length + key.length + body.length := by omega
    have t := t2 hs2
    have e1 : ((logged w).Write (s, []) (MCRequest.wire (MCRequest.SetData hdr extras key body).hdr
        ++ (extras ++ key))).2.1 = none := hw _ _
    rcases hq : (logged w).Write (s, []) (MCRequest.wire
        (MCRequest.SetData hdr extras key body).hdr ++ (extras ++ key)) with ⟨n, e, s1⟩
    rw [hq] at e1 t
    simp only at e1
    subst e1
    have hs1 : s1.2 = [{ p := MCRequest.wire (MCRequest.SetData hdr extras key body).hdr
        ++ (extras ++ key), n := n, err := none }] := by
      have := congrArg (fun x => x.2.2.2) hq
      simp only [logged, List.nil_append] at this
      rw [← this]
      have h1 := congrArg (fun x => x.1) hq
      have h2 := congrArg (fun x => x.2.1) hq
      simp only [logged] at h1 h2
      rw [h1, h2]
    refine ⟨_, _, _, hB, t, fun h2 => absurd h2 hs, fun _ => ?_, ?_⟩
    · simp only [logged, hs1, List.map_append, List.map_cons, List.map_nil, List.singleton_append]
      rw [List.take_append_eq_append_take, hwl, List.take_of_length_le (by omega)]
      simp
    · simp only [logged, hs1, List.map_append, List.map_cons, List.map_nil, List.singleton_append]
      simp

set_option maxRecDepth 100000 in
/-- C7 witness: the request of `TestEncodingRequestWithLargeBody`, written to
a buffer: two writes, the 35 bytes of header, extras and key, then the 256
bytes of the body. -/
theorem C7_transmit_policy_witness :
    ∃ img fr res,
      MCRequest.Bytes .little
        (MCRequest.SetData testHdr [1, 2, 3, 4] somekey (List.replicate 256 0)) = .ok (img, fr) ∧
      MCRequest.Transmit .little
        (MCRequest.SetData testHdr [1, 2, 3, 4] somekey (List.replicate 256 0))
        (logged recorder) ([], []) = .ok res ∧
      res.w.2.map (·.p) = [img.take 24 ++ [1, 2, 3, 4] ++ somekey, List.replicate 256 0] ∧
      (res.w.2.map (·.p)).flatten = img :=
  match C7_transmit_policy .little testHdr [1, 2, 3, 4] somekey (List.replicate 256 0)
      recorder [] (by decide) (by decide) (by decide) (by decide) (fun _ _ => rfl) with
  | ⟨img, fr, res, h1, h2, _, h4, h5⟩ => ⟨img, fr, res, h1, h2, h4 (by decide), h5⟩

/-- C7 counterexample: a SET request with a body of `1 << 30` zero bytes;
`Transmit` panics in `Body()` before any write. -/
theorem C7_counterexample :
    (testHdr.Opcode < TAP_MUTATION ∧ (List.replicate 1073741824 (0 : Byte)).length = 1073741824) ∧
    MCRequest.Transmit .little
      (MCRequest.SetData testHdr [] [] (List.replicate 1073741824 (0 : Byte))) recorder []
        = .error .sliceBounds :=
  ⟨⟨by decide, List.length_replicate _ _⟩,
    req_Transmit_big _ _ _ (Or.inl (by decide)) (List.length_replicate _ _)⟩

set_option maxRecDepth 100000 in
/-- C8: failing input.  A response with key `"somekey"` and a body of 128 zero
bytes, sent to a writer that accepts every slice in full: both writes are
issued (31 and 128 bytes), `Size()` is 159, and `Transmit` returns `n = 31`,
the count of the first write alone. -/
theorem C8_response_transmit_count :
    ∃ res, MCResponse.Transmit .little
        (MCResponse.SetData testRes [] somekey (List.replicate 128 0)) recorder [] = .ok res ∧
      res.n = 31 ∧ res.err = none ∧ res.w.map List.length = [31, 128] ∧
      MCResponse.Size (MCResponse.SetData testRes [] somekey (List.replicate 128 0)) = 159 :=
  ⟨_, rfl, by decide, rfl, by decide, by decide⟩

/-- C9 (as amended): request `Transmit` result and write failure.  Write `B`
for the stored tail length (the total of the three lengths mod `2^32`), `K`
for the stored key length (mod `2^16`) and `E` for the effective extras length
(the extras length mod `2^8`, plus, for an opcode in the TAP range, the
big-endian value of the first two tail bytes).  For every freshly built
request and every writer:

* whenever `Transmit` returns, `n` is the sum of the byte counts returned by
  the writes it issued, `err` is the error of the last write it issued, and it
  issued one write, or two with no error from the first;
* if `B < 128`, or `24 + B <= 1 << 30` and `E + K <= B`, `Transmit` returns,
  and with a writer that accepts every slice in full `n = Size()` of the
  freshly built request and `err` is nil;
* otherwise `Transmit` panics before any write;
* the condition holds whenever the total is below 128, and whenever the
  opcode is outside the TAP range and `24 + total <= 1 << 30`, whatever the
  lengths of extras and key. -/
theorem C9_transmit_result {σ ε : Type} (h : Endian) (hdr : MCRequest)
    (extras key body : List Byte) (w : Writer σ ε) (s : σ) :
    (∀ res, MCRequest.Transmit h (MCRequest.SetData hdr extras key body) (logged w) (s, [])
        = .ok res →
      res.n = (res.w.2.map (·.n)).sum ∧
      res.err = (res.w.2.getLast?).bind (·.err) ∧
      (res.w.2.length = 1 ∨ (res.w.2.length = 2 ∧ (res.w.2.head?).bind (·.err) = none))) ∧
    (((extras.length + key.length + body.length) % 4294967296 < 128 ∨
        (24 + (extras.length + key.length + body.length) % 4294967296 ≤ 1073741824 ∧
          extras.length % 256
            + (if TAP_MUTATION ≤ hdr.Opcode ∧ hdr.Opcode ≤ TAP_CHECKPOINT_END
                then beVal ((extras ++ key ++ body).take 2) else 0)
            + key.length % 65536 ≤ (extras.length + key.length + body.length) % 4294967296)) →
      (∃ res, MCRequest.Transmit h (MCRequest.SetData hdr extras key body) (logged w) (s, [])
        = .ok res) ∧
      (∃ res, MCRequest.Transmit h (MCRequest.SetData hdr extras key body) w s = .ok res ∧
        ((∀ t p, (w.Write t p).1 = (p.length : Int) ∧ (w.Write t p).2.1 = none) →
          res.n = MCRequest.Size (MCRequest.SetData hdr extras key body).hdr ∧
          res.err = none))) ∧
    (¬ ((extras.length + key.length + body.length) % 4294967296 < 128 ∨
        (24 + (extras.length + key.length + body.length) % 4294967296 ≤ 1073741824 ∧
          extras.length % 256
            + (if TAP_MUTATION ≤ hdr.Opcode ∧ hdr.Opcode ≤ TAP_CHECKPOINT_END
                then beVal ((extras ++ key ++ body).take 2) else 0)
            + key.length % 65536 ≤ (extras.length + key.length + body.length) % 4294967296)) →
      MCRequest.Transmit h (MCRequest.SetData hdr extras key body) w s = .error .sliceBounds ∧
      MCRequest.Transmit h (MCRequest.SetData hdr extras key body) (logged w) (s, [])
        = .error .sliceBounds) ∧
    ((extras.length + key.length + body.length < 128 ∨
        (24 + (extras.length + key.length + body.length) ≤ 1073741824 ∧
          (hdr.Opcode < TAP_MUTATION ∨ hdr.Opcode > TAP_CHECKPOINT_END))) →
      ((extras.length + key.length + body.length) % 4294967296 < 128 ∨
        (24 + (extras.length + key.length + body.length) % 4294967296 ≤ 1073741824 ∧
          extras.length % 256
            + (if TAP_MUTATION ≤ hdr.Opcode ∧ hdr.Opcode ≤ TAP_CHECKPOINT_END
                then beVal ((extras ++ key ++ body).take 2) else 0)
            + key.length % 65536 ≤ (extras.length + key.length + body.length) % 4294967296))) := by
  obtain ⟨f1, f2, f3, f4, f5, f6⟩ := MCRequest.req_SetData_stored hdr extras key body
  refine ⟨fun res hr => req_Transmit_log h _ w s res hr, fun hc => ⟨?_, ?_⟩, fun hc => ⟨?_, ?_⟩,
    fun hc => ?_⟩
  · obtain ⟨res, hr, -⟩ := MCRequest.req_Transmit_returns h
      (MCRequest.SetData hdr extras key body) (logged w) (s, []) f6
      (by rw [f1, f2, f3, f4, f5]; exact hc)
    exact ⟨res, hr⟩
  · exact MCRequest.req_Transmit_returns h (MCRequest.SetData hdr extras key body) w s f6
      (by rw [f1, f2, f3, f4, f5]; exact hc)
  · exact MCRequest.req_Transmit_panics h (MCRequest.SetData hdr extras key body) w s f6
      (by rw [f1, f2, f3, f4, f5]; exact hc)
  · exact MCRequest.req_Transmit_panics h (MCRequest.SetData hdr extras key body) (logged w)
      (s, []) f6 (by rw [f1, f2, f3, f4, f5]; exact hc)
  · rcases hc with hc | ⟨hA, hop⟩
    · exact Or.inl (by omega)
    · have hn : ¬ (TAP_MUTATION ≤ hdr.Opcode ∧ hdr.Opcode ≤ TAP_CHECKPOINT_END) := by
        rintro ⟨h1, h2⟩
        rcases hop with hop | hop
        · exact absurd h1 (not_le.mpr hop)
        · exact absurd h2 (not_le.mpr hop)
      rw [if_neg hn]
      refine Or.inr ⟨by omega, ?_⟩
      have e1 := Nat.mod_le extras.length 256
      have e2 := Nat.mod_le key.length 65536
      omega

set_option maxRecDepth 100000 in
/-- C9 witness: the large request of `TestRequestTransmit` (key `"thekey"`,
256-byte body) written to a buffer, and a TAP_MUTATION request of 209 tail
bytes whose first two tail bytes are `00 01`: both calls return, with
`n = Size()` (286 and 233) and a nil error. -/
theorem C9_transmit_result_witness :
    (∃ res, MCRequest.Transmit .little (MCRequest.SetData {} [] thekey (List.replicate 256 0))
        recorder [] = .ok res ∧
      res.n = MCRequest.Size (MCRequest.SetData {} [] thekey (List.replicate 256 0)).hdr ∧
      res.n = 286 ∧ res.err = none) ∧
    (∃ res, MCRequest.Transmit .little
        (MCRequest.SetData { Opcode := TAP_MUTATION } [0, 1] somekey (List.replicate 200 0))
        recorder [] = .ok res ∧
      res.n = MCRequest.Size
        (MCRequest.SetData { Opcode := TAP_MUTATION } [0, 1] somekey (List.replicate 200 0)).hdr ∧
      res.n = 233 ∧ res.err = none) :=
  ⟨match ((C9_transmit_result .little {} [] thekey (List.replicate 256 0) recorder []).2.1
      (by decide)).2 with
    | ⟨res, h1, h2⟩ =>
      ⟨res, h1, (h2 (fun _ _ => ⟨rfl, rfl⟩)).1,
        (h2 (fun _ _ => ⟨rfl, rfl⟩)).1.trans (by decide), (h2 (fun _ _ => ⟨rfl, rfl⟩)).2⟩,
    match ((C9_transmit_result .little { Opcode := TAP_MUTATION } [0, 1] somekey
      (List.replicate 200 0) recorder []).2.1 (by decide)).2 with
    | ⟨res, h1, h2⟩ =>
      ⟨res, h1, (h2 (fun _ _ => ⟨rfl, rfl⟩)).1,
        (h2 (fun _ _ => ⟨rfl, rfl⟩)).1.trans (by decide), (h2 (fun _ _ => ⟨rfl, rfl⟩)).2⟩⟩

set_option maxRecDepth 100000 in
/-- C9 counterexample: a TAP_MUTATION request built with extras `ff ff` and a
126-byte body (tail length 128): `Body()` takes the first two extras bytes
as an engine-private length, the body would start after the end of the tail,
and `Transmit` panics before any write.  A SET request with a body of
`1 << 30` zero bytes panics in `Body()` as well. -/
theorem C9_counterexample :
    MCRequest.Transmit .little
      (MCRequest.SetData { Opcode := TAP_MUTATION } [0xff, 0xff] [] (List.replicate 126 0))
      recorder [] = .error .sliceBounds ∧
    (testHdr.Opcode < TAP_MUTATION ∧ (List.replicate 1073741824 (0 : Byte)).length = 1073741824) ∧
    MCRequest.Transmit .little
      (MCRequest.SetData testHdr [] [] (List.replicate 1073741824 (0 : Byte))) recorder []
        = .error .sliceBounds :=
  ⟨by rfl, ⟨by decide, List.length_replicate _ _⟩,
    req_Transmit_big _ _ _ (Or.inl (by decide)) (List.length_replicate _ _)⟩

/-- C10 (as amended): length consistency.  For every header template and
every extras, key and body: if the lengths sum to less than `2^32`, the frame
returned by `SetData` has `Size() = 24 + total`; if `24 + total <= 1 << 30`,
the first call of `Bytes()` on it returns a slice of exactly that length. -/
theorem C10_length_consistency (h : Endian) (hdr : MCRequest) (extras key body : List Byte) :
    (extras.length + key.length + body.length < 4294967296 →
      MCRequest.Size (MCRequest.SetData hdr extras key body).hdr
        = ((24 + extras.length + key.length + body.length : Nat) : Int)) ∧
    (24 + (extras.length + key.length + body.length) ≤ 1073741824 →
      ∃ img fr, MCRequest.Bytes h (MCRequest.SetData hdr extras key body) = .ok (img, fr) ∧
        img.length = 24 + extras.length + key.length + body.length) := by
  constructor
  · intro hl
    simp only [MCRequest.Size, MCRequest.req_SetData_blen hdr extras key body hl, HDR_LEN]
    push_cast
    ring
  · intro hA
    refine ⟨_, _, MCRequest.req_Bytes_SetData h hdr extras key body hA, ?_⟩
    simp only [List.length_append, MCRequest.req_wire_length]
    omega

/-- C10 witness: the request of `TestEncodingRequest`, 40 bytes. -/
theorem C10_length_consistency_witness :
    MCRequest.Size (MCRequest.SetData testHdr [] somekey somevalue).hdr = 40 ∧
    ∃ img fr, MCRequest.Bytes .little (MCRequest.SetData testHdr [] somekey somevalue)
        = .ok (img, fr) ∧ img.length = 40 :=
  ⟨(C10_length_consistency .little testHdr [] somekey somevalue).1 (by decide),
    (C10_length_consistency .little testHdr [] somekey somevalue).2 (by decide)⟩

/-- C10 counterexample: a body of `1 << 30` zero bytes keeps the sum below
`2^32`, and `Bytes()` returns no slice for the frame built from it. -/
theorem C10_counterexample :
    (List.replicate 1073741824 (0 : Byte)).length < 4294967296 ∧
    ¬ ∃ img fr, MCRequest.Bytes .big
        (MCRequest.SetData testHdr [] [] (List.replicate 1073741824 (0 : Byte))) = .ok (img, fr) ∧
      img.length = 24 + (List.replicate 1073741824 (0 : Byte)).length := by
  refine ⟨by rw [List.length_replicate]; decide, ?_⟩
  rw [MCRequest.Bytes_SetData_big _ _ _ (List.length_replicate _ _)]
  rintro ⟨img, fr, h, -⟩
  cases h

/-- C11: `IsFatal` classification.  `IsFatal(nil)` is false; for an error that
is a response frame, `IsFatal` is false when the status is one of
`KEY_ENOENT`, `KEY_EEXISTS`, `NOT_STORED`, `TMPFAIL` and true for every other
status, `SUCCESS` included; for every error that is neither nil nor a
response frame, `IsFatal` is true. -/
theorem C11_is_fatal {ε : Type} :
    IsFatal (ErrorValue.nil : ErrorValue ε) = false ∧
    (∀ res : MCResponse.Frame,
      (res.hdr.Status = KEY_ENOENT ∨ res.hdr.Status = KEY_EEXISTS ∨
        res.hdr.Status = NOT_STORED ∨ res.hdr.Status = TMPFAIL) →
      IsFatal (ErrorValue.response res : ErrorValue ε) = false) ∧
    (∀ res : MCResponse.Frame,
      res.hdr.Status ≠ KEY_ENOENT → res.hdr.Status ≠ KEY_EEXISTS →
      res.hdr.Status ≠ NOT_STORED → res.hdr.Status ≠ TMPFAIL →
      IsFatal (ErrorValue.response res : ErrorValue ε) = true) ∧
    (∀ res : MCResponse.Frame, res.hdr.Status = SUCCESS →
      IsFatal (ErrorValue.response res : ErrorValue ε) = true) ∧
    (∀ e : ε, IsFatal (ErrorValue.other e) = true) := by
  refine ⟨rfl, ?_, ?_, ?_, ?_⟩
  · intro res hs
    simp only [IsFatal, errStatus, hs, if_true]
  · intro res h1 h2 h3 h4
    simp only [IsFatal, errStatus, h1, h2, h3, h4, or_self, if_false]
  · intro res hs
    simp only [IsFatal, errStatus, hs]
    rfl
  · intro e
    rfl

/-- C11 witness: a response with status `TMPFAIL` is not fatal, one with
status `SUCCESS` or with the status 0x81 (unknown command) is. -/
theorem C11_is_fatal_witness :
    IsFatal (ErrorValue.response { hdr := { Status := TMPFAIL }, tail := [] } : ErrorValue Error)
      = false ∧
    IsFatal (ErrorValue.response { hdr := { Status := 0x81 }, tail := [] } : ErrorValue Error)
      = true ∧
    IsFatal (ErrorValue.response { hdr := { Status := SUCCESS }, tail := [] } : ErrorValue Error)
      = true :=
  ⟨C11_is_fatal.2.1 _ (Or.inr (Or.inr (Or.inr rfl))),
    C11_is_fatal.2.2.1 _ (by decide) (by decide) (by decide) (by decide),
    C11_is_fatal.2.2.2.1 _ rfl⟩

/-- C12: `IsNotFound` classification.  For every error, nil included,
`IsNotFound` is true if and only if the error is a response frame whose status
is `KEY_ENOENT`; nil and every error that is not a response frame have the
status `0xFFFF` under `errStatus`, which is not `KEY_ENOENT`. -/
theorem C12_is_not_found {ε : Type} (e : ErrorValue ε) :
    (IsNotFound e = true ↔ ∃ res, e = ErrorValue.response res ∧ res.hdr.Status = KEY_ENOENT) ∧
    ((∀ res, e ≠ ErrorValue.response res) → errStatus e = 0xffff ∧ IsNotFound e = false) := by
  cases e with
  | nil =>
    refine ⟨⟨fun h => ?_, fun ⟨res, h, _⟩ => by cases h⟩, fun _ => ⟨rfl, rfl⟩⟩
    exact absurd h (by simp [IsNotFound, errStatus, KEY_ENOENT])
  | response res =>
    refine ⟨⟨fun h => ⟨res, rfl, ?_⟩, fun ⟨res2, h, hs⟩ => ?_⟩, fun h => absurd rfl (h res)⟩
    · simpa [IsNotFound, errStatus] using h
    · cases h
      simpa [IsNotFound, errStatus] using hs
  | other x =>
    refine ⟨⟨fun h => ?_, fun ⟨res, h, _⟩ => by cases h⟩, fun _ => ⟨rfl, rfl⟩⟩
    exact absurd h (by simp [IsNotFound, errStatus, KEY_ENOENT])

/-- C12 witness: a decoder error is not a response frame, so it has the
sentinel status and is not `not found`. -/
theorem C12_is_not_found_witness :
    errStatus (ErrorValue.other Error.EOF) = 0xffff ∧
    IsNotFound (ErrorValue.other Error.EOF) = false :=
  (C12_is_not_found (ErrorValue.other Error.EOF)).2 (fun _ h => by cases h)

/-- C13 (as amended): response wire image.  For every host byte order, header
template, extras of at most 255 bytes, key of at most 65535 bytes and body
with `24 + total <= 1 << 30`, the first call of `Bytes()` on the response
built by `SetData` returns `0x81`, the opcode, the key length on 2 bytes
big-endian, the extras length, `0x00`, the status on 2 bytes big-endian
(offsets 6..8), the total tail length on 4 bytes big-endian (offsets 8..12),
the opaque on 4 bytes big-endian, the cas on 8 bytes big-endian, then extras,
key and body. -/
theorem C13_response_wire_image (h : Endian) (hdr : MCResponse) (extras key body : List Byte)
    (he : extras.length ≤ 255) (hk : key.length ≤ 65535)
    (hA : 24 + (extras.length + key.length + body.length) ≤ 1073741824) :
    ∃ fr, MCResponse.Bytes h (MCResponse.SetData hdr extras key body) = .ok
      ([0x81, hdr.Opcode] ++ beBytes 2 key.length ++ [⟨extras.length, by omega⟩, 0x00]
        ++ beBytes 2 hdr.Status ++ beBytes 4 (extras.length + key.length + body.length)
        ++ beBytes 4 hdr.Opaque ++ beBytes 8 hdr.Cas ++ extras ++ key ++ body, fr) := by
  refine ⟨MCResponse.fixByteOrder h (MCResponse.SetData hdr extras key body), ?_⟩
  rw [MCResponse.res_Bytes_SetData h hdr extras key body hA]
  have h1 : (u16 key.length).val = key.length := by simp only [u16]; omega
  have h2 : byte extras.length = ⟨extras.length, by omega⟩ := by
    apply Fin.ext; simp only [byte]; omega
  have h3 : (u32 (body.length + extras.length + key.length)).val
      = extras.length + key.length + body.length := by simp only [u32]; omega
  simp only [MCResponse.wire, MCResponse.res_SetData_hdr, h1, h2, h3, List.append_assoc]
  rfl

/-- C13 witness: a response to a SET with status `KEY_EEXISTS`, key
`"somekey"` and body `"somevalue"`. -/
theorem C13_response_wire_image_witness :
    ∃ fr, MCResponse.Bytes .little
        (MCResponse.SetData { testRes with Status := KEY_EEXISTS } [] somekey somevalue) = .ok
      ([0x81, 0x01, 0x0, 0x7, 0x0, 0x0, 0x0, 0x2, 0x0, 0x0, 0x0, 0x10, 0x0, 0x0, 0x1c, 0x4a,
        0x0, 0x0, 0x0, 0x0, 0x37, 0xef, 0x3a, 0x35] ++ somekey ++ somevalue, fr) :=
  C13_response_wire_image .little { testRes with Status := KEY_EEXISTS } [] somekey somevalue
    (by decide) (by decide) (by decide)

/-- C13 counterexample: no extras, no key and a body of `1 << 30` zero bytes;
`Bytes()` panics on the response built from them. -/
theorem C13_counterexample :
    MCResponse.Bytes .little
      (MCResponse.SetData testRes [] [] (List.replicate 1073741824 (0 : Byte)))
        = .error .sliceBounds :=
  MCResponse.res_Bytes_SetData_big _ _ _ (List.length_replicate _ _)

/-- C14 (as amended): response round trip.  For every host byte order, every
value of `MaxBodyLen`, every header template, every scratch slice and every
extras (at most 255 bytes), key (at most 65535 bytes) and body whose total
length is at most `MaxBodyLen` and satisfies `24 + total <= 1 << 30`:
`Bytes()` of the response built by `SetData` returns an image, and
`ReceiveResponse` on a reader over that image returns no error,
`n = 24 + total`, an empty reader, and a response whose opcode, status, opaque
and cas are those of the template and whose `Extras()`, `Key()` and `Body()`
are the supplied extras, key and body, whatever the opcode. -/
theorem C14_response_round_trip (h : Endian) (maxBodyLen : Int) (hdr : MCResponse)
    (extras key body hdrBytes : List Byte)
    (he : extras.length ≤ 255) (hk : key.length ≤ 65535)
    (hM : ((extras.length + key.length + body.length : Nat) : Int) ≤ maxBodyLen)
    (hA : 24 + (extras.length + key.length + body.length) ≤ 1073741824) :
    ∃ img fr res,
      MCResponse.Bytes h (MCResponse.SetData hdr extras key body) = .ok (img, fr) ∧
      ReceiveResponse maxBodyLen img hdrBytes =
        { frame := some res
          n := 24 + extras.length + key.length + body.length
          err := none
          rest := [] } ∧
      res.hdr.Opcode = hdr.Opcode ∧ res.hdr.Status = hdr.Status ∧
      res.hdr.Opaque = hdr.Opaque ∧ res.hdr.Cas = hdr.Cas ∧
      MCResponse.Extras h res = .ok extras ∧
      MCResponse.Key h res = .ok key ∧
      MCResponse.Body h res = .ok body := by
  obtain ⟨f1, f2, f3⟩ := MCResponse.res_SetData_fields hdr extras key body he hk (by omega)
  have ht := MCResponse.res_SetData_tail hdr extras key body
  refine ⟨_, _, MCResponse.SetData hdr extras key body,
    MCResponse.res_Bytes_SetData h hdr extras key body hA, ?_, rfl, rfl, rfl, rfl, ?_⟩
  · have := MCResponse.res_ReceiveResponse_wire maxBodyLen
      (MCResponse.SetData hdr extras key body).hdr
      (extras ++ key ++ body) [] hdrBytes rfl (by rw [f3]; exact hM)
      (by rw [f3]; simp only [List.length_append])
    rw [List.append_nil] at this
    have hf : MCResponse.SetData hdr extras key body
        = ⟨(MCResponse.SetData hdr extras key body).hdr, extras ++ key ++ body⟩ := by rw [← ht]
    have hn : 24 + (extras ++ key ++ body).length
        = 24 + extras.length + key.length + body.length := by
      simp only [List.length_append]; omega
    rw [this, hn, ← hf]
  · obtain ⟨a1, a2, a3⟩ := MCResponse.res_accessors h (MCResponse.SetData hdr extras key body)
      (by omega) (by rw [f3, ht]; simp only [List.length_append]; omega)
      (by rw [f3]; simp only [ARRAY_LEN]; omega)
    rw [f1, ht] at a1
    rw [f1, f2, ht] at a2
    rw [f1, f2, f3, ht] at a3
    refine ⟨?_, ?_, ?_⟩
    · rw [a1, List.append_assoc, List.take_left]
    · rw [a2, List.append_assoc, List.drop_left, List.take_left]
    · rw [a3, ← List.length_append, List.drop_left,
        List.take_of_length_le (by simp only [List.length_append]; omega)]

/-- C14 witness: a response with a TAP opcode, extras `00 04`, key
`"somekey"` and body `"somevalue"`; the accessors return the three parts as
supplied. -/
theorem C14_response_round_trip_witness :
    ∃ img fr res,
      MCResponse.Bytes .little
        (MCResponse.SetData { testRes with Opcode := TAP_MUTATION } [0, 4] somekey somevalue)
          = .ok (img, fr) ∧
      ReceiveResponse MaxBodyLen img [] =
        { frame := some res, n := 24 + 2 + 7 + 9, err := none, rest := [] } ∧
      res.hdr.Opcode = TAP_MUTATION ∧ res.hdr.Status = 0 ∧
      res.hdr.Opaque = 7242 ∧ res.hdr.Cas = 938424885 ∧
      MCResponse.Extras .little res = .ok [0, 4] ∧
      MCResponse.Key .little res = .ok somekey ∧
      MCResponse.Body .little res = .ok somevalue :=
  C14_response_round_trip .little MaxBodyLen { testRes with Opcode := TAP_MUTATION } [0, 4]
    somekey somevalue [] (by decide) (by decide) (by decide) (by decide)

/-- C14 counterexample: with `MaxBodyLen` set to `1 << 30`, no extras, no key
and a body of `1 << 30` zero bytes, the total is at most `MaxBodyLen`, and
`Bytes()` panics on the built response: there is no image for
`ReceiveResponse` to read without error. -/
theorem C14_counterexample :
    ((List.replicate 1073741824 (0 : Byte)).length : Int) ≤ (1073741824 : Int) ∧
    ¬ ∃ img fr,
      MCResponse.Bytes .little
        (MCResponse.SetData testRes [] [] (List.replicate 1073741824 (0 : Byte)))
          = .ok (img, fr) ∧
      (ReceiveResponse 1073741824 img []).err = none := by
  refine ⟨by rw [List.length_replicate]; norm_num, ?_⟩
  rw [MCResponse.res_Bytes_SetData_big _ _ _ (List.length_replicate _ _)]
  rintro ⟨img, fr, h, -⟩
  cases h

/-- C15: scratch-buffer independence.  For every value of `MaxBodyLen`, every
byte stream and every scratch slice (any capacity, below 24 included, and any
contents), `ReceiveRequest` returns the same frame, the same `n` and the same
error, and leaves the reader in the same state, as with a nil scratch
slice. -/
theorem C15_scratch_independence (maxBodyLen : Int) (r hdrBytes : List Byte) :
    ReceiveRequest maxBodyLen r hdrBytes = ReceiveRequest maxBodyLen r [] := by
  by_cases h24 : 24 ≤ r.length
  · by_cases hm : r.getD 0 0 = REQ_MAGIC
    · by_cases hN : (beVal ((r.drop 8).take 4) : Int) ≤ maxBodyLen
      · rw [ReceiveRequest_accept maxBodyLen r hdrBytes h24 hm hN,
          ReceiveRequest_accept maxBodyLen r [] h24 hm hN]
      · rw [ReceiveRequest_too_big maxBodyLen r hdrBytes h24 hm (by omega),
          ReceiveRequest_too_big maxBodyLen r [] h24 hm (by omega)]
    · rw [ReceiveRequest_bad_magic maxBodyLen r hdrBytes h24 hm,
        ReceiveRequest_bad_magic maxBodyLen r [] h24 hm]
  · rw [ReceiveRequest_short_header maxBodyLen r hdrBytes (by omega),
      ReceiveRequest_short_header maxBodyLen r [] (by omega)]

/-- C16 (as amended): built-frame accessors.  For every request built by
`SetData` with extras of at most 255 bytes, key of at most 65535 bytes and
`24 + total <= 1 << 30`, whose opcode is outside
`[TAP_MUTATION, TAP_CHECKPOINT_END]`, or whose tail is empty, or whose tail
has at least two bytes, the first two being zero: `Extras()`, `Key()` and
`Body()` return exactly the supplied extras, key and body, and
`HeaderBytes()` returns the 24-byte header of the wire image followed by
exactly the supplied extras and key. -/
theorem C16_built_accessors (h : Endian) (hdr : MCRequest) (extras key body : List Byte)
    (he : extras.length ≤ 255) (hk : key.length ≤ 65535)
    (hA : 24 + (extras.length + key.length + body.length) ≤ 1073741824)
    (hop : hdr.Opcode < TAP_MUTATION ∨ hdr.Opcode > TAP_CHECKPOINT_END ∨
      extras.length + key.length + body.length = 0 ∨
      (2 ≤ extras.length + key.length + body.length ∧
        beVal ((extras ++ key ++ body).take 2) = 0)) :
    MCRequest.Extras h (MCRequest.SetData hdr extras key body) = .ok extras ∧
    MCRequest.Key h (MCRequest.SetData hdr extras key body) = .ok key ∧
    MCRequest.Body h (MCRequest.SetData hdr extras key body) = .ok body ∧
    ∃ img fr, MCRequest.Bytes h (MCRequest.SetData hdr extras key body) = .ok (img, fr) ∧
      MCRequest.HeaderBytes h (MCRequest.SetData hdr extras key body)
        = .ok (img.take 24 ++ extras ++ key, fr) := by
  obtain ⟨f1, f2, f3, -⟩ := MCRequest.req_SetData_fields hdr extras key body he hk (by omega)
  have ht := MCRequest.req_SetData_tail hdr extras key body
  have hE := MCRequest.req_SetData_real_elen_gen h hdr extras key body he (by omega) hop
  have hwl := MCRequest.req_wire_length (MCRequest.SetData hdr extras key body).hdr
  obtain ⟨a1, a2, a3⟩ := MCRequest.req_accessors h (MCRequest.SetData hdr extras key body)
    extras.length hE (by omega) (by rw [f3, ht]; simp only [List.length_append]; omega)
    (by rw [f3]; simp only [ARRAY_LEN]; omega)
  rw [ht] at a1
  rw [f2, ht] at a2
  rw [f2, f3, ht] at a3
  refine ⟨?_, ?_, ?_, _, _, MCRequest.req_Bytes_SetData h hdr extras key body hA, ?_⟩
  · rw [a1, List.append_assoc, List.take_left]
  · rw [a2, List.append_assoc, List.drop_left, List.take_left]
  · rw [a3, ← List.length_append, List.drop_left,
      List.take_of_length_le (by simp only [List.length_append]; omega)]
  · rw [MCRequest.req_HeaderBytes_ok h _ extras.length hE
      (by rw [f2, ht]; simp only [List.length_append]; omega)
      (by rw [f2]; simp only [ARRAY_LEN]; omega)]
    rw [f2, ht, ← List.length_append, List.take_left, List.take_append_eq_append_take, hwl,
      List.take_of_length_le (by omega)]
    simp

/-- C16 witness: the request of `TestEncodingRequestWithExtras` (opcode SET),
and a TAP_MUTATION request whose extras start with two zero bytes. -/
theorem C16_built_accessors_witness :
    (MCRequest.Extras .little (MCRequest.SetData testHdr [1, 2, 3, 4] somekey somevalue)
        = .ok [1, 2, 3, 4] ∧
      MCRequest.Key .little (MCRequest.SetData testHdr [1, 2, 3, 4] somekey somevalue)
        = .ok somekey ∧
      MCRequest.Body .little (MCRequest.SetData testHdr [1, 2, 3, 4] somekey somevalue)
        = .ok somevalue) ∧
    MCRequest.Extras .little
      (MCRequest.SetData { Opcode := TAP_MUTATION } [0, 0, 9] somekey somevalue)
        = .ok [0, 0, 9] :=
  ⟨⟨(C16_built_accessors .little testHdr [1, 2, 3, 4] somekey somevalue (by decide) (by decide)
      (by decide) (Or.inl (by decide))).1,
    (C16_built_accessors .little testHdr [1, 2, 3, 4] somekey somevalue (by decide) (by decide)
      (by decide) (Or.inl (by decide))).2.1,
    (C16_built_accessors .little testHdr [1, 2, 3, 4] somekey somevalue (by decide) (by decide)
      (by decide) (Or.inl (by decide))).2.2.1⟩,
    (C16_built_accessors .little { Opcode := TAP_MUTATION } [0, 0, 9] somekey somevalue
      (by decide) (by decide) (by decide)
      (Or.inr (Or.inr (Or.inr ⟨by decide, by decide⟩)))).1⟩

/-- C16 counterexample: a TAP_MUTATION request built with extras `00 01`, key
`"somekey"` and body `"somevalue"`.  The accessors take the first two tail
bytes as an engine-private length of 1: `Extras()` is the extras plus the
first key byte, `Key()` is the last six key bytes plus the first body byte,
`Body()` is the last eight body bytes, and `HeaderBytes()` ends one byte
after the key. -/
theorem C16_counterexample :
    MCRequest.Extras .little
      (MCRequest.SetData { Opcode := TAP_MUTATION } [0, 1] somekey somevalue)
        = .ok [0, 1, 115] ∧
    MCRequest.Key .little
      (MCRequest.SetData { Opcode := TAP_MUTATION } [0, 1] somekey somevalue)
        = .ok [111, 109, 101, 107, 101, 121, 115] ∧
    MCRequest.Body .little
      (MCRequest.SetData { Opcode := TAP_MUTATION } [0, 1] somekey somevalue)
        = .ok [111, 109, 101, 118, 97, 108, 117, 101] ∧
    (MCRequest.HeaderBytes .little
      (MCRequest.SetData { Opcode := TAP_MUTATION } [0, 1] somekey somevalue)).map
        (fun r => r.1.length) = .ok 34 := by
  refine ⟨rfl, rfl, rfl, rfl⟩

/-- C17 (as amended): decoded-frame length invariant.  `ReceiveRequest` does
not compare the declared extras and key lengths with the tail length.  For
every frame it returns whose effective extras length `E` (the declared
extras length, plus, for a TAP opcode with a nonzero tail, the big-endian
16-bit value of the first two tail bytes, the tail then having at least two
bytes) satisfies `E + key length <= tail length`, and whose tail satisfies
`24 + tail <= 1 << 30`: `real_elen` is `E`, the three accessors return views
of lengths `E`, key length and `tail - E - key length` that together are the
tail of the buffer, whose length is the declared tail length, and `String()`
returns the text with that body length and that key. -/
theorem C17_decoded_invariant (h : Endian) (name : CommandCode → List Byte) (maxBodyLen : Int)
    (r hdrBytes : List Byte) (req : MCRequest.Frame) (E : Nat)
    (hf : (ReceiveRequest maxBodyLen r hdrBytes).frame = some req)
    (hT : req.hdr.Opcode ≥ TAP_MUTATION → req.hdr.Opcode ≤ TAP_CHECKPOINT_END →
      req.hdr.blen ≠ 0 → 2 ≤ req.hdr.blen.val)
    (hE : E = if req.hdr.Opcode ≥ TAP_MUTATION ∧ req.hdr.Opcode ≤ TAP_CHECKPOINT_END ∧
        req.hdr.blen ≠ 0 then req.hdr.elen.val + beVal (req.tail.take 2) else req.hdr.elen.val)
    (h1 : E + req.hdr.klen.val ≤ req.hdr.blen.val)
    (hA : 24 + req.hdr.blen.val ≤ 1073741824) :
    MCRequest.real_elen h req = .ok E ∧
    ∃ e k b,
      MCRequest.Extras h req = .ok e ∧ MCRequest.Key h req = .ok k ∧
      MCRequest.Body h req = .ok b ∧
      e.length = E ∧ k.length = req.hdr.klen.val ∧
      req.hdr.blen.val = e.length + k.length + b.length ∧
      e ++ k ++ b = req.tail ∧ req.tail.length = req.hdr.blen.val ∧
      MCRequest.String h name req
        = .ok (ascii "\x7bMCRequest opcode=" ++ name req.hdr.Opcode ++ ascii ", bodylen="
            ++ ascii (toString ((b.length : Nat) : Int)) ++ ascii ", key=\x27" ++ k
            ++ ascii "\x27\x7d") := by
  obtain ⟨hl, -, -⟩ := ReceiveRequest_frame_inv maxBodyLen r hdrBytes req hf
  have hR : MCRequest.real_elen h req = .ok E := by
    by_cases hc : req.hdr.Opcode ≥ TAP_MUTATION ∧ req.hdr.Opcode ≤ TAP_CHECKPOINT_END ∧
        req.hdr.blen ≠ 0
    · rw [if_pos hc] at hE
      rw [hE]
      exact MCRequest.req_real_elen_tap h req hc (by have := hT hc.1 hc.2.1 hc.2.2; omega)
    · rw [if_neg hc] at hE
      rw [hE]
      exact MCRequest.req_real_elen_plain h req hc
  obtain ⟨a1, a2, a3⟩ := MCRequest.req_accessors h req E hR h1 (by omega)
    (by simp only [ARRAY_LEN]; omega)
  have l1 : (req.tail.take E).length = E := by
    simp only [List.length_take]; omega
  have l2 : ((req.tail.drop E).take req.hdr.klen.val).length = req.hdr.klen.val := by
    simp only [List.length_take, List.length_drop]; omega
  have l3 : ((req.tail.drop (E + req.hdr.klen.val)).take
      (req.hdr.blen.val - (E + req.hdr.klen.val))).length
        = req.hdr.blen.val - (E + req.hdr.klen.val) := by
    simp only [List.length_take, List.length_drop]; omega
  refine ⟨hR, _, _, _, a1, a2, a3, l1, l2, ?_, ?_, hl, ?_⟩
  · rw [l1, l2, l3]; omega
  · rw [List.take_of_length_le (l := req.tail.drop (E + req.hdr.klen.val))
      (by simp only [List.length_drop]; omega), List.append_assoc, ← List.drop_drop,
      List.take_append_drop, List.take_append_drop]
  · rw [req_String_ok h name req E _ hR a2, l3]
    have : (req.hdr.blen.val : Int) - (req.hdr.klen.val : Int) - (E : Int)
        = ((req.hdr.blen.val - (E + req.hdr.klen.val) : Nat) : Int) := by omega
    rw [this]

/-- C17 witness: the frame of `TestReceivingTapRequest`, with the string the
test expects. -/
theorem C17_decoded_invariant_witness :
    (MCRequest.real_elen .little tapFrame = .ok 6 ∧
      ∃ e k b,
        MCRequest.Extras .little tapFrame = .ok e ∧ MCRequest.Key .little tapFrame = .ok k ∧
        MCRequest.Body .little tapFrame = .ok b ∧
        e.length = 6 ∧ k.length = tapFrame.hdr.klen.val ∧
        tapFrame.hdr.blen.val = e.length + k.length + b.length ∧
        e ++ k ++ b = tapFrame.tail ∧ tapFrame.tail.length = tapFrame.hdr.blen.val ∧
        MCRequest.String .little testName tapFrame
          = .ok (ascii "\x7bMCRequest opcode=" ++ testName tapFrame.hdr.Opcode
              ++ ascii ", bodylen=" ++ ascii (toString ((b.length : Nat) : Int))
              ++ ascii ", key=\x27" ++ k ++ ascii "\x27\x7d")) ∧
    MCRequest.String .little testName tapFrame
      = .ok (ascii "\x7bMCRequest opcode=TAP_MUTATION, bodylen=9, key=\x27somekey\x27\x7d") :=
  ⟨C17_decoded_invariant .little testName MaxBodyLen tapContent [] tapFrame 6 (by decide)
    (by decide) (by decide) (by decide) (by decide), by rfl⟩

/-- C17 counterexample: a 24-byte request that declares a key of 7 bytes and
an empty tail is returned without error; its key length exceeds its tail
length, `Key()` (and with it `String()`) reaches past the buffer and `Body()`
panics. -/
theorem C17_counterexample :
    ReceiveRequest MaxBodyLen keyNoTail []
      = { frame := some keyNoTailFrame, n := 24, err := none, rest := [] } ∧
    MCRequest.real_elen .little keyNoTailFrame = .ok 0 ∧
    ¬ (0 + keyNoTailFrame.hdr.klen.val ≤ keyNoTailFrame.hdr.blen.val) ∧
    MCRequest.Key .little keyNoTailFrame = .error .outsideBuffer ∧
    MCRequest.Body .little keyNoTailFrame = .error .sliceBounds ∧
    MCRequest.String .little testName keyNoTailFrame = .error .outsideBuffer := by
  refine ⟨by decide, rfl, by decide, rfl, rfl, rfl⟩

/-- C18: `Bytes()` is destructive.  On a little-endian host, for every request
frame: after a call of `Bytes()` or of `HeaderBytes()` that returns, the
header holds `klen`, `VBucket`, `blen`, `Opaque` and `Cas` in network byte
order in memory, so these fields read back byte-swapped, and `Size()` is 24
plus the byte-swap of the tail length; and if at least one of the five fields
is changed by the swap, a second call of `Bytes()` does not return the image
the first call returned.  The first call of `Bytes()` does return whenever the
declared tail lies within the buffer and `24 + tail <= 1 << 30`.
`HeaderBytes()` does return, with the wire image of the header followed by
the effective extras and the key, and leaves the fields byte-swapped, whenever
the effective extras and the key lie within the buffer (for an opcode in the
TAP range and a non-zero tail length the effective extras length adds the
big-endian value of the first two tail bytes, which must be there). -/
theorem C18_bytes_destructive (req : MCRequest.Frame) :
    (∀ img fr, MCRequest.Bytes .little req = .ok (img, fr) →
      MCRequest.Swapped req fr ∧ MCRequest.image .little fr.hdr = MCRequest.wire req.hdr ∧
      MCRequest.Size fr.hdr = 24 + ((beVal (beBytes 4 req.hdr.blen).reverse : Nat) : Int)) ∧
    (∀ hb fr, MCRequest.HeaderBytes .little req = .ok (hb, fr) →
      MCRequest.Swapped req fr ∧ MCRequest.image .little fr.hdr = MCRequest.wire req.hdr ∧
      MCRequest.Size fr.hdr = 24 + ((beVal (beBytes 4 req.hdr.blen).reverse : Nat) : Int)) ∧
    (∀ img fr, MCRequest.Bytes .little req = .ok (img, fr) →
      (fr.hdr.klen ≠ req.hdr.klen ∨ fr.hdr.VBucket ≠ req.hdr.VBucket ∨
        fr.hdr.blen ≠ req.hdr.blen ∨ fr.hdr.Opaque ≠ req.hdr.Opaque ∨
        fr.hdr.Cas ≠ req.hdr.Cas) →
      ∀ img2 fr2, MCRequest.Bytes .little fr = .ok (img2, fr2) → img2 ≠ img) ∧
    (24 + req.hdr.blen.val ≤ 1073741824 → req.hdr.blen.val ≤ req.tail.length →
      ∃ img fr, MCRequest.Bytes .little req = .ok (img, fr)) ∧
    (((req.hdr.Opcode ≥ TAP_MUTATION ∧ req.hdr.Opcode ≤ TAP_CHECKPOINT_END ∧
        req.hdr.blen ≠ 0) → 2 ≤ req.tail.length) →
      req.hdr.elen.val
        + (if req.hdr.Opcode ≥ TAP_MUTATION ∧ req.hdr.Opcode ≤ TAP_CHECKPOINT_END ∧
            req.hdr.blen ≠ 0 then beVal (req.tail.take 2) else 0)
        + req.hdr.klen.val ≤ req.tail.length →
      ∃ fr, MCRequest.HeaderBytes .little req
          = .ok (MCRequest.wire req.hdr ++ req.tail.take (req.hdr.elen.val
              + (if req.hdr.Opcode ≥ TAP_MUTATION ∧ req.hdr.Opcode ≤ TAP_CHECKPOINT_END ∧
                  req.hdr.blen ≠ 0 then beVal (req.tail.take 2) else 0)
              + req.hdr.klen.val), fr) ∧
        MCRequest.Swapped req fr ∧ MCRequest.image .little fr.hdr = MCRequest.wire req.hdr ∧
        MCRequest.Size fr.hdr
          = 24 + ((beVal (beBytes 4 req.hdr.blen).reverse : Nat) : Int)) := by
  have key : ∀ fr, fr = MCRequest.fixByteOrder .little req →
      MCRequest.Swapped req fr ∧ MCRequest.image .little fr.hdr = MCRequest.wire req.hdr ∧
      MCRequest.Size fr.hdr = 24 + ((beVal (beBytes 4 req.hdr.blen).reverse : Nat) : Int) := by
    intro fr hfr
    subst hfr
    obtain ⟨a, b, c, d, e, f, g, i, j, k, l⟩ := MCRequest.req_fixByteOrder_swapped req
    exact ⟨⟨a, b, c, d, e, f, g, i, j, k⟩, MCRequest.req_image_fixByteOrder .little req, l⟩
  refine ⟨fun img fr hB => key fr (MCRequest.req_Bytes_inv .little req img fr hB).2.2.2,
    fun hb fr hH => key fr (MCRequest.req_HeaderBytes_inv .little req hb fr hH), ?_,
    fun h1 h2 => ⟨_, _, MCRequest.req_Bytes_ok .little req (by simp only [ARRAY_LEN]; omega) h2⟩,
    fun h2 h1 => ⟨_, MCRequest.req_HeaderBytes_returns .little req h2 h1, key _ rfl⟩⟩
  intro img fr hB hne img2 fr2 hB2 heq
  obtain ⟨e1, l1, -, -⟩ := MCRequest.req_Bytes_inv .little req img fr hB
  obtain ⟨e2, l2, -, -⟩ := MCRequest.req_Bytes_inv .little fr img2 fr2 hB2
  rw [e1, e2] at heq
  have hw := (List.append_inj heq (by rw [MCRequest.req_wire_length,
    MCRequest.req_wire_length])).1
  have := MCRequest.req_wire_injective _ _ hw
  rcases hne with h | h | h | h | h <;> exact h (by rw [this])

set_option maxRecDepth 100000 in
/-- C18 witness: the request of `TestEncodingRequest` (opcode SET, key
`"somekey"`, body `"somevalue"`).  After the first call `Size()` is
`24 + 0x10000000`, and the second call does not return the first image: its
slice would end far past the 40-byte buffer.  For a request with an empty
tail and vbucket 824 the second call returns, with the vbucket bytes in host
order (`38 03`) where the first image has `03 38`.  `HeaderBytes()` on the
first request returns the 24 header bytes and the key, and leaves `Size()` at
`24 + 0x10000000` as well. -/
theorem C18_bytes_destructive_witness :
    (∃ img fr,
      MCRequest.Bytes .little (MCRequest.SetData testHdr [] somekey somevalue) = .ok (img, fr) ∧
      MCRequest.Size fr.hdr = 24 + 268435456 ∧
      (∀ img2 fr2, MCRequest.Bytes .little fr = .ok (img2, fr2) → img2 ≠ img) ∧
      MCRequest.Bytes .little fr = .error .outsideBuffer) ∧
    (∃ img fr fr2,
      MCRequest.Bytes .little (MCRequest.SetData { VBucket := 824 } [] [] []) = .ok (img, fr) ∧
      img.take 8 = [0x80, 0, 0, 0, 0, 0, 0x03, 0x38] ∧
      MCRequest.Bytes .little fr
        = .ok ([0x80, 0, 0, 0, 0, 0, 0x38, 0x03, 0, 0, 0, 0, 0, 0, 0, 0, 0, 0, 0, 0, 0, 0, 0, 0],
            fr2)) ∧
    (∃ fr,
      MCRequest.HeaderBytes .little (MCRequest.SetData testHdr [] somekey somevalue)
        = .ok ([0x80, 0x01, 0, 7, 0, 0, 0x03, 0x38, 0, 0, 0, 0x10, 0, 0, 0x1c, 0x4a,
            0, 0, 0, 0, 0x37, 0xef, 0x3a, 0x35] ++ somekey, fr) ∧
      MCRequest.Swapped (MCRequest.SetData testHdr [] somekey somevalue) fr ∧
      fr.hdr.klen = 0x0700 ∧ fr.hdr.VBucket = 0x3803 ∧ fr.hdr.blen = 0x10000000 ∧
      fr.hdr.Opaque = 0x4a1c0000 ∧ fr.hdr.Cas = 0x353aef3700000000 ∧
      MCRequest.Size fr.hdr = 24 + 268435456) :=
  ⟨⟨_, _, rfl, rfl,
    (C18_bytes_destructive (MCRequest.SetData testHdr [] somekey somevalue)).2.2.1 _ _ rfl
      (Or.inl (by decide)), rfl⟩,
    ⟨_, _, _, rfl, rfl, rfl⟩,
    match (C18_bytes_destructive (MCRequest.SetData testHdr [] somekey somevalue)).2.2.2.2
      (by decide) (by decide) with
    | ⟨fr, hH, hS, _, _⟩ =>
      ⟨fr, hH, hS,
        (MCRequest.req_HeaderBytes_inv _ _ _ _ hH) ▸ (by decide),
        (MCRequest.req_HeaderBytes_inv _ _ _ _ hH) ▸ (by decide),
        (MCRequest.req_HeaderBytes_inv _ _ _ _ hH) ▸ (by decide),
        (MCRequest.req_HeaderBytes_inv _ _ _ _ hH) ▸ (by decide),
        (MCRequest.req_HeaderBytes_inv _ _ _ _ hH) ▸ (by decide),
        (MCRequest.req_HeaderBytes_inv _ _ _ _ hH) ▸ (by decide)⟩⟩

/-- C19 (as amended): small-frame threshold.  For every freshly built request
whose total tail length is below 128 bytes, and every writer, `Transmit`
performs a single write, whose argument is the image that `Bytes()` returns
on a fresh build. -/
theorem C19_small_frame {σ ε : Type} (h : Endian) (hdr : MCRequest)
    (extras key body : List Byte) (w : Writer σ ε) (s : σ)
    (hs : extras.length + key.length + body.length < 128) :
    ∃ img fr res,
      MCRequest.Bytes h (MCRequest.SetData hdr extras key body) = .ok (img, fr) ∧
      MCRequest.Transmit h (MCRequest.SetData hdr extras key body) (logged w) (s, []) = .ok res ∧
      res.w.2.map (·.p) = [img] := by
  have f3 := MCRequest.req_SetData_blen hdr extras key body (by omega)
  have ht := MCRequest.req_SetData_tail hdr extras key body
  have hl : (MCRequest.SetData hdr extras key body).hdr.blen.val
      ≤ (MCRequest.SetData hdr extras key body).tail.length := by
    rw [f3, ht]; simp only [List.length_append]; omega
  refine ⟨_, _, _, MCRequest.req_Bytes_ok h _ (by rw [f3]; simp only [ARRAY_LEN]; omega) hl,
    MCRequest.req_Transmit_small h _ (logged w) (s, []) (by omega) hl, ?_⟩
  simp [logged]

/-- C19 witness: the small request of `TestRequestTransmit` (key `"thekey"`,
no extras, no body). -/
theorem C19_small_frame_witness :
    ∃ img fr res,
      MCRequest.Bytes .little (MCRequest.SetData {} [] thekey []) = .ok (img, fr) ∧
      MCRequest.Transmit .little (MCRequest.SetData {} [] thekey []) (logged recorder) ([], [])
        = .ok res ∧
      res.w.2.map (·.p) = [img] :=
  C19_small_frame .little {} [] thekey [] recorder [] (by decide)

set_option maxRecDepth 100000 in
/-- C19 counterexample: a SET request with key `"somekey"` and a body of 121
zero bytes has a tail of exactly 128 bytes, and `Transmit` performs two
writes: 31 bytes of header and key, then the 121 bytes of the body. -/
theorem C19_counterexample :
    (somekey.length + (List.replicate 121 (0 : Byte)).length = 128) ∧
    ∃ res, MCRequest.Transmit .little
        (MCRequest.SetData testHdr [] somekey (List.replicate 121 0)) recorder [] = .ok res ∧
      res.w.map List.length = [31, 121] :=
  ⟨by decide, _, rfl, by decide⟩

/-- C20 (as amended): parse-then-serialize identity.  For every host byte
order, every value of `MaxBodyLen`, every scratch slice and every byte string
`s` of length exactly `24 + t` whose first byte is `0x80` and whose big-endian
32-bit value at offsets 8..12 is `t`, with `t <= MaxBodyLen` and
`24 + t <= 1 << 30`: `ReceiveRequest` on `s` returns a frame with no error,
`n = len(s)` and an empty reader, and the first call of `Bytes()` on that
frame returns `s`, whatever the opcode, key-length, extras-length and
data-type bytes, which the frame holds as they came. -/
theorem C20_parse_serialize (h : Endian) (maxBodyLen : Int) (s hdrBytes : List Byte) (t : Nat)
    (hlen : s.length = 24 + t) (hm : s.getD 0 0 = 0x80)
    (ht : beVal ((s.drop 8).take 4) = t) (hM : (t : Int) ≤ maxBodyLen)
    (hA : 24 + t ≤ 1073741824) :
    ∃ req fr,
      ReceiveRequest maxBodyLen s hdrBytes
        = { frame := some req, n := s.length, err := none, rest := [] } ∧
      MCRequest.Bytes h req = .ok (s, fr) ∧
      req.hdr.Opcode = s.getD 1 0 ∧ req.hdr.elen = s.getD 4 0 ∧ req.hdr.dt = s.getD 5 0 ∧
      req.hdr.klen.val = beVal ((s.drop 2).take 2) := by
  subst ht
  have h24 : 24 ≤ s.length := by omega
  have hacc := ReceiveRequest_accept maxBodyLen s hdrBytes h24 hm hM
  have e1 : (s.drop 24).take (beVal ((s.drop 8).take 4)) = s.drop 24 :=
    List.take_of_length_le (by simp only [List.length_drop]; omega)
  have e2 : beVal ((s.drop 8).take 4) - (s.length - 24) = 0 := by omega
  have e3 : min (beVal ((s.drop 8).take 4)) (s.length - 24) = beVal ((s.drop 8).take 4) := by
    omega
  have e4 : s.drop (24 + beVal ((s.drop 8).take 4)) = [] :=
    List.drop_eq_nil_of_le (by omega)
  have e5 : beVal ((s.drop 8).take 4) ≤ s.length - 24 := by omega
  rw [e1, e2, e3, e4, if_pos e5, List.replicate_zero, List.append_nil, ← hlen] at hacc
  have hb := u32_beVal_take4 (s.drop 8)
  have hB := MCRequest.req_Bytes_ok h
    { hdr :=
        { magic := s.getD 0 0
          Opcode := s.getD 1 0
          klen := u16 (beVal ((s.drop 2).take 2))
          elen := s.getD 4 0
          dt := s.getD 5 0
          VBucket := u16 (beVal ((s.drop 6).take 2))
          blen := u32 (beVal ((s.drop 8).take 4))
          Opaque := u32 (beVal ((s.drop 12).take 4))
          Cas := u64 (beVal ((s.drop 16).take 8)) }
      tail := s.drop 24 }
    (by simp only [hb, ARRAY_LEN]; omega) (by simp only [hb, List.length_drop]; omega)
  simp only [hb, e1, req_wire_parse s h24, List.take_append_drop] at hB
  refine ⟨_, _, hacc, hB, rfl, rfl, rfl, ?_⟩
  · have h1 := beVal_lt ((s.drop 2).take 2)
    have h2 : ((s.drop 2).take 2).length ≤ 2 := by simp only [List.length_take]; omega
    have h3 : 256 ^ ((s.drop 2).take 2).length ≤ 256 ^ 2 := Nat.pow_le_pow_right (by decide) h2
    simp only [u16]
    omega

/-- C20 witness: the input of `TestReceivingTapRequest` with its data-type
byte set to `0x07`: it is received and serialized back unchanged, although
the encoder would write a data type of 0. -/
theorem C20_parse_serialize_witness :
    ∃ req fr,
      ReceiveRequest MaxBodyLen (tapContent.set 5 0x07) []
        = { frame := some req, n := 46, err := none, rest := [] } ∧
      MCRequest.Bytes .little req = .ok (tapContent.set 5 0x07, fr) ∧
      req.hdr.Opcode = 0x41 ∧ req.hdr.elen = 2 ∧ req.hdr.dt = 0x07 ∧
      req.hdr.klen.val = 7 :=
  C20_parse_serialize .little MaxBodyLen (tapContent.set 5 0x07) [] 22 (by decide) (by decide)
    (by decide) (by decide) (by decide)

/-- C20 counterexample: with `MaxBodyLen` set to `1 << 30`, the 24-byte
header of a SET request declaring `1 << 30` tail bytes, followed by that many
zero bytes, is received without error with `n` the length of the stream, and
`Bytes()` panics on the returned frame. -/
theorem C20_counterexample :
    ReceiveRequest 1073741824
        (MCRequest.wire bigHdr ++ List.replicate 1073741824 (0 : Byte)) []
      = { frame := some { hdr := bigHdr, tail := List.replicate 1073741824 0 },
          n := 24 + (List.replicate 1073741824 (0 : Byte)).length, err := none, rest := [] } ∧
    MCRequest.Bytes .little { hdr := bigHdr, tail := List.replicate 1073741824 0 }
      = .error .sliceBounds :=
  ⟨bigHdr_receive _ (List.length_replicate _ _), bigHdr_bytes _ _⟩

/-- C21 (as amended): silent length truncation in build.  `SetData` is total;
for all extras, key and body it stores the extras length modulo `2^8`, the
key length modulo `2^16` and the total tail length modulo `2^32`, and the
tail holds all the supplied bytes, extras then key then body.  Consequently,
for every request built with a non-TAP opcode, at most 255 extras bytes, a key
of `65536 + j` bytes (`j < 65536`) and `24 + total <= 1 << 30`: `Extras()` is
the extras, `Key()` is only the first `j` bytes of the key, and `Body()` is
the remaining 65536 key bytes followed by the body; the three views still
partition the tail, and `Key()` differs from the supplied key. -/
theorem C21_length_truncation (h : Endian) (hdr : MCRequest) (extras key body : List Byte) :
    ((MCRequest.SetData hdr extras key body).hdr.elen.val = extras.length % 2 ^ 8 ∧
      (MCRequest.SetData hdr extras key body).hdr.klen.val = key.length % 2 ^ 16 ∧
      (MCRequest.SetData hdr extras key body).hdr.blen.val
        = (extras.length + key.length + body.length) % 2 ^ 32 ∧
      (MCRequest.SetData hdr extras key body).tail = extras ++ key ++ body) ∧
    ∀ j : Nat,
      (hdr.Opcode < TAP_MUTATION ∨ hdr.Opcode > TAP_CHECKPOINT_END) →
      extras.length ≤ 255 → key.length = 65536 + j → j < 65536 →
      24 + (extras.length + (65536 + j) + body.length) ≤ 1073741824 →
        MCRequest.Extras h (MCRequest.SetData hdr extras key body) = .ok extras ∧
        MCRequest.Key h (MCRequest.SetData hdr extras key body) = .ok (key.take j) ∧
        MCRequest.Body h (MCRequest.SetData hdr extras key body) = .ok (key.drop j ++ body) ∧
        extras ++ key.take j ++ (key.drop j ++ body)
          = (MCRequest.SetData hdr extras key body).tail ∧
        (key.drop j).length = 65536 ∧ key.take j ≠ key := by
  have ht := MCRequest.req_SetData_tail hdr extras key body
  refine ⟨⟨?_, ?_, ?_, ht⟩, ?_⟩
  · simp only [MCRequest.req_SetData_hdr, byte]; norm_num
  · simp only [MCRequest.req_SetData_hdr, u16]; norm_num
  · simp only [MCRequest.req_SetData_hdr, u32]
    norm_num
    congr 1
    omega
  intro j hop he hk hj hA
  have f1 : (MCRequest.SetData hdr extras key body).hdr.elen.val = extras.length := by
    simp only [MCRequest.req_SetData_hdr, byte]; omega
  have f2 : (MCRequest.SetData hdr extras key body).hdr.klen.val = j := by
    simp only [MCRequest.req_SetData_hdr, u16]; omega
  have f3 := MCRequest.req_SetData_blen hdr extras key body (by omega)
  have hE := MCRequest.req_SetData_real_elen h hdr extras key body hop he
  obtain ⟨a1, a2, a3⟩ := MCRequest.req_accessors h (MCRequest.SetData hdr extras key body)
    extras.length hE (by omega) (by rw [f3, ht]; simp only [List.length_append]; omega)
    (by rw [f3]; simp only [ARRAY_LEN]; omega)
  rw [ht] at a1
  rw [f2, ht] at a2
  rw [f2, f3, ht] at a3
  refine ⟨?_, ?_, ?_, ?_, ?_, ?_⟩
  · rw [a1, List.append_assoc, List.take_left]
  · rw [a2, List.append_assoc, List.drop_left, List.take_append_of_le_length (by omega)]
  · rw [a3, List.append_assoc, List.drop_append, List.drop_append_of_le_length (by omega),
      List.take_of_length_le (by simp only [List.length_append, List.length_drop]; omega)]
  · rw [ht]
    simp only [List.append_assoc]
    rw [← List.append_assoc (key.take j), List.take_append_drop]
  · simp only [List.length_drop]; omega
  · intro heq
    have := congrArg List.length heq
    simp only [List.length_take] at this
    omega

/-- C21 witness: a SET request with extras `01`, a key of 65537 bytes and the
body `"somevalue"`: `Key()` is the first byte of the key. -/
theorem C21_length_truncation_witness :
    MCRequest.Extras .little
        (MCRequest.SetData testHdr [1] (List.replicate 65537 (7 : Byte)) somevalue) = .ok [1] ∧
    MCRequest.Key .little
        (MCRequest.SetData testHdr [1] (List.replicate 65537 (7 : Byte)) somevalue)
      = .ok ((List.replicate 65537 (7 : Byte)).take 1) ∧
    MCRequest.Body .little
        (MCRequest.SetData testHdr [1] (List.replicate 65537 (7 : Byte)) somevalue)
      = .ok ((List.replicate 65537 (7 : Byte)).drop 1 ++ somevalue) ∧
    [1] ++ (List.replicate 65537 (7 : Byte)).take 1
        ++ ((List.replicate 65537 (7 : Byte)).drop 1 ++ somevalue)
      = (MCRequest.SetData testHdr [1] (List.replicate 65537 (7 : Byte)) somevalue).tail ∧
    ((List.replicate 65537 (7 : Byte)).drop 1).length = 65536 ∧
    (List.replicate 65537 (7 : Byte)).take 1 ≠ List.replicate 65537 (7 : Byte) :=
  (C21_length_truncation .little testHdr [1] (List.replicate 65537 (7 : Byte)) somevalue).2 1
    (Or.inl (by decide)) (by decide) (List.length_replicate _ _) (by decide) (by decide)

/-- C21 counterexample: a SET request with no extras, a key of 65536 bytes
(`j = 0`) and a body of `1 << 30` bytes: `Body()` does not return the
remaining key bytes followed by the body, it panics. -/
theorem C21_counterexample :
    (testHdr.Opcode < TAP_MUTATION ∧
      (List.replicate 65536 (0 : Byte)).length = 65536 + 0) ∧
    MCRequest.Body .little
      (MCRequest.SetData testHdr [] (List.replicate 65536 (0 : Byte))
        (List.replicate 1073741824 (0 : Byte))) = .error .sliceBounds :=
  ⟨⟨by decide, List.length_replicate _ _⟩,
    req_SetData_longkey_body_panic _ _ _ _ (Or.inl (by decide)) (List.length_replicate _ _)
      (List.length_replicate _ _)⟩

end Gomemcached
